import Mathlib

/-! Spock row-apply engine (`spock_apply_heap.c`).

A shallow embedding of the heap apply functions of the Spock logical
replication extension, followed by theorems about them.

Conventions of the embedding.

* A physical heap tuple is a list holding one nullable datum per physical
  column.  A remote row image (`SpockTupleData`) keeps the three parallel C
  arrays `values`, `nulls`, `changed` as functions of the column index.
* The local table is the list of its live tuples; a tuple identifier is a
  position in that list.
* Every call into a collaborator (executor, triggers, storage, conflict
  module) appends an `Event` to the trace of the `World`, in program order.
  What a collaborator answers is taken from the `Collaborators` record, so
  every theorem holds for all behaviours of the collaborators unless a
  hypothesis says otherwise.
* `ereport(ERROR, ...)` is `Except.error`.  A write outside the allocated
  slot array and a dereference of a null `spkmistate` are made explicit as
  errors of their own, so that their absence can be stated.
-/

namespace Spock

/-! ## Data model -/

/-- A column value. -/
inductive Datum
  | int (n : Int)
  | text (s : String)
  deriving DecidableEq, Repr, Inhabited

abbrev Oid := Nat

/-- Physical tuple: one entry per physical column, `none` for SQL NULL. -/
abbrev HeapTuple := List (Option Datum)

/-- Default expression of a column, as returned by `build_column_default`. -/
structure Expr where
  id : Nat
  deriving DecidableEq, Repr

/-- Remote row image: the `SpockTupleData` arrays. -/
structure SpockTupleData where
  values : Nat → Datum
  nulls : Nat → Bool
  changed : Nat → Bool

/-- One entry of the tuple descriptor together with what
`build_column_default` returns for it. -/
structure Attr where
  attisdropped : Bool
  defexpr : Option Expr
  deriving DecidableEq, Repr

/-- The fields of `TriggerDesc` read by this file. -/
structure TriggerDesc where
  trig_insert_before_row : Bool
  trig_insert_after_row : Bool
  trig_insert_instead_row : Bool
  trig_update_before_row : Bool
  trig_delete_before_row : Bool
  deriving DecidableEq, Repr

/-- A `SpockRelation` with the parts of its relcache entry and result
relation info that the apply functions read.  `relid` stands for the identity
of the C pointer. -/
structure SpockRelation where
  relid : Nat
  /-- Tuple descriptor of the local table; `desc->natts` is its length. -/
  atts : List Attr
  /-- Number of replicated attributes, `rel->natts`. -/
  natts : Nat
  /-- Map from replicated attribute to physical column, `rel->attmap`. -/
  attmap : List Int
  /-- Trigger descriptor `ri_TrigDesc`, `none` for NULL. -/
  trigdesc : Option TriggerDesc
  /-- Whether `rd_att->constr` is non-NULL. -/
  constr : Bool
  /-- Number of open indexes, `ri_NumIndices`. -/
  ri_NumIndices : Nat
  deriving DecidableEq, Repr

inductive SpockConflictType
  | CONFLICT_INSERT_INSERT
  | CONFLICT_UPDATE_UPDATE
  | CONFLICT_UPDATE_DELETE
  | CONFLICT_DELETE_DELETE
  deriving DecidableEq, Repr

inductive SpockConflictResolution
  | SpockResolution_ApplyRemote
  | SpockResolution_KeepLocal
  | SpockResolution_Skip
  deriving DecidableEq, Repr

/-- Calls into collaborators, in the order the program makes them. -/
inductive Event
  | create_estate_for_relation (relid : Nat)
  | EvalPlanQualInit
  | AfterTriggerBeginQuery
  | ExecOpenIndices
  | ExecCloseIndices
  | AfterTriggerEndQuery
  | EvalPlanQualEnd
  | ExecResetTupleTable
  | FreeExecutorState
  | ExecBRInsertTriggers (slot : HeapTuple) (result : Option HeapTuple)
  | ExecBRUpdateTriggers (tid : Nat) (slot : HeapTuple) (result : Option HeapTuple)
  | ExecBRDeleteTriggers (tid : Nat) (dodelete : Bool)
  | ExecARInsertTriggers (slot : HeapTuple) (recheckIndexes : List Oid)
  | ExecARUpdateTriggers (tid : Nat) (slot : HeapTuple) (recheckIndexes : List Oid)
  | ExecARDeleteTriggers (tid : Nat)
  | ExecConstraints (slot : HeapTuple)
  | simple_table_tuple_insert (slot : HeapTuple)
  | simple_table_tuple_update (tid : Nat) (slot : HeapTuple)
  | simple_heap_delete (tid : Nat)
  | heap_multi_insert (slots : List HeapTuple) (cid : Nat)
  | ExecInsertIndexTuples (slot : HeapTuple) (update : Bool)
  | spock_report_conflict (kind : SpockConflictType)
      (resolution : SpockConflictResolution) (has_before_triggers : Bool)
  | CommandCounterIncrement
  | GetBulkInsertState
  | FreeBulkInsertState
  | ResetPerTupleExprContext
  | table_slot_create
  | ExecClearTuple (idx : Nat)
  | ExecDropSingleTupleTableSlot (idx : Nat)
  deriving DecidableEq, Repr

/-- Errors raised by the apply functions. -/
inductive ApplyError
  /-- The `spock doesn't support deferrable indexes` report. -/
  | deferrable_indexes (idxnames : List String)
  /-- The `cache lookup failed for index oid` report. -/
  | cache_lookup_failed (idxoid : Oid)
  /-- Raised by `ExecConstraints`. -/
  | constraint_violation
  /-- A store to `buffered_tuples[i]` with `i` outside the allocation. -/
  | buffer_overrun
  /-- A dereference of `spkmistate` while it is NULL. -/
  | null_spkmistate
  deriving DecidableEq, Repr

/-- Result of `get_tuple_origin`. -/
structure TupleOrigin where
  found : Bool
  xmin : Nat
  local_origin : Nat
  deriving DecidableEq, Repr

/-- What the collaborators answer.  None of them is defined in
`spock_apply_heap.c`. -/
structure Collaborators where
  /-- Value and null flag produced by evaluating a default expression. -/
  ExecEvalExpr : Expr → Datum × Bool
  contain_volatile_functions_not_nextval : Expr → Bool
  /-- Before-row triggers: `none` is a veto, `some t` the possibly rewritten
  row. -/
  ExecBRInsertTriggers : HeapTuple → Option HeapTuple
  ExecBRUpdateTriggers : Nat → HeapTuple → Option HeapTuple
  ExecBRDeleteTriggers : Nat → Bool
  /-- Whether the row passes the table constraints. -/
  ExecConstraints : HeapTuple → Bool
  /-- Indexes that `ExecInsertIndexTuples` wants rechecked. -/
  ExecInsertIndexTuples : HeapTuple → Bool → List Oid
  get_rel_name : Oid → Option String
  /-- The `update_indexes` output of `simple_table_tuple_update`. -/
  update_indexes : Nat → HeapTuple → Bool
  /-- Conflict lookup of insert: detecting index and position of the local
  row, `none` for `InvalidOid`. -/
  spock_tuple_find_conflict : SpockRelation → List HeapTuple → SpockTupleData → Option (Oid × Nat)
  /-- Replica identity lookup: position of the local row when found. -/
  spock_tuple_find_replidx : SpockRelation → List HeapTuple → SpockTupleData → Option Nat
  /-- Decision, tuple to apply and resolution for a local and a remote
  tuple. -/
  try_resolve_conflict : HeapTuple → HeapTuple → Bool × HeapTuple × SpockConflictResolution
  get_tuple_origin : Nat → HeapTuple → TupleOrigin
  GetTopTransactionId : Nat
  replorigin_session_origin : Nat

/-- State related to bulk insert (`ApplyMIState`).  The execution state
`aestate` and the bulk insert handle `bistate` have no content of their own in
the embedding; their creation and release are events. -/
structure ApplyMIState where
  rel : SpockRelation
  cid : Nat
  /-- The slot array; `none` is a NULL slot pointer.  Its length is the size
  of the allocation. -/
  buffered_tuples : List (Option HeapTuple)
  maxbuffered_tuples : Nat
  nbuffered_tuples : Nat

/-- Everything the apply functions read and write. -/
structure World where
  /-- Live tuples of the local table. -/
  heap : List HeapTuple
  /-- Calls made so far. -/
  trace : List Event
  /-- Current command counter. -/
  cid : Nat
  /-- The static `spkmistate`. -/
  spkmistate : Option ApplyMIState

/-- Append one call to the trace. -/
def World.log (w : World) (e : Event) : World :=
  { w with trace := w.trace ++ [e] }

/-- Append several calls to the trace. -/
def World.logs (w : World) (es : List Event) : World :=
  { w with trace := w.trace ++ es }

/-- The calls appended to the trace between `w` and `w1`. -/
def newEvents (w w1 : World) : List Event :=
  w1.trace.drop w.trace.length

/-! ## Tuple construction -/

/-- The tuple built by `heap_form_tuple` for a descriptor of `natts` columns. -/
def heap_form_tuple (natts : Nat) (values : Nat → Datum) (nulls : Nat → Bool) : HeapTuple :=
  (List.range natts).map fun i => if nulls i then none else some (values i)

/-- The tuple built by `heap_modify_tuple`: column `i` is replaced when
`changed i` is set and copied from `tuple` otherwise. -/
def heap_modify_tuple (tuple : HeapTuple) (natts : Nat) (values : Nat → Datum)
    (nulls : Nat → Bool) (changed : Nat → Bool) : HeapTuple :=
  (List.range natts).map fun i =>
    if changed i then (if nulls i then none else some (values i))
    else (tuple.getD i none)

/-- Whether physical column `attid` is the target of a replicated attribute. -/
def physatt_in_attmap (rel : SpockRelation) (attid : Nat) : Bool :=
  (List.range rel.natts).any fun i => rel.attmap.getD i (-1) == (attid : Int)

/-- First loop of `fill_missing_defaults`: the columns that get a default,
with their expressions, in column order. -/
def fill_missing_defaults_defmap (rel : SpockRelation) : List (Nat × Expr) :=
  (List.range rel.atts.length).filterMap fun attnum =>
    match rel.atts.get? attnum with
    | none => none
    | some a =>
      if a.attisdropped then none
      else if physatt_in_attmap rel attnum then none
      else a.defexpr.map fun e => (attnum, e)

/-- Executes default values for columns for which we did not get any data.
The `changed` array is not touched. -/
def fill_missing_defaults (c : Collaborators) (rel : SpockRelation)
    (tuple : SpockTupleData) : SpockTupleData :=
  if rel.atts.length = rel.natts then tuple
  else
    (fill_missing_defaults_defmap rel).foldl
      (fun t (de : Nat × Expr) =>
        { t with
          values := Function.update t.values de.1 (c.ExecEvalExpr de.2).1
          nulls := Function.update t.nulls de.1 (c.ExecEvalExpr de.2).2 })
      tuple

/-! ## Execution state -/

def has_trig (rel : SpockRelation) (f : TriggerDesc → Bool) : Bool :=
  match rel.trigdesc with
  | none => false
  | some td => f td

def init_apply_exec_state (rel : SpockRelation) (w : World) : World :=
  let w := w.log (.create_estate_for_relation rel.relid)
  let w := if rel.trigdesc.isSome then w.log .EvalPlanQualInit else w
  w.log .AfterTriggerBeginQuery

def finish_apply_exec_state (rel : SpockRelation) (w : World) : World :=
  let w := w.log .ExecCloseIndices
  let w := w.log .AfterTriggerEndQuery
  let w := if rel.trigdesc.isSome then w.log .EvalPlanQualEnd else w
  let w := w.log .ExecResetTupleTable
  w.log .FreeExecutorState

def CommandCounterIncrement (w : World) : World :=
  { w with cid := w.cid + 1, trace := w.trace ++ [.CommandCounterIncrement] }

/-- Names of the indexes in `recheckIndexes`, or the first oid whose name
lookup fails. -/
def recheck_index_names (c : Collaborators) : List Oid → Except Oid (List String)
  | [] => .ok []
  | idxoid :: rest =>
    match c.get_rel_name idxoid with
    | none => .error idxoid
    | some idxname =>
      match recheck_index_names c rest with
      | .error e => .error e
      | .ok names => .ok (idxname :: names)

/-- Index maintenance of the single-row paths.  On success the returned list
is always empty. -/
def UserTableUpdateOpenIndexes (c : Collaborators) (rel : SpockRelation)
    (slot : HeapTuple) (update : Bool) (w : World) : Except ApplyError (List Oid × World) :=
  if rel.ri_NumIndices > 0 then
    let recheckIndexes := c.ExecInsertIndexTuples slot update
    let w := w.log (.ExecInsertIndexTuples slot update)
    if recheckIndexes ≠ [] then
      match recheck_index_names c recheckIndexes with
      | .error idxoid => .error (.cache_lookup_failed idxoid)
      | .ok names => .error (.deferrable_indexes names)
    else .ok ([], w)
  else .ok ([], w)

/-- The `ExecConstraints` call guarded by `rd_att->constr`. -/
def check_constraints (c : Collaborators) (rel : SpockRelation) (slot : HeapTuple)
    (w : World) : Except ApplyError World :=
  if rel.constr then
    if c.ExecConstraints slot then .ok (w.log (.ExecConstraints slot))
    else .error .constraint_violation
  else .ok w

/-! ## Single-row apply -/

/-- The update of the local row in `spock_apply_heap_insert`, from the
constraint check to the end of the function: the row in the slot replaces the
local row found by the conflict lookup. -/
def apply_insert_update (c : Collaborators) (rel : SpockRelation) (tid : Nat)
    (slot : HeapTuple) (w : World) : Except ApplyError World :=
  match check_constraints c rel slot w with
  | .error e => .error e
  | .ok w =>
    let w := { w with heap := w.heap.set tid slot }.log (.simple_table_tuple_update tid slot)
    if c.update_indexes tid slot then
      match UserTableUpdateOpenIndexes c rel slot true w with
      | .error e => .error e
      | .ok (recheckIndexes, w) =>
        let w := w.log (.ExecARUpdateTriggers tid slot recheckIndexes)
        .ok (CommandCounterIncrement (finish_apply_exec_state rel w))
    else
      let w := w.log (.ExecARUpdateTriggers tid slot [])
      .ok (CommandCounterIncrement (finish_apply_exec_state rel w))

/-- The part of `spock_apply_heap_insert` after the before-row insert
triggers: `remotetuple` is the row as the triggers left it. -/
def apply_insert_slot (c : Collaborators) (rel : SpockRelation)
    (conflicts_idx_id : Option (Oid × Nat)) (remotetuple : HeapTuple)
    (has_before_triggers : Bool) (w : World) : Except ApplyError World :=
  match conflicts_idx_id with
  | some (_, tid) =>
    let localtuple := w.heap[tid]?.getD []
    let res := c.try_resolve_conflict localtuple remotetuple
    let w := w.log (.spock_report_conflict .CONFLICT_INSERT_INSERT res.2.2 has_before_triggers)
    if res.1 then
      let applytuple := res.2.1
      if has_trig rel (·.trig_update_before_row) then
        let w := w.log (.ExecBRUpdateTriggers tid applytuple (c.ExecBRUpdateTriggers tid applytuple))
        match c.ExecBRUpdateTriggers tid applytuple with
        | none => .ok (finish_apply_exec_state rel w)
        | some slot => apply_insert_update c rel tid slot w
      else apply_insert_update c rel tid applytuple w
    else .ok (CommandCounterIncrement (finish_apply_exec_state rel w))
  | none =>
    match check_constraints c rel remotetuple w with
    | .error e => .error e
    | .ok w =>
      let w := { w with heap := w.heap ++ [remotetuple] }.log (.simple_table_tuple_insert remotetuple)
      match UserTableUpdateOpenIndexes c rel remotetuple false w with
      | .error e => .error e
      | .ok (_, w) =>
        let w := w.log (.ExecARInsertTriggers remotetuple [])
        .ok (CommandCounterIncrement (finish_apply_exec_state rel w))

/-- Handle insert via low level api. -/
def spock_apply_heap_insert (c : Collaborators) (rel : SpockRelation)
    (newtup : SpockTupleData) (w : World) : Except ApplyError World :=
  let w := init_apply_exec_state rel w
  let w := w.log .ExecOpenIndices
  let conflicts_idx_id := c.spock_tuple_find_conflict rel w.heap newtup
  let newtup := fill_missing_defaults c rel newtup
  let remotetuple := heap_form_tuple rel.atts.length newtup.values newtup.nulls
  if has_trig rel (·.trig_insert_before_row) then
    let w := w.log (.ExecBRInsertTriggers remotetuple (c.ExecBRInsertTriggers remotetuple))
    match c.ExecBRInsertTriggers remotetuple with
    | none => .ok (finish_apply_exec_state rel w)
    | some remotetuple => apply_insert_slot c rel conflicts_idx_id remotetuple true w
  else apply_insert_slot c rel conflicts_idx_id remotetuple false w

/-- The update of the local row in `spock_apply_heap_update`, from the
constraint check to the end of the function. -/
def apply_update_update (c : Collaborators) (rel : SpockRelation) (tid : Nat)
    (slot : HeapTuple) (w : World) : Except ApplyError World :=
  match check_constraints c rel slot w with
  | .error e => .error e
  | .ok w =>
    let w := { w with heap := w.heap.set tid slot }.log (.simple_table_tuple_update tid slot)
    if c.update_indexes tid slot then
      match UserTableUpdateOpenIndexes c rel slot true (w.log .ExecOpenIndices) with
      | .error e => .error e
      | .ok (recheckIndexes, w) =>
        let w := w.log (.ExecARUpdateTriggers tid slot recheckIndexes)
        .ok (CommandCounterIncrement (finish_apply_exec_state rel w))
    else
      let w := w.log (.ExecARUpdateTriggers tid slot [])
      .ok (CommandCounterIncrement (finish_apply_exec_state rel w))

/-- The part of `spock_apply_heap_update` after the before-row update
triggers, for a local row found at `tid`: conflict detection and apply. -/
def apply_update_slot (c : Collaborators) (rel : SpockRelation) (tid : Nat)
    (localtuple remotetuple : HeapTuple) (has_before_triggers : Bool) (w : World) :
    Except ApplyError World :=
  let o := c.get_tuple_origin tid localtuple
  if o.found && o.xmin != c.GetTopTransactionId
      && o.local_origin != c.replorigin_session_origin then
    let res := c.try_resolve_conflict localtuple remotetuple
    let w := w.log (.spock_report_conflict .CONFLICT_UPDATE_UPDATE res.2.2 has_before_triggers)
    if res.1 then apply_update_update c rel tid res.2.1 w
    else .ok (CommandCounterIncrement (finish_apply_exec_state rel w))
  else apply_update_update c rel tid remotetuple w

/-- Handle update via low level api. -/
def spock_apply_heap_update (c : Collaborators) (rel : SpockRelation)
    (oldtup newtup : SpockTupleData) (w : World) : Except ApplyError World :=
  let w := init_apply_exec_state rel w
  match c.spock_tuple_find_replidx rel w.heap oldtup with
  | some tid =>
    let localtuple := w.heap[tid]?.getD []
    let newtup := fill_missing_defaults c rel newtup
    let remotetuple := heap_modify_tuple localtuple rel.atts.length
      newtup.values newtup.nulls newtup.changed
    if has_trig rel (·.trig_update_before_row) then
      let w := w.log
        (.ExecBRUpdateTriggers tid remotetuple (c.ExecBRUpdateTriggers tid remotetuple))
      match c.ExecBRUpdateTriggers tid remotetuple with
      | none => .ok (finish_apply_exec_state rel w)
      | some remotetuple => apply_update_slot c rel tid localtuple remotetuple true w
    else apply_update_slot c rel tid localtuple remotetuple false w
  | none =>
    let w := w.log (.spock_report_conflict .CONFLICT_UPDATE_DELETE .SpockResolution_Skip false)
    .ok (CommandCounterIncrement (finish_apply_exec_state rel w))

/-- The part of `spock_apply_heap_delete` that deletes the local row found at
`tid` and runs the after-row triggers, to the end of the function. -/
def apply_delete_found (rel : SpockRelation) (tid : Nat) (w : World) : World :=
  let w := { w with heap := w.heap.eraseIdx tid }.log (.simple_heap_delete tid)
  let w := w.log (.ExecARDeleteTriggers tid)
  CommandCounterIncrement (finish_apply_exec_state rel w)

/-- Handle delete via low level api. -/
def spock_apply_heap_delete (c : Collaborators) (rel : SpockRelation)
    (oldtup : SpockTupleData) (w : World) : Except ApplyError World :=
  let w := init_apply_exec_state rel w
  match c.spock_tuple_find_replidx rel w.heap oldtup with
  | some tid =>
    if has_trig rel (·.trig_delete_before_row) then
      let w := w.log (.ExecBRDeleteTriggers tid (c.ExecBRDeleteTriggers tid))
      if c.ExecBRDeleteTriggers tid then .ok (apply_delete_found rel tid w)
      else .ok (finish_apply_exec_state rel w)
    else .ok (apply_delete_found rel tid w)
  | none =>
    let w := w.log (.spock_report_conflict .CONFLICT_DELETE_DELETE .SpockResolution_Skip false)
    .ok (CommandCounterIncrement (finish_apply_exec_state rel w))

/-! ## Multi-insert -/

/-- The loop of `spock_apply_heap_mi_start` that looks for a volatile default
expression: dropped columns and columns without default are skipped, the
first expression found volatile ends the loop. -/
def volatile_defexprs_loop (c : Collaborators) : List Attr → Bool
  | [] => false
  | a :: rest =>
    if a.attisdropped then volatile_defexprs_loop c rest
    else
      match a.defexpr with
      | none => volatile_defexprs_loop c rest
      | some defexpr =>
        if c.contain_volatile_functions_not_nextval defexpr then true
        else volatile_defexprs_loop c rest

/-- Value of `volatile_defexprs` after the check of `spock_apply_heap_mi_start`:
the loop runs only when the descriptor has not as many columns as are
replicated. -/
def volatile_defexprs (c : Collaborators) (rel : SpockRelation) : Bool :=
  if rel.atts.length ≠ rel.natts then volatile_defexprs_loop c rel.atts else false

/-- The `maxbuffered_tuples` chosen by `spock_apply_heap_mi_start`. -/
def mi_maxbuffered_tuples (c : Collaborators) (rel : SpockRelation) : Nat :=
  if (match rel.trigdesc with
      | none => false
      | some td => td.trig_insert_before_row || td.trig_insert_instead_row)
      || volatile_defexprs c rel then 1
  else 1000

/-- Write the buffered tuples. -/
def spock_apply_heap_mi_flush (c : Collaborators) (w : World) : World :=
  match w.spkmistate with
  | none => w
  | some st =>
    if st.nbuffered_tuples = 0 then w
    else
      let slots := (st.buffered_tuples.take st.nbuffered_tuples).reduceOption
      let w := { w with heap := w.heap ++ slots }.log (.heap_multi_insert slots st.cid)
      let w :=
        if st.rel.ri_NumIndices > 0 then
          w.logs (slots.flatMap fun slot =>
            [.ExecInsertIndexTuples slot false,
             .ExecARInsertTriggers slot (c.ExecInsertIndexTuples slot false)])
        else if has_trig st.rel (·.trig_insert_after_row) then
          w.logs (slots.map fun slot => .ExecARInsertTriggers slot [])
        else w
      { w with spkmistate := some { st with nbuffered_tuples := 0 } }

/-- The slots released by the loop of `spock_apply_heap_mi_finish`. -/
def mi_drop_slots (buffered_tuples : List (Option HeapTuple)) (maxbuffered_tuples : Nat) :
    List Event :=
  (List.range maxbuffered_tuples).filterMap fun i =>
    match buffered_tuples.getD i none with
    | none => none
    | some _ => some (.ExecDropSingleTupleTableSlot i)

/-- Flush, release everything and forget the state.  The `Assert` on the
relation is compiled out of production builds and is no step of the model, so
the argument is not looked at. -/
def spock_apply_heap_mi_finish (c : Collaborators) (_rel : SpockRelation) (w : World) : World :=
  match w.spkmistate with
  | none => w
  | some _ =>
    let w := spock_apply_heap_mi_flush c w
    match w.spkmistate with
    | none => w
    | some st =>
      let w := w.log .FreeBulkInsertState
      let w := finish_apply_exec_state st.rel w
      let w := w.logs (mi_drop_slots st.buffered_tuples st.maxbuffered_tuples)
      { w with spkmistate := none }

/-- MultiInsert initialization. -/
def spock_apply_heap_mi_start (c : Collaborators) (rel : SpockRelation) (w : World) : World :=
  if (match w.spkmistate with
      | none => false
      | some st => st.rel.relid == rel.relid) then w
  else
    let w :=
      match w.spkmistate with
      | none => w
      | some st => spock_apply_heap_mi_finish c st.rel w
    let w := init_apply_exec_state rel w
    let w := w.log .ExecOpenIndices
    let maxbuffered_tuples := mi_maxbuffered_tuples c rel
    let w := w.log .GetBulkInsertState
    { w with
      spkmistate := some
        { rel := rel
          cid := w.cid
          buffered_tuples := List.replicate maxbuffered_tuples none
          maxbuffered_tuples := maxbuffered_tuples
          nbuffered_tuples := 0 } }

/-- The first two statements of `spock_apply_heap_mi_add_tuple`: start, then
process the pending work first when the buffer is full. -/
def mi_add_prepare (c : Collaborators) (rel : SpockRelation) (w : World) : World :=
  let w := spock_apply_heap_mi_start c rel w
  match w.spkmistate with
  | none => w
  | some st =>
    if st.nbuffered_tuples ≥ st.maxbuffered_tuples then spock_apply_heap_mi_flush c w
    else w

/-- Add tuple to the MultiInsert. -/
def spock_apply_heap_mi_add_tuple (c : Collaborators) (rel : SpockRelation)
    (tup : SpockTupleData) (w : World) : Except ApplyError World :=
  let w := mi_add_prepare c rel w
  match w.spkmistate with
  | none => .error .null_spkmistate
  | some st =>
    let w := if st.nbuffered_tuples = 0 then w.log .ResetPerTupleExprContext else w
    let tup := fill_missing_defaults c rel tup
    let remotetuple := heap_form_tuple rel.atts.length tup.values tup.nulls
    let br : Option HeapTuple × World :=
      if has_trig st.rel (·.trig_insert_before_row) then
        (c.ExecBRInsertTriggers remotetuple,
          w.log (.ExecBRInsertTriggers remotetuple (c.ExecBRInsertTriggers remotetuple)))
      else (some remotetuple, w)
    match br with
    | (none, w) => .ok w
    | (some slot, w) =>
      match check_constraints c rel slot w with
      | .error e => .error e
      | .ok w =>
        if st.nbuffered_tuples < st.buffered_tuples.length then
          let w := w.log
            (match st.buffered_tuples.getD st.nbuffered_tuples none with
              | none => .table_slot_create
              | some _ => .ExecClearTuple st.nbuffered_tuples)
          .ok { w with
                spkmistate := some
                  { st with
                    buffered_tuples := st.buffered_tuples.set st.nbuffered_tuples (some slot)
                    nbuffered_tuples := st.nbuffered_tuples + 1 } }
        else .error .buffer_overrun

/-- The calls a driver of the multi-insert path can make. -/
inductive MICall
  | add_tuple (rel : SpockRelation) (tup : SpockTupleData)
  | flush
  | finish (rel : SpockRelation)

/-- Perform one call. -/
def mi_call (c : Collaborators) (w : World) : MICall → Except ApplyError World
  | .add_tuple rel tup => spock_apply_heap_mi_add_tuple c rel tup w
  | .flush => .ok (spock_apply_heap_mi_flush c w)
  | .finish rel => .ok (spock_apply_heap_mi_finish c rel w)

/-- Perform a sequence of calls, stopping at the first error. -/
def mi_run (c : Collaborators) : World → List MICall → Except ApplyError World
  | w, [] => .ok w
  | w, call :: rest =>
    match mi_call c w call with
    | .error e => .error e
    | .ok w1 => mi_run c w1 rest

/-- The idle state: empty table, nothing traced, no multi-insert state. -/
def World.idle : World :=
  { heap := [], trace := [], cid := 0, spkmistate := none }

/-- Occupancy is within capacity and the slot array has the declared size. -/
def MIInv (w : World) : Prop :=
  ∀ st, w.spkmistate = some st →
    st.nbuffered_tuples ≤ st.maxbuffered_tuples ∧
    st.buffered_tuples.length = st.maxbuffered_tuples ∧
    0 < st.maxbuffered_tuples

/-! ## Concrete inputs -/

/-- Modelled from the spec: the row lookup collaborator (`spock_tuple_find_replidx`
and `spock_tuple_find_conflict` live in the conflict module).  "Given a key row
image, return not found or a matching local row": here the key is the first
column, and the first live row carrying the image's key is the match. -/
def lookup_first_column (heap : List HeapTuple) (tup : SpockTupleData) : Option Nat :=
  heap.findIdx? fun row =>
    decide (row.getD 0 none = (if tup.nulls 0 then none else some (tup.values 0)))

/-- Collaborators of a quiet table: triggers let every row through unchanged,
constraints hold, no index asks for a recheck, the resolver applies the remote
row, and rows are looked up by their first column. -/
def quiet : Collaborators where
  ExecEvalExpr := fun _ => (Datum.int 0, false)
  contain_volatile_functions_not_nextval := fun _ => false
  ExecBRInsertTriggers := fun t => some t
  ExecBRUpdateTriggers := fun _ t => some t
  ExecBRDeleteTriggers := fun _ => true
  ExecConstraints := fun _ => true
  ExecInsertIndexTuples := fun _ _ => []
  get_rel_name := fun _ => some "idx"
  update_indexes := fun _ _ => true
  spock_tuple_find_conflict := fun _ heap tup => (lookup_first_column heap tup).map fun tid => (1, tid)
  spock_tuple_find_replidx := fun _ heap tup => lookup_first_column heap tup
  try_resolve_conflict := fun _ remote => (true, remote, .SpockResolution_ApplyRemote)
  get_tuple_origin := fun _ _ => { found := false, xmin := 0, local_origin := 0 }
  GetTopTransactionId := 1
  replorigin_session_origin := 1

/-- No triggers at all. -/
def no_triggers : TriggerDesc where
  trig_insert_before_row := false
  trig_insert_after_row := false
  trig_insert_instead_row := false
  trig_update_before_row := false
  trig_delete_before_row := false

/-- The relation `R(id pk, v)`: two columns, both replicated, one index, no
trigger, no constraint. -/
def relR : SpockRelation where
  relid := 1
  atts := [{ attisdropped := false, defexpr := none }, { attisdropped := false, defexpr := none }]
  natts := 2
  attmap := [0, 1]
  trigdesc := none
  constr := false
  ri_NumIndices := 1

/-- The relation `R` with a before-row insert trigger. -/
def relR_br : SpockRelation :=
  { relR with relid := 2, trigdesc := some { no_triggers with trig_insert_before_row := true } }

/-- Row image `(id, v)` with every column present and marked changed. -/
def image (id : Int) (v : String) : SpockTupleData where
  values := fun i => if i = 0 then Datum.int id else Datum.text v
  nulls := fun _ => false
  changed := fun _ => true

/-- Collaborators of a quiet table for which every default expression
contains a volatile function other than `nextval`. -/
def quiet_volatile : Collaborators :=
  { quiet with contain_volatile_functions_not_nextval := fun _ => true }

/-- A relation without triggers whose two columns are both replicated and
whose second column has a default expression. -/
def relV : SpockRelation where
  relid := 3
  atts := [{ attisdropped := false, defexpr := none },
           { attisdropped := false, defexpr := some { id := 7 } }]
  natts := 2
  attmap := [0, 1]
  trigdesc := none
  constr := false
  ri_NumIndices := 1

/-- The capacity rule in the words of the specification: capacity one when
the relation has a before-row insert trigger, an instead-of insert trigger or
any column whose default expression is volatile (`is_volatile`), and one
thousand in every other case. -/
def spec_capacity (is_volatile : Expr → Bool) (rel : SpockRelation) : Nat :=
  if has_trig rel (·.trig_insert_before_row) || has_trig rel (·.trig_insert_instead_row)
      || rel.atts.any (fun a => match a.defexpr with
          | none => false
          | some e => is_volatile e) then 1
  else 1000

/-! ## Reading a trace -/

/-- The rows of every bulk write, one list per `heap_multi_insert`, in order. -/
def bulk_writes (es : List Event) : List (List HeapTuple) :=
  es.filterMap fun e =>
    match e with
    | .heap_multi_insert slots _ => some slots
    | _ => none

/-- The rows handed to `ExecInsertIndexTuples`, in order. -/
def index_rows (es : List Event) : List HeapTuple :=
  es.filterMap fun e =>
    match e with
    | .ExecInsertIndexTuples slot _ => some slot
    | _ => none

/-- The rows handed to `ExecARInsertTriggers`, in order. -/
def ar_insert_rows (es : List Event) : List HeapTuple :=
  es.filterMap fun e =>
    match e with
    | .ExecARInsertTriggers slot _ => some slot
    | _ => none

/-- Whether a call writes rows in bulk, maintains the indexes for an inserted
row or runs the after-row insert triggers. -/
def is_storage : Event → Bool
  | .heap_multi_insert _ _ => true
  | .ExecInsertIndexTuples _ _ => true
  | .ExecARInsertTriggers _ _ => true
  | _ => false

/-- The calls of a trace that satisfy `is_storage`. -/
def storage_events (es : List Event) : List Event :=
  es.filter is_storage

/-- Walk along a trace counting the rows placed by bulk writes, the index
maintenance calls and the after-row insert trigger calls.  The walk fails at
an index maintenance call or trigger call that is not preceded by more placed
rows than there were such calls before it. -/
def placement_scan : Nat × Nat × Nat → List Event → Option (Nat × Nat × Nat)
  | s, [] => some s
  | (p, i, f), .heap_multi_insert slots _ :: es => placement_scan (p + slots.length, i, f) es
  | (p, i, f), .ExecInsertIndexTuples _ _ :: es =>
    if i < p then placement_scan (p, i + 1, f) es else none
  | (p, i, f), .ExecARInsertTriggers _ _ :: es =>
    if f < p then placement_scan (p, i, f + 1) es else none
  | s, _ :: es => placement_scan s es

/-- Every index maintenance call and every after-row insert trigger call of
the trace comes after the bulk write that placed its row: the k-th such call
(counting from zero) finds more than k rows placed. -/
def after_placement (es : List Event) : Bool :=
  (placement_scan (0, 0, 0) es).isSome

/-- The row to insert as the before-row insert triggers leave it: the tuple
formed from the image after the defaults are filled in, handed to the triggers
when the relation has some; `none` when they veto. -/
def br_insert_row (c : Collaborators) (rel : SpockRelation) (tup : SpockTupleData) :
    Option HeapTuple :=
  if has_trig rel (·.trig_insert_before_row) then
    c.ExecBRInsertTriggers (heap_form_tuple rel.atts.length
      (fill_missing_defaults c rel tup).values (fill_missing_defaults c rel tup).nulls)
  else
    some (heap_form_tuple rel.atts.length
      (fill_missing_defaults c rel tup).values (fill_missing_defaults c rel tup).nulls)

/-- The calls a flush of `slots` appends to the trace. -/
def flush_events (c : Collaborators) (rel : SpockRelation) (cid : Nat)
    (slots : List HeapTuple) : List Event :=
  .heap_multi_insert slots cid ::
    (if rel.ri_NumIndices > 0 then
      slots.flatMap fun slot =>
        [.ExecInsertIndexTuples slot false,
         .ExecARInsertTriggers slot (c.ExecInsertIndexTuples slot false)]
    else if has_trig rel (·.trig_insert_after_row) then
      slots.map fun slot => .ExecARInsertTriggers slot []
    else [])

/-- A run of adds of the given row images to one relation. -/
def mi_adds (rel : SpockRelation) (tups : List SpockTupleData) : List MICall :=
  tups.map (MICall.add_tuple rel)

/-- The calls an add appends to the trace, after start and the flush of a full
buffer, when it stores row `r` into the state `st`. -/
def mi_add_events (c : Collaborators) (rel : SpockRelation) (st : ApplyMIState)
    (tup : SpockTupleData) (r : HeapTuple) : List Event :=
  (if st.nbuffered_tuples = 0 then [Event.ResetPerTupleExprContext] else []) ++
  (if has_trig st.rel (·.trig_insert_before_row) then
    [Event.ExecBRInsertTriggers
      (heap_form_tuple rel.atts.length
        (fill_missing_defaults c rel tup).values (fill_missing_defaults c rel tup).nulls)
      (some r)]
   else []) ++
  (if rel.constr then [Event.ExecConstraints r] else []) ++
  [match st.buffered_tuples.getD st.nbuffered_tuples none with
    | none => Event.table_slot_create
    | some _ => Event.ExecClearTuple st.nbuffered_tuples]

/-- What holds during a run of adds of `rows` to `rel` that began in `w0`:
the rows fall into full batches already flushed and the pending rows held in
the first slots of the buffer; the table and the trace have grown by the
flushes of the batches. -/
def AddsInv (c : Collaborators) (rel : SpockRelation) (w0 : World) (rows : List HeapTuple)
    (w : World) : Prop :=
  ∃ (st : ApplyMIState) (batches : List (List HeapTuple)) (pending : List HeapTuple)
    (evs : List Event),
    w.spkmistate = some st ∧ st.rel = rel ∧
    st.maxbuffered_tuples = mi_maxbuffered_tuples c rel ∧
    st.buffered_tuples.length = st.maxbuffered_tuples ∧
    st.nbuffered_tuples = pending.length ∧
    pending.length ≤ st.maxbuffered_tuples ∧
    st.buffered_tuples.take st.nbuffered_tuples = pending.map some ∧
    rows = batches.flatten ++ pending ∧
    (∀ b ∈ batches, b.length = st.maxbuffered_tuples) ∧
    (rows ≠ [] → pending ≠ []) ∧
    w.heap = w0.heap ++ batches.flatten ∧
    w.trace = w0.trace ++ evs ∧
    storage_events evs = batches.flatMap (flush_events c rel st.cid)

/-- The calls made by `init_apply_exec_state`. -/
def init_events (rel : SpockRelation) : List Event :=
  [Event.create_estate_for_relation rel.relid] ++
  (if rel.trigdesc.isSome then [Event.EvalPlanQualInit] else []) ++
  [Event.AfterTriggerBeginQuery]

/-- The calls made by `finish_apply_exec_state`. -/
def finish_events (rel : SpockRelation) : List Event :=
  [Event.ExecCloseIndices, Event.AfterTriggerEndQuery] ++
  (if rel.trigdesc.isSome then [Event.EvalPlanQualEnd] else []) ++
  [Event.ExecResetTupleTable, Event.FreeExecutorState]

/-- Three row images for `R`. -/
def images3 : List SpockTupleData :=
  [image 1 "a", image 2 "b", image 3 "c"]

/-- The rows formed from `images3`. -/
def rows3 : List HeapTuple :=
  [[some (Datum.int 1), some (Datum.text "a")],
   [some (Datum.int 2), some (Datum.text "b")],
   [some (Datum.int 3), some (Datum.text "c")]]

/-- Kind and resolution of every conflict report of a trace, in order. -/
def conflict_reports (es : List Event) : List (SpockConflictType × SpockConflictResolution) :=
  es.filterMap fun e =>
    match e with
    | .spock_report_conflict kind resolution _ => some (kind, resolution)
    | _ => none

/-- Whether a call changes the table or its indexes. -/
def is_mutation : Event → Bool
  | .simple_table_tuple_insert _ => true
  | .simple_table_tuple_update _ _ => true
  | .simple_heap_delete _ => true
  | .heap_multi_insert _ _ => true
  | .ExecInsertIndexTuples _ _ => true
  | _ => false

/-- Whether a call runs row triggers, before or after. -/
def is_trigger : Event → Bool
  | .ExecBRInsertTriggers _ _ => true
  | .ExecBRUpdateTriggers _ _ _ => true
  | .ExecBRDeleteTriggers _ _ => true
  | .ExecARInsertTriggers _ _ => true
  | .ExecARUpdateTriggers _ _ _ => true
  | .ExecARDeleteTriggers _ => true
  | _ => false

/-- Whether a call runs after-row triggers. -/
def is_after_trigger : Event → Bool
  | .ExecARInsertTriggers _ _ => true
  | .ExecARUpdateTriggers _ _ _ => true
  | .ExecARDeleteTriggers _ => true
  | _ => false

/-- Whether a before-row trigger call of the trace ended in a veto. -/
def is_veto : Event → Bool
  | .ExecBRInsertTriggers _ none => true
  | .ExecBRUpdateTriggers _ _ none => true
  | .ExecBRDeleteTriggers _ false => true
  | _ => false

/-- Collaborators of a quiet table whose before-row insert trigger vetoes
every row. -/
def quiet_veto : Collaborators :=
  { quiet with
    ExecBRInsertTriggers := fun _ => none
    ExecBRUpdateTriggers := fun _ _ => none
    ExecBRDeleteTriggers := fun _ => false }

/-- The call made by `check_constraints`. -/
def constraint_events (rel : SpockRelation) (slot : HeapTuple) : List Event :=
  if rel.constr then [Event.ExecConstraints slot] else []

/-- The call made by `UserTableUpdateOpenIndexes`. -/
def index_events (rel : SpockRelation) (slot : HeapTuple) (update : Bool) : List Event :=
  if rel.ri_NumIndices > 0 then [Event.ExecInsertIndexTuples slot update] else []

/-- Whether the row passes `check_constraints`. -/
def constraints_pass (c : Collaborators) (rel : SpockRelation) (slot : HeapTuple) : Prop :=
  rel.constr = true → c.ExecConstraints slot = true

/-- Whether index maintenance for the row asks for no recheck. -/
def no_recheck (c : Collaborators) (rel : SpockRelation) (slot : HeapTuple) (update : Bool) :
    Prop :=
  rel.ri_NumIndices > 0 → c.ExecInsertIndexTuples slot update = []

/-- The calls of `apply_insert_update` before the teardown. -/
def insert_update_events (c : Collaborators) (rel : SpockRelation) (tid : Nat)
    (slot : HeapTuple) : List Event :=
  constraint_events rel slot ++ [Event.simple_table_tuple_update tid slot] ++
  (if c.update_indexes tid slot then index_events rel slot true else []) ++
  [Event.ExecARUpdateTriggers tid slot []]

/-- The calls of the plain insert of `apply_insert_slot` before the teardown. -/
def insert_plain_events (rel : SpockRelation) (slot : HeapTuple) : List Event :=
  constraint_events rel slot ++ [Event.simple_table_tuple_insert slot] ++
  index_events rel slot false ++ [Event.ExecARInsertTriggers slot []]

/-- The tuple `spock_apply_heap_insert` and the multi-insert add form from a
row image: defaults filled in, then `heap_form_tuple`. -/
def insert_tuple (c : Collaborators) (rel : SpockRelation) (newtup : SpockTupleData) :
    HeapTuple :=
  heap_form_tuple rel.atts.length
    (fill_missing_defaults c rel newtup).values (fill_missing_defaults c rel newtup).nulls

/-- The before-row insert trigger call of `spock_apply_heap_insert`. -/
def br_insert_events (c : Collaborators) (rel : SpockRelation) (newtup : SpockTupleData) :
    List Event :=
  if has_trig rel (·.trig_insert_before_row) then
    [Event.ExecBRInsertTriggers (insert_tuple c rel newtup)
      (c.ExecBRInsertTriggers (insert_tuple c rel newtup))]
  else []

/-- The row to write on the conflict path as the before-row update triggers
leave it; `none` when they veto. -/
def br_update_row (c : Collaborators) (rel : SpockRelation) (tid : Nat) (slot : HeapTuple) :
    Option HeapTuple :=
  if has_trig rel (·.trig_update_before_row) then c.ExecBRUpdateTriggers tid slot
  else some slot

/-- The before-row update trigger call for the row `slot`. -/
def br_update_events (c : Collaborators) (rel : SpockRelation) (tid : Nat) (slot : HeapTuple) :
    List Event :=
  if has_trig rel (·.trig_update_before_row) then
    [Event.ExecBRUpdateTriggers tid slot (c.ExecBRUpdateTriggers tid slot)]
  else []

/-- Whether a call is neither a vetoing trigger call, nor the command counter
increment, nor the release of the executor state. -/
def is_inner : Event → Bool
  | .CommandCounterIncrement => false
  | .FreeExecutorState => false
  | e => !is_veto e

/-- The relation `R` with a before-row update trigger. -/
def relR_bru : SpockRelation :=
  { relR with relid := 4, trigdesc := some { no_triggers with trig_update_before_row := true } }

/-- The relation `R` with a before-row delete trigger. -/
def relR_brd : SpockRelation :=
  { relR with relid := 5, trigdesc := some { no_triggers with trig_delete_before_row := true } }

/-- The table holding the single row `(1, "a")`. -/
def World.one_row : World :=
  { World.idle with heap := [[some (Datum.int 1), some (Datum.text "a")]] }

/-- The row `spock_apply_heap_update` builds for a local row found at `tid`:
defaults filled into the new image, then `heap_modify_tuple` over the local
row. -/
def update_tuple (c : Collaborators) (rel : SpockRelation) (newtup : SpockTupleData)
    (heap : List HeapTuple) (tid : Nat) : HeapTuple :=
  heap_modify_tuple (heap[tid]?.getD []) rel.atts.length
    (fill_missing_defaults c rel newtup).values (fill_missing_defaults c rel newtup).nulls
    (fill_missing_defaults c rel newtup).changed

/-- Whether a call inserts a new row into the table. -/
def is_row_insert : Event → Bool
  | .simple_table_tuple_insert _ => true
  | .heap_multi_insert _ _ => true
  | _ => false

/-- The merge in the words of the specification: the remote image's changed
columns laid over the previous local content, column by column. -/
def spec_merge_changed (localtuple : HeapTuple) (tup : SpockTupleData) : HeapTuple :=
  (List.range localtuple.length).map fun i =>
    if tup.changed i then (if tup.nulls i then none else some (tup.values i))
    else localtuple.getD i none

/-- The relation `X(id pk, v, extra)`: three local columns of which the first
two are replicated; no trigger, no constraint, no default. -/
def relX : SpockRelation where
  relid := 6
  atts := [{ attisdropped := false, defexpr := none }, { attisdropped := false, defexpr := none },
           { attisdropped := false, defexpr := none }]
  natts := 2
  attmap := [0, 1]
  trigdesc := none
  constr := false
  ri_NumIndices := 1

/-- Row image `(id, v)` for `X`: the two replicated columns are present and
changed, the third column is null and not changed. -/
def imageX (id : Int) (v : String) : SpockTupleData where
  values := fun i => if i = 0 then Datum.int id else Datum.text v
  nulls := fun i => decide (2 ≤ i)
  changed := fun i => decide (i < 2)

/-- The table `X` holding the single row `(1, "a", 5)`. -/
def World.one_rowX : World :=
  { World.idle with heap := [[some (Datum.int 1), some (Datum.text "a"), some (Datum.int 5)]] }

/-- Collaborators of a quiet table whose index maintenance reports index 42
for a deferred recheck, as a deferrable unique index makes it do. -/
def quiet_deferrable : Collaborators :=
  { quiet with ExecInsertIndexTuples := fun _ _ => [42] }

/-- The test of `spock_apply_heap_update` that decides whether the update is
an update-update conflict: the origin of the local row was found, its `xmin`
is not the current top transaction and its origin is not the session origin. -/
def update_conflict (c : Collaborators) (tid : Nat) (localtuple : HeapTuple) : Bool :=
  (c.get_tuple_origin tid localtuple).found
    && (c.get_tuple_origin tid localtuple).xmin != c.GetTopTransactionId
    && (c.get_tuple_origin tid localtuple).local_origin != c.replorigin_session_origin

/-- The calls of `apply_update_update` before the teardown. -/
def update_update_events (c : Collaborators) (rel : SpockRelation) (tid : Nat)
    (slot : HeapTuple) : List Event :=
  constraint_events rel slot ++ [Event.simple_table_tuple_update tid slot] ++
  (if c.update_indexes tid slot then Event.ExecOpenIndices :: index_events rel slot true
   else []) ++
  [Event.ExecARUpdateTriggers tid slot []]

/-- The rows handed to `simple_table_tuple_update`, with the position of the
row they replace, in order. -/
def updated_rows (es : List Event) : List (Nat × HeapTuple) :=
  es.filterMap fun e =>
    match e with
    | .simple_table_tuple_update tid slot => some (tid, slot)
    | _ => none

/-- Collaborators of a quiet table whose rows have a frozen `xmin`: the
origin of a row is not found, `xmin` is the frozen transaction id 2 and the
origin is the invalid origin 0, while the apply transaction is 1 and the
session origin is 1. -/
def quiet_frozen : Collaborators :=
  { quiet with get_tuple_origin := fun _ _ => { found := false, xmin := 2, local_origin := 0 } }

/-- Collaborators of a quiet table whose rows were last written by
transaction 7 of origin 9, while the apply transaction is 1 and the session
origin is 1. -/
def quiet_foreign : Collaborators :=
  { quiet with get_tuple_origin := fun _ _ => { found := true, xmin := 7, local_origin := 9 } }

/-- New row image `(id, v)` of an update that changed only the second
column: `changed = [false, true]`. -/
def image_v (id : Int) (v : String) : SpockTupleData where
  values := fun i => if i = 0 then Datum.int id else Datum.text v
  nulls := fun i => decide (2 ≤ i)
  changed := fun i => decide (i = 1)

/-- The relation `X(id pk, v, extra)` whose third, not replicated column has
a default expression. -/
def relXd : SpockRelation :=
  { relX with
    relid := 7
    atts := [{ attisdropped := false, defexpr := none }, { attisdropped := false, defexpr := none },
             { attisdropped := false, defexpr := some { id := 3 } }] }

/-- The calls that close a multi-insert episode holding the buffered `rows`:
the flush (nothing when no row is buffered), the release of the bulk insert
state, the teardown of the execution state and the release of the slots. -/
def mi_close_events (c : Collaborators) (st : ApplyMIState) (rows : List HeapTuple) :
    List Event :=
  (if st.nbuffered_tuples = 0 then [] else flush_events c st.rel st.cid rows) ++
  [Event.FreeBulkInsertState] ++ finish_events st.rel ++
  mi_drop_slots st.buffered_tuples st.maxbuffered_tuples

/-- The state after one add of the row `(1, "a")` to the relation with a
before-row insert trigger, from the idle state: bound to that relation, the
row buffered. -/
def World.bound_one : World :=
  match spock_apply_heap_mi_add_tuple quiet relR_br (image 1 "a") World.idle with
  | .ok w => w
  | .error _ => World.idle

/-- The multi-insert state of `World.bound_one`. -/
def state_bound_one : ApplyMIState where
  rel := relR_br
  cid := 0
  buffered_tuples := [some [some (Datum.int 1), some (Datum.text "a")]]
  maxbuffered_tuples := 1
  nbuffered_tuples := 1

/-! ## Basic facts -/

@[simp] theorem log_heap (w : World) (e : Event) : (w.log e).heap = w.heap := rfl
@[simp] theorem log_cid (w : World) (e : Event) : (w.log e).cid = w.cid := rfl
@[simp] theorem log_spkmistate (w : World) (e : Event) : (w.log e).spkmistate = w.spkmistate := rfl
@[simp] theorem log_trace (w : World) (e : Event) : (w.log e).trace = w.trace ++ [e] := rfl
@[simp] theorem logs_heap (w : World) (es : List Event) : (w.logs es).heap = w.heap := rfl
@[simp] theorem logs_cid (w : World) (es : List Event) : (w.logs es).cid = w.cid := rfl
@[simp] theorem logs_spkmistate (w : World) (es : List Event) :
    (w.logs es).spkmistate = w.spkmistate := rfl
@[simp] theorem logs_trace (w : World) (es : List Event) : (w.logs es).trace = w.trace ++ es := rfl

@[simp] theorem init_apply_exec_state_spkmistate (rel : SpockRelation) (w : World) :
    (init_apply_exec_state rel w).spkmistate = w.spkmistate := by
  unfold init_apply_exec_state
  split <;> rfl

@[simp] theorem finish_apply_exec_state_spkmistate (rel : SpockRelation) (w : World) :
    (finish_apply_exec_state rel w).spkmistate = w.spkmistate := by
  unfold finish_apply_exec_state
  split <;> rfl

theorem mi_maxbuffered_tuples_pos (c : Collaborators) (rel : SpockRelation) :
    0 < mi_maxbuffered_tuples c rel := by
  unfold mi_maxbuffered_tuples
  split <;> decide

theorem mi_flush_spkmistate (c : Collaborators) (w : World) :
    (spock_apply_heap_mi_flush c w).spkmistate =
      w.spkmistate.map fun st => { st with nbuffered_tuples := 0 } := by
  unfold spock_apply_heap_mi_flush
  cases h : w.spkmistate with
  | none => simp [h]
  | some st =>
    simp only [Option.map]
    split
    · rename_i h0
      simp only [h]
      cases st
      simp_all
    · rfl

theorem mi_flush_inv (c : Collaborators) (w : World) (h : MIInv w) :
    MIInv (spock_apply_heap_mi_flush c w) := by
  intro st hst
  rw [mi_flush_spkmistate] at hst
  cases hw : w.spkmistate with
  | none => simp [hw] at hst
  | some st0 =>
    simp [hw] at hst
    subst hst
    have := h st0 hw
    simp
    exact ⟨this.2.1, this.2.2⟩

theorem mi_finish_spkmistate (c : Collaborators) (rel : SpockRelation) (w : World) :
    (spock_apply_heap_mi_finish c rel w).spkmistate = none := by
  unfold spock_apply_heap_mi_finish
  cases h : w.spkmistate with
  | none => simp [h]
  | some st =>
    simp only
    split
    · assumption
    · rfl

theorem mi_start_cases (c : Collaborators) (rel : SpockRelation) (w : World) :
    (∃ st, w.spkmistate = some st ∧ st.rel.relid = rel.relid ∧
        spock_apply_heap_mi_start c rel w = w) ∨
    (∃ st, (spock_apply_heap_mi_start c rel w).spkmistate = some st ∧
        st.rel = rel ∧ st.nbuffered_tuples = 0 ∧
        st.maxbuffered_tuples = mi_maxbuffered_tuples c rel ∧
        st.buffered_tuples = List.replicate (mi_maxbuffered_tuples c rel) none) := by
  unfold spock_apply_heap_mi_start
  split
  · rename_i h
    left
    cases hw : w.spkmistate with
    | none => simp [hw] at h
    | some st => exact ⟨st, rfl, by simpa [hw] using h, rfl⟩
  · right
    exact ⟨_, rfl, rfl, rfl, rfl, rfl⟩

theorem mi_start_inv (c : Collaborators) (rel : SpockRelation) (w : World) (h : MIInv w) :
    MIInv (spock_apply_heap_mi_start c rel w) := by
  rcases mi_start_cases c rel w with ⟨st, _, _, e⟩ | ⟨st, hs, _, hn, hm, hb⟩
  · rw [e]; exact h
  · intro st1 hst1
    rw [hs] at hst1
    cases hst1
    refine ⟨by omega, by simp [hb, hm], by rw [hm]; exact mi_maxbuffered_tuples_pos c rel⟩

theorem mi_start_some (c : Collaborators) (rel : SpockRelation) (w : World) :
    ∃ st, (spock_apply_heap_mi_start c rel w).spkmistate = some st := by
  rcases mi_start_cases c rel w with ⟨st, hw, _, e⟩ | ⟨st, hs, _⟩
  · exact ⟨st, by rw [e]; exact hw⟩
  · exact ⟨st, hs⟩

theorem mi_add_prepare_slot (c : Collaborators) (rel : SpockRelation) (w : World)
    (h : MIInv w) :
    ∃ st, (mi_add_prepare c rel w).spkmistate = some st ∧
      st.nbuffered_tuples < st.maxbuffered_tuples ∧
      st.buffered_tuples.length = st.maxbuffered_tuples := by
  have hinv := mi_start_inv c rel w h
  obtain ⟨st, hst⟩ := mi_start_some c rel w
  have hst3 := hinv st hst
  unfold mi_add_prepare
  simp only [hst]
  split
  · refine ⟨{ st with nbuffered_tuples := 0 }, ?_, ?_, ?_⟩
    · rw [mi_flush_spkmistate, hst]; rfl
    · exact hst3.2.2
    · exact hst3.2.1
  · exact ⟨st, hst, by omega, hst3.2.1⟩

theorem mi_add_tuple_inv (c : Collaborators) (rel : SpockRelation) (tup : SpockTupleData)
    (w w1 : World) (h : MIInv w) (hok : spock_apply_heap_mi_add_tuple c rel tup w = .ok w1) :
    MIInv w1 := by
  obtain ⟨st, hst, hlt, hlen⟩ := mi_add_prepare_slot c rel w h
  unfold spock_apply_heap_mi_add_tuple at hok
  simp only [hst] at hok
  unfold check_constraints at hok
  intro st1 hst1
  split at hok
  · rename_i heq
    cases hok
    have : st1 = st := by
      split at heq <;> split at heq <;> simp at heq <;> (obtain ⟨_, e⟩ := heq) <;>
        subst e <;> simp [hst] at hst1 <;> exact hst1.symm
    subst this
    exact ⟨by omega, hlen, by omega⟩
  · split at hok
    · cases hok
    · split at hok
      · cases hok
        split at hst1 <;> simp at hst1 <;> subst hst1 <;> simp <;> omega
      · cases hok

theorem mi_add_tuple_no_overrun (c : Collaborators) (rel : SpockRelation)
    (tup : SpockTupleData) (w : World) (h : MIInv w) :
    spock_apply_heap_mi_add_tuple c rel tup w ≠ .error .buffer_overrun ∧
    spock_apply_heap_mi_add_tuple c rel tup w ≠ .error .null_spkmistate := by
  obtain ⟨st, hst, hlt, hlen⟩ := mi_add_prepare_slot c rel w h
  unfold spock_apply_heap_mi_add_tuple
  simp only [hst]
  unfold check_constraints
  have hlt2 : st.nbuffered_tuples < st.buffered_tuples.length := by omega
  constructor <;>
  · split
    · simp
    · split
      · rename_i e _ _ _ _ heq
        intro hc
        cases hc
        revert heq
        split
        · split <;> simp
        · simp
      · simp [hlt2]

theorem mi_call_inv (c : Collaborators) (call : MICall) (w w1 : World) (h : MIInv w)
    (hok : mi_call c w call = .ok w1) : MIInv w1 := by
  cases call with
  | add_tuple rel tup => exact mi_add_tuple_inv c rel tup w w1 h hok
  | flush =>
    simp only [mi_call, Except.ok.injEq] at hok
    subst hok
    exact mi_flush_inv c w h
  | finish rel =>
    simp only [mi_call, Except.ok.injEq] at hok
    subst hok
    intro st hst
    rw [mi_finish_spkmistate] at hst
    cases hst

theorem mi_call_no_overrun (c : Collaborators) (call : MICall) (w : World) (h : MIInv w) :
    mi_call c w call ≠ .error .buffer_overrun ∧ mi_call c w call ≠ .error .null_spkmistate := by
  cases call with
  | add_tuple rel tup => exact mi_add_tuple_no_overrun c rel tup w h
  | flush => simp [mi_call]
  | finish rel => simp [mi_call]

theorem mi_run_inv (c : Collaborators) (calls : List MICall) :
    ∀ (w w1 : World), MIInv w → mi_run c w calls = .ok w1 → MIInv w1 := by
  induction calls with
  | nil =>
    intro w w1 h hok
    simp only [mi_run, Except.ok.injEq] at hok
    subst hok
    exact h
  | cons call rest ih =>
    intro w w1 h hok
    simp only [mi_run] at hok
    cases hc : mi_call c w call with
    | error e => simp [hc] at hok
    | ok w2 =>
      simp only [hc] at hok
      exact ih w2 w1 (mi_call_inv c call w w2 h hc) hok

theorem mi_run_no_overrun (c : Collaborators) (calls : List MICall) :
    ∀ (w : World), MIInv w →
      mi_run c w calls ≠ .error .buffer_overrun ∧ mi_run c w calls ≠ .error .null_spkmistate := by
  induction calls with
  | nil => intro w _; simp [mi_run]
  | cons call rest ih =>
    intro w h
    simp only [mi_run]
    cases hc : mi_call c w call with
    | error e =>
      have := mi_call_no_overrun c call w h
      rw [hc] at this
      simpa using this
    | ok w2 => exact ih w2 (mi_call_inv c call w w2 h hc)

theorem MIInv_of_none (w : World) (h : w.spkmistate = none) : MIInv w := by
  intro st hst
  rw [h] at hst
  cases hst

/-! ## Multi-insert buffer invariant -/

/-- C1: starting from a state without multi-insert state, after every sequence
of add, flush and finish calls the occupancy of an existing multi-insert state
is between zero and its capacity and its slot array has exactly capacity
entries; the slot an add is about to write (the occupancy after start and the
flush of a full buffer) is strictly below the capacity; and no call ever
stores outside the slot array. -/
theorem mi_buffer_invariant (c : Collaborators) (w0 : World) (calls : List MICall)
    (hidle : w0.spkmistate = none) :
    mi_run c w0 calls ≠ .error .buffer_overrun ∧
    ∀ w, mi_run c w0 calls = .ok w →
      (∀ st, w.spkmistate = some st →
        0 ≤ st.nbuffered_tuples ∧ st.nbuffered_tuples ≤ st.maxbuffered_tuples ∧
        st.buffered_tuples.length = st.maxbuffered_tuples) ∧
      (∀ rel, ∃ st, (mi_add_prepare c rel w).spkmistate = some st ∧
        st.nbuffered_tuples < st.maxbuffered_tuples ∧
        st.nbuffered_tuples < st.buffered_tuples.length) := by
  have h0 := MIInv_of_none w0 hidle
  refine ⟨(mi_run_no_overrun c calls w0 h0).1, ?_⟩
  intro w hw
  have hinv := mi_run_inv c calls w0 w h0 hw
  constructor
  · intro st hst
    have := hinv st hst
    exact ⟨Nat.zero_le _, this.1, this.2.1⟩
  · intro rel
    obtain ⟨st, hst, hlt, hlen⟩ := mi_add_prepare_slot c rel w hinv
    exact ⟨st, hst, hlt, by omega⟩

/-- Adds to the capacity-one relation interleaved with a flush and a finish run
to the end, and the invariant holds in the state reached. -/
theorem mi_buffer_invariant_witness :
    World.idle.spkmistate = none ∧
    (mi_run quiet World.idle
      [.add_tuple relR_br (image 1 "a"), .add_tuple relR_br (image 2 "b"), .flush,
       .add_tuple relR_br (image 3 "c"), .finish relR_br, .add_tuple relR_br (image 4 "d")]).isOk = true ∧
    ∀ w, mi_run quiet World.idle
      [.add_tuple relR_br (image 1 "a"), .add_tuple relR_br (image 2 "b"), .flush,
       .add_tuple relR_br (image 3 "c"), .finish relR_br, .add_tuple relR_br (image 4 "d")] = .ok w →
      (∀ st, w.spkmistate = some st →
        0 ≤ st.nbuffered_tuples ∧ st.nbuffered_tuples ≤ st.maxbuffered_tuples ∧
        st.buffered_tuples.length = st.maxbuffered_tuples) ∧
      (∀ rel, ∃ st, (mi_add_prepare quiet rel w).spkmistate = some st ∧
        st.nbuffered_tuples < st.maxbuffered_tuples ∧
        st.nbuffered_tuples < st.buffered_tuples.length) :=
  ⟨rfl, rfl, (mi_buffer_invariant quiet World.idle _ rfl).2⟩

/-! ## Capacity rule -/

theorem volatile_defexprs_loop_iff (c : Collaborators) (atts : List Attr) :
    volatile_defexprs_loop c atts = true ↔
      ∃ a ∈ atts, a.attisdropped = false ∧
        ∃ e, a.defexpr = some e ∧ c.contain_volatile_functions_not_nextval e = true := by
  induction atts with
  | nil => simp [volatile_defexprs_loop]
  | cons a rest ih =>
    unfold volatile_defexprs_loop
    cases hd : a.attisdropped with
    | true => simp [hd, ih]
    | false =>
      cases he : a.defexpr with
      | none => simp [he, ih]
      | some e =>
        cases hv : c.contain_volatile_functions_not_nextval e with
        | true => simp [hd, he, hv]
        | false => simp [hd, he, hv, ih]

/-- C3 as stated fails: a relation without triggers whose columns are all
replicated gets capacity 1000 although a column default is volatile, where
the rule of the specification gives 1. -/
theorem mi_capacity_counterexample :
    (spock_apply_heap_mi_start quiet_volatile relV World.idle).spkmistate.map
        (fun st => st.maxbuffered_tuples) = some 1000 ∧
    spec_capacity quiet_volatile.contain_volatile_functions_not_nextval relV = 1 := by
  constructor <;> rfl

/-- C3 amended: when start creates a multi-insert state for a relation (none
exists, or the existing one is bound to another relation), its capacity is 1
if the relation has a before-row insert trigger or an instead-of insert
trigger, or if the table has not as many columns as are replicated and some
column that is not dropped has a default expression containing a volatile
function other than nextval; in every other case the capacity is 1000. -/
theorem mi_start_capacity (c : Collaborators) (rel : SpockRelation) (w : World)
    (hnew : ∀ st, w.spkmistate = some st → st.rel.relid ≠ rel.relid) :
    ∃ st, (spock_apply_heap_mi_start c rel w).spkmistate = some st ∧ st.rel = rel ∧
      st.nbuffered_tuples = 0 ∧
      (((∃ td, rel.trigdesc = some td ∧
            (td.trig_insert_before_row = true ∨ td.trig_insert_instead_row = true)) ∨
          (rel.atts.length ≠ rel.natts ∧
            ∃ a ∈ rel.atts, a.attisdropped = false ∧
              ∃ e, a.defexpr = some e ∧ c.contain_volatile_functions_not_nextval e = true)) →
        st.maxbuffered_tuples = 1) ∧
      (¬ ((∃ td, rel.trigdesc = some td ∧
            (td.trig_insert_before_row = true ∨ td.trig_insert_instead_row = true)) ∨
          (rel.atts.length ≠ rel.natts ∧
            ∃ a ∈ rel.atts, a.attisdropped = false ∧
              ∃ e, a.defexpr = some e ∧ c.contain_volatile_functions_not_nextval e = true)) →
        st.maxbuffered_tuples = 1000) := by
  rcases mi_start_cases c rel w with ⟨st, hw, hrel, _⟩ | ⟨st, hs, hrel, hn, hm, _⟩
  · exact absurd hrel (hnew st hw)
  · refine ⟨st, hs, hrel, hn, ?_, ?_⟩
    · intro hcond
      rw [hm]
      unfold mi_maxbuffered_tuples volatile_defexprs
      rcases hcond with ⟨td, htd, ht⟩ | ⟨hne, hex⟩
      · rcases ht with ht | ht <;> simp [htd, ht]
      · have := (volatile_defexprs_loop_iff c rel.atts).2 hex
        simp [hne, this]
    · intro hcond
      rw [hm]
      unfold mi_maxbuffered_tuples volatile_defexprs
      rw [if_neg]
      intro hc
      apply hcond
      simp only [Bool.or_eq_true] at hc
      rcases hc with hc | hc
      · left
        cases htd : rel.trigdesc with
        | none => simp [htd] at hc
        | some td =>
          refine ⟨td, rfl, ?_⟩
          simpa [htd] using hc
      · right
        split at hc
        · rename_i hne
          exact ⟨hne, (volatile_defexprs_loop_iff c rel.atts).1 hc⟩
        · cases hc

/-- The relation with a before-row insert trigger is given capacity 1 when a
state is created for it from the idle state. -/
theorem mi_start_capacity_witness :
    (∀ st, World.idle.spkmistate = some st → st.rel.relid ≠ relR_br.relid) ∧
    ∃ st, (spock_apply_heap_mi_start quiet relR_br World.idle).spkmistate = some st ∧
      st.maxbuffered_tuples = 1 := by
  refine ⟨(by intro st h; cases h), ?_⟩
  obtain ⟨st, hs, _, _, h1, _⟩ :=
    mi_start_capacity quiet relR_br World.idle (by intro st h; cases h)
  exact ⟨st, hs, h1 (Or.inl ⟨_, rfl, Or.inl rfl⟩)⟩

/-! ## Adds to one relation -/

theorem mi_flush_eq (c : Collaborators) (w : World) (st : ApplyMIState)
    (hst : w.spkmistate = some st) (hn : st.nbuffered_tuples ≠ 0) :
    spock_apply_heap_mi_flush c w =
      { heap := w.heap ++ (st.buffered_tuples.take st.nbuffered_tuples).reduceOption
        trace := w.trace ++ flush_events c st.rel st.cid
          (st.buffered_tuples.take st.nbuffered_tuples).reduceOption
        cid := w.cid
        spkmistate := some { st with nbuffered_tuples := 0 } } := by
  unfold spock_apply_heap_mi_flush flush_events
  simp only [hst, hn, if_false]
  split
  · simp [World.log, World.logs]
  · split <;> simp [World.log, World.logs]

theorem mi_start_same (c : Collaborators) (rel : SpockRelation) (w : World)
    (st : ApplyMIState) (hst : w.spkmistate = some st) (hrel : st.rel = rel) :
    spock_apply_heap_mi_start c rel w = w := by
  unfold spock_apply_heap_mi_start
  simp [hst, hrel]

theorem mi_add_tuple_eq (c : Collaborators) (rel : SpockRelation) (tup : SpockTupleData)
    (w : World) (st : ApplyMIState) (r : HeapTuple)
    (hst : (mi_add_prepare c rel w).spkmistate = some st) (hrel : st.rel = rel)
    (hlt : st.nbuffered_tuples < st.buffered_tuples.length)
    (hrow : br_insert_row c rel tup = some r)
    (hcon : rel.constr = true → c.ExecConstraints r = true) :
    spock_apply_heap_mi_add_tuple c rel tup w = .ok
      { heap := (mi_add_prepare c rel w).heap
        trace := (mi_add_prepare c rel w).trace ++ mi_add_events c rel st tup r
        cid := (mi_add_prepare c rel w).cid
        spkmistate := some
          { st with
            buffered_tuples := st.buffered_tuples.set st.nbuffered_tuples (some r)
            nbuffered_tuples := st.nbuffered_tuples + 1 } } := by
  subst hrel
  unfold spock_apply_heap_mi_add_tuple
  simp only [hst]
  unfold br_insert_row at hrow
  unfold mi_add_events check_constraints
  generalize heap_form_tuple _ _ _ = t at hrow ⊢
  generalize mi_add_prepare c st.rel w = wp
  cases hbr : has_trig st.rel (fun x => x.trig_insert_before_row) <;>
    simp only [hbr, if_true, Bool.false_eq_true, if_false, Option.some.injEq] at hrow ⊢ <;>
    (try subst hrow) <;> (try simp only [hrow]) <;>
    cases hc : st.rel.constr <;>
    (try simp only [hcon hc]) <;>
    simp only [if_true, Bool.false_eq_true, if_false, hlt] <;>
    by_cases h0 : st.nbuffered_tuples = 0 <;>
    simp [h0, World.log]

/-! ## Facts about traces -/

theorem storage_events_append (es1 es2 : List Event) :
    storage_events (es1 ++ es2) = storage_events es1 ++ storage_events es2 := by
  simp [storage_events]

theorem bulk_writes_append (es1 es2 : List Event) :
    bulk_writes (es1 ++ es2) = bulk_writes es1 ++ bulk_writes es2 := by
  simp [bulk_writes]

theorem index_rows_append (es1 es2 : List Event) :
    index_rows (es1 ++ es2) = index_rows es1 ++ index_rows es2 := by
  simp [index_rows]

theorem ar_insert_rows_append (es1 es2 : List Event) :
    ar_insert_rows (es1 ++ es2) = ar_insert_rows es1 ++ ar_insert_rows es2 := by
  simp [ar_insert_rows]

theorem bulk_writes_storage (es : List Event) :
    bulk_writes (storage_events es) = bulk_writes es := by
  induction es with
  | nil => rfl
  | cons e es ih =>
    have h1 : storage_events (e :: es) = storage_events [e] ++ storage_events es :=
      storage_events_append [e] es
    have h2 : bulk_writes (e :: es) = bulk_writes [e] ++ bulk_writes es :=
      bulk_writes_append [e] es
    rw [h1, h2, bulk_writes_append, ih]
    congr 1
    cases e <;> rfl

theorem index_rows_storage (es : List Event) :
    index_rows (storage_events es) = index_rows es := by
  induction es with
  | nil => rfl
  | cons e es ih =>
    have h1 : storage_events (e :: es) = storage_events [e] ++ storage_events es :=
      storage_events_append [e] es
    have h2 : index_rows (e :: es) = index_rows [e] ++ index_rows es :=
      index_rows_append [e] es
    rw [h1, h2, index_rows_append, ih]
    congr 1
    cases e <;> rfl

theorem ar_insert_rows_storage (es : List Event) :
    ar_insert_rows (storage_events es) = ar_insert_rows es := by
  induction es with
  | nil => rfl
  | cons e es ih =>
    have h1 : storage_events (e :: es) = storage_events [e] ++ storage_events es :=
      storage_events_append [e] es
    have h2 : ar_insert_rows (e :: es) = ar_insert_rows [e] ++ ar_insert_rows es :=
      ar_insert_rows_append [e] es
    rw [h1, h2, ar_insert_rows_append, ih]
    congr 1
    cases e <;> rfl

theorem placement_scan_storage (es : List Event) :
    ∀ s, placement_scan s (storage_events es) = placement_scan s es := by
  induction es with
  | nil => intro s; rfl
  | cons e es ih =>
    intro s
    obtain ⟨p, i, f⟩ := s
    cases e <;> simp [storage_events, is_storage, placement_scan] <;>
      simp [storage_events] at ih <;> simp [ih]

theorem placement_scan_append (es1 es2 : List Event) :
    ∀ s, placement_scan s (es1 ++ es2) =
      (placement_scan s es1).bind fun s1 => placement_scan s1 es2 := by
  induction es1 with
  | nil => intro s; simp [placement_scan]
  | cons e es ih =>
    intro s
    obtain ⟨p, i, f⟩ := s
    cases e <;> simp [placement_scan, ih] <;> split <;> simp

theorem bulk_writes_flush_events (c : Collaborators) (rel : SpockRelation) (cid : Nat)
    (b : List HeapTuple) : bulk_writes (flush_events c rel cid b) = [b] := by
  unfold flush_events
  have h1 : ∀ l : List HeapTuple, bulk_writes (l.flatMap fun slot =>
      [Event.ExecInsertIndexTuples slot false,
       Event.ExecARInsertTriggers slot (c.ExecInsertIndexTuples slot false)]) = [] := by
    intro l
    induction l with
    | nil => rfl
    | cons a l ih => simpa [bulk_writes] using ih
  have h2 : ∀ l : List HeapTuple,
      bulk_writes (l.map fun slot => Event.ExecARInsertTriggers slot []) = [] := by
    intro l
    induction l with
    | nil => rfl
    | cons a l ih => simp [bulk_writes]
  have h3 : ∀ es, bulk_writes (Event.heap_multi_insert b cid :: es) = b :: bulk_writes es := by
    intro es; simp [bulk_writes]
  rw [h3]
  split
  · rw [h1]
  · split
    · rw [h2]
    · rfl

theorem index_rows_flush_events (c : Collaborators) (rel : SpockRelation) (cid : Nat)
    (b : List HeapTuple) :
    index_rows (flush_events c rel cid b) = if rel.ri_NumIndices > 0 then b else [] := by
  unfold flush_events
  have h1 : ∀ l : List HeapTuple, index_rows (l.flatMap fun slot =>
      [Event.ExecInsertIndexTuples slot false,
       Event.ExecARInsertTriggers slot (c.ExecInsertIndexTuples slot false)]) = l := by
    intro l
    induction l with
    | nil => rfl
    | cons a l ih => simpa [index_rows] using ih
  have h2 : ∀ l : List HeapTuple,
      index_rows (l.map fun slot => Event.ExecARInsertTriggers slot []) = [] := by
    intro l
    induction l with
    | nil => rfl
    | cons a l ih => simp [index_rows]
  have h3 : ∀ es, index_rows (Event.heap_multi_insert b cid :: es) = index_rows es := by
    intro es; simp [index_rows]
  rw [h3]
  split
  · rw [h1]
  · split
    · rw [h2]
    · rfl

theorem ar_insert_rows_flush_events (c : Collaborators) (rel : SpockRelation) (cid : Nat)
    (b : List HeapTuple) :
    ar_insert_rows (flush_events c rel cid b) =
      if rel.ri_NumIndices > 0 ∨ has_trig rel (·.trig_insert_after_row) = true then b
      else [] := by
  unfold flush_events
  have h1 : ∀ l : List HeapTuple, ar_insert_rows (l.flatMap fun slot =>
      [Event.ExecInsertIndexTuples slot false,
       Event.ExecARInsertTriggers slot (c.ExecInsertIndexTuples slot false)]) = l := by
    intro l
    induction l with
    | nil => rfl
    | cons a l ih => simpa [ar_insert_rows] using ih
  have h2 : ∀ l : List HeapTuple,
      ar_insert_rows (l.map fun slot => Event.ExecARInsertTriggers slot []) = l := by
    intro l
    induction l with
    | nil => rfl
    | cons a l ih => simpa [ar_insert_rows] using ih
  have h3 : ∀ es, ar_insert_rows (Event.heap_multi_insert b cid :: es) = ar_insert_rows es := by
    intro es; simp [ar_insert_rows]
  rw [h3]
  by_cases hi : rel.ri_NumIndices > 0
  · simp only [hi, if_true, true_or]
    rw [h1]
  · by_cases ha : has_trig rel (·.trig_insert_after_row) = true
    · simp only [hi, ha, if_true, if_false, or_true]
      rw [h2]
    · simp only [hi, ha, if_false, or_self]
      rfl

theorem placement_scan_flush_events (c : Collaborators) (rel : SpockRelation) (cid : Nat)
    (b : List HeapTuple) (p i f : Nat) (hi : i ≤ p) (hf : f ≤ p) :
    placement_scan (p, i, f) (flush_events c rel cid b) =
      some (p + b.length,
        i + (if rel.ri_NumIndices > 0 then b.length else 0),
        f + (if rel.ri_NumIndices > 0 ∨ has_trig rel (·.trig_insert_after_row) = true
              then b.length else 0)) := by
  unfold flush_events
  have h1 : ∀ (l : List HeapTuple) (p i f : Nat), i + l.length ≤ p → f + l.length ≤ p →
      placement_scan (p, i, f) (l.flatMap fun slot =>
        [Event.ExecInsertIndexTuples slot false,
         Event.ExecARInsertTriggers slot (c.ExecInsertIndexTuples slot false)]) =
        some (p, i + l.length, f + l.length) := by
    intro l
    induction l with
    | nil => intro p i f _ _; rfl
    | cons a l ih =>
      intro p i f h1 h2
      simp only [List.length_cons] at h1 h2
      have hi : i < p := by omega
      have hf : f < p := by omega
      have e : ((a :: l).flatMap fun slot =>
          [Event.ExecInsertIndexTuples slot false,
           Event.ExecARInsertTriggers slot (c.ExecInsertIndexTuples slot false)]) =
          Event.ExecInsertIndexTuples a false ::
            Event.ExecARInsertTriggers a (c.ExecInsertIndexTuples a false) ::
            (l.flatMap fun slot =>
              [Event.ExecInsertIndexTuples slot false,
               Event.ExecARInsertTriggers slot (c.ExecInsertIndexTuples slot false)]) := by
        simp [List.flatMap_cons]
      rw [e]
      simp only [placement_scan, hi, hf, if_true]
      rw [ih p (i + 1) (f + 1) (by omega) (by omega)]
      have e1 : i + 1 + l.length = i + (a :: l).length := by simp only [List.length_cons]; omega
      have e2 : f + 1 + l.length = f + (a :: l).length := by simp only [List.length_cons]; omega
      rw [e1, e2]
  have h2 : ∀ (l : List HeapTuple) (p i f : Nat), f + l.length ≤ p →
      placement_scan (p, i, f) (l.map fun slot => Event.ExecARInsertTriggers slot []) =
        some (p, i, f + l.length) := by
    intro l
    induction l with
    | nil => intro p i f _; rfl
    | cons a l ih =>
      intro p i f h2
      simp only [List.length_cons] at h2
      have hf : f < p := by omega
      simp only [List.map_cons, placement_scan, hf, if_true]
      rw [ih p i (f + 1) (by omega)]
      have e2 : f + 1 + l.length = f + (a :: l).length := by simp only [List.length_cons]; omega
      rw [e2]
  simp only [placement_scan]
  by_cases hn : rel.ri_NumIndices > 0
  · simp only [hn, if_true, true_or]
    rw [h1 b _ _ _ (by omega) (by omega)]
  · by_cases ha : has_trig rel (·.trig_insert_after_row) = true
    · simp only [hn, ha, if_true, if_false, or_true]
      rw [h2 b _ _ _ (by omega)]
      rfl
    · simp only [hn, ha, if_false, or_self]
      rfl

/-- The trace of a sequence of flushes, read back: the bulk writes are the
batches, index maintenance and after-row triggers run over the rows of the
batches in order, each after the bulk write of its batch. -/
theorem flushes_trace (c : Collaborators) (rel : SpockRelation) (cid : Nat)
    (batches : List (List HeapTuple)) :
    bulk_writes (batches.flatMap (flush_events c rel cid)) = batches ∧
    index_rows (batches.flatMap (flush_events c rel cid)) =
      (if rel.ri_NumIndices > 0 then batches.flatten else []) ∧
    ar_insert_rows (batches.flatMap (flush_events c rel cid)) =
      (if rel.ri_NumIndices > 0 ∨ has_trig rel (·.trig_insert_after_row) = true
        then batches.flatten else []) ∧
    ∀ p i f, i ≤ p → f ≤ p →
      (placement_scan (p, i, f) (batches.flatMap (flush_events c rel cid))).isSome = true := by
  induction batches with
  | nil => simp [bulk_writes, index_rows, ar_insert_rows, placement_scan]
  | cons b bs ih =>
    obtain ⟨ih1, ih2, ih3, ih4⟩ := ih
    simp only [List.flatMap_cons, bulk_writes_append, index_rows_append, ar_insert_rows_append,
      bulk_writes_flush_events, index_rows_flush_events, ar_insert_rows_flush_events, ih1, ih2,
      ih3, List.flatten_cons]
    refine ⟨rfl, ?_, ?_, ?_⟩
    · split <;> simp
    · split <;> simp
    · intro p i f hi hf
      rw [placement_scan_append, placement_scan_flush_events c rel cid b p i f hi hf]
      simp only [Option.some_bind]
      apply ih4
      · split <;> omega
      · split <;> omega

theorem take_succ_set (l : List (Option HeapTuple)) (a : Option HeapTuple) :
    ∀ n, n < l.length → (l.set n a).take (n + 1) = l.take n ++ [a] := by
  induction l with
  | nil => intro n h; simp at h
  | cons x l ih =>
    intro n h
    cases n with
    | zero => simp
    | succ n =>
      simp only [List.length_cons, Nat.add_lt_add_iff_right] at h
      simp [ih n h]

theorem reduceOption_map_some (l : List HeapTuple) : (l.map some).reduceOption = l := by
  induction l with
  | nil => rfl
  | cons a l ih => simp [List.reduceOption_cons_of_some, ih]

theorem storage_events_flush_events (c : Collaborators) (rel : SpockRelation) (cid : Nat)
    (b : List HeapTuple) :
    storage_events (flush_events c rel cid b) = flush_events c rel cid b := by
  unfold storage_events
  rw [List.filter_eq_self]
  intro e he
  unfold flush_events at he
  simp only [List.mem_cons] at he
  rcases he with he | he
  · subst he; rfl
  · split at he
    · simp only [List.mem_flatMap, List.mem_cons, List.mem_singleton, List.not_mem_nil,
        or_false] at he
      obtain ⟨a, _, ha | ha⟩ := he <;> subst ha <;> rfl
    · split at he
      · simp only [List.mem_map] at he
        obtain ⟨a, _, ha⟩ := he
        subst ha; rfl
      · cases he

theorem storage_events_mi_add_events (c : Collaborators) (rel : SpockRelation)
    (st : ApplyMIState) (tup : SpockTupleData) (r : HeapTuple) :
    storage_events (mi_add_events c rel st tup r) = [] := by
  unfold mi_add_events
  simp only [storage_events_append]
  have h1 : storage_events (if st.nbuffered_tuples = 0 then [Event.ResetPerTupleExprContext]
      else []) = [] := by split <;> rfl
  have h2 : storage_events (if has_trig st.rel (·.trig_insert_before_row) = true then
      [Event.ExecBRInsertTriggers
        (heap_form_tuple rel.atts.length
          (fill_missing_defaults c rel tup).values (fill_missing_defaults c rel tup).nulls)
        (some r)]
      else []) = [] := by split <;> rfl
  have h3 : storage_events (if rel.constr = true then [Event.ExecConstraints r] else []) = [] := by
    split <;> rfl
  have h4 : storage_events
      [match st.buffered_tuples.getD st.nbuffered_tuples none with
        | none => Event.table_slot_create
        | some _ => Event.ExecClearTuple st.nbuffered_tuples] = [] := by
    split <;> rfl
  rw [h1, h2, h3, h4]
  rfl

theorem mi_add_prepare_same (c : Collaborators) (rel : SpockRelation) (w : World)
    (st : ApplyMIState) (hst : w.spkmistate = some st) (hrel : st.rel = rel) :
    mi_add_prepare c rel w =
      if st.nbuffered_tuples ≥ st.maxbuffered_tuples then spock_apply_heap_mi_flush c w
      else w := by
  unfold mi_add_prepare
  rw [mi_start_same c rel w st hst hrel]
  simp only [hst]

theorem mi_add_step (c : Collaborators) (rel : SpockRelation) (tup : SpockTupleData)
    (w0 w : World) (rows : List HeapTuple) (r : HeapTuple)
    (hinv : AddsInv c rel w0 rows w)
    (hrow : br_insert_row c rel tup = some r)
    (hcon : rel.constr = true → c.ExecConstraints r = true) :
    ∃ w1, spock_apply_heap_mi_add_tuple c rel tup w = .ok w1 ∧
      AddsInv c rel w0 (rows ++ [r]) w1 := by
  obtain ⟨st, batches, pending, evs, hst, hrel, hmax, hlen, hn, hle, htake, hrows, hb, hne,
    hheap, htrace, hstor⟩ := hinv
  have hpos : 0 < st.maxbuffered_tuples := by
    rw [hmax]; exact mi_maxbuffered_tuples_pos c rel
  have hprep := mi_add_prepare_same c rel w st hst hrel
  by_cases hfull : st.nbuffered_tuples ≥ st.maxbuffered_tuples
  · have hn0 : st.nbuffered_tuples ≠ 0 := by omega
    rw [if_pos hfull, mi_flush_eq c w st hst hn0] at hprep
    have hslots : (st.buffered_tuples.take st.nbuffered_tuples).reduceOption = pending := by
      rw [htake, reduceOption_map_some]
    rw [hslots] at hprep
    have heq := mi_add_tuple_eq c rel tup w { st with nbuffered_tuples := 0 } r
      (by rw [hprep]) hrel (by simp only; omega) hrow hcon
    refine ⟨_, heq, ?_⟩
    rw [hprep]
    refine ⟨{ st with buffered_tuples := st.buffered_tuples.set 0 (some r), nbuffered_tuples := 1 },
      batches ++ [pending], [r],
      evs ++ flush_events c st.rel st.cid pending ++
        mi_add_events c rel { st with nbuffered_tuples := 0 } tup r,
      rfl, hrel, hmax, ?_, rfl, ?_, ?_, ?_, ?_, ?_, ?_, ?_, ?_⟩
    · simp [hlen]
    · simp only [List.length_singleton]; omega
    · simp only
      cases hbuf : st.buffered_tuples with
      | nil => simp [hbuf] at hlen; omega
      | cons a l => simp
    · simp [hrows]
    · intro b hb1
      simp only [List.mem_append, List.mem_singleton] at hb1
      rcases hb1 with hb1 | hb1
      · exact hb b hb1
      · subst hb1
        simp only
        omega
    · intro _; simp
    · simp [hheap]
    · simp [htrace, List.append_assoc]
    · simp only [storage_events_append, hstor, storage_events_flush_events,
        storage_events_mi_add_events, List.flatMap_append, List.flatMap_cons, List.flatMap_nil,
        List.append_nil, hrel]
  · rw [if_neg hfull] at hprep
    have hlt : st.nbuffered_tuples < st.buffered_tuples.length := by omega
    have heq := mi_add_tuple_eq c rel tup w st r (by rw [hprep]; exact hst) hrel hlt hrow hcon
    refine ⟨_, heq, ?_⟩
    rw [hprep]
    refine ⟨{ st with
        buffered_tuples := st.buffered_tuples.set st.nbuffered_tuples (some r)
        nbuffered_tuples := st.nbuffered_tuples + 1 },
      batches, pending ++ [r], evs ++ mi_add_events c rel st tup r,
      rfl, hrel, hmax, ?_, ?_, ?_, ?_, ?_, ?_, ?_, ?_, ?_, ?_⟩
    · simp [hlen]
    · simp [hn]
    · simp only [List.length_append, List.length_singleton]; omega
    · simp only
      rw [take_succ_set _ _ _ hlt, htake]
      simp
    · simp [hrows]
    · exact hb
    · intro _; simp
    · simp [hheap]
    · simp [htrace, List.append_assoc]
    · simp only [storage_events_append, hstor, storage_events_mi_add_events, List.append_nil]

theorem init_apply_exec_state_eq (rel : SpockRelation) (w : World) :
    init_apply_exec_state rel w = { w with trace := w.trace ++ init_events rel } := by
  unfold init_apply_exec_state init_events
  split <;> simp [World.log]

theorem finish_apply_exec_state_eq (rel : SpockRelation) (w : World) :
    finish_apply_exec_state rel w = { w with trace := w.trace ++ finish_events rel } := by
  unfold finish_apply_exec_state finish_events
  split <;> simp [World.log]

theorem storage_events_init_events (rel : SpockRelation) :
    storage_events (init_events rel) = [] := by
  unfold init_events
  split <;> rfl

theorem storage_events_finish_events (rel : SpockRelation) :
    storage_events (finish_events rel) = [] := by
  unfold finish_events
  split <;> rfl

theorem storage_events_mi_drop_slots (buf : List (Option HeapTuple)) (n : Nat) :
    storage_events (mi_drop_slots buf n) = [] := by
  unfold storage_events
  rw [List.filter_eq_nil_iff]
  intro e he
  unfold mi_drop_slots at he
  simp only [List.mem_filterMap] at he
  obtain ⟨i, _, hi⟩ := he
  split at hi
  · cases hi
  · cases hi
    simp [is_storage]

theorem mi_start_idle (c : Collaborators) (rel : SpockRelation) (w0 : World)
    (hidle : w0.spkmistate = none) :
    AddsInv c rel w0 [] (spock_apply_heap_mi_start c rel w0) := by
  unfold spock_apply_heap_mi_start
  simp only [hidle, Bool.false_eq_true, if_false, init_apply_exec_state_eq]
  refine ⟨_, [], [], init_events rel ++ [Event.ExecOpenIndices, Event.GetBulkInsertState],
    rfl, rfl, rfl, ?_, rfl, ?_, ?_, ?_, ?_, ?_, ?_, ?_, ?_⟩
  · simp
  · simp
  · simp
  · simp
  · intro b hb; cases hb
  · intro h; exact absurd rfl h
  · simp
  · simp [World.log, List.append_assoc]
  · simp only [storage_events_append, storage_events_init_events]
    rfl

theorem mi_add_tuple_idle (c : Collaborators) (rel : SpockRelation) (tup : SpockTupleData)
    (w0 : World) (hidle : w0.spkmistate = none) :
    spock_apply_heap_mi_add_tuple c rel tup w0 =
      spock_apply_heap_mi_add_tuple c rel tup (spock_apply_heap_mi_start c rel w0) := by
  obtain ⟨st, _, _, _, hst, hrel, _⟩ := mi_start_idle c rel w0 hidle
  unfold spock_apply_heap_mi_add_tuple mi_add_prepare
  rw [mi_start_same c rel (spock_apply_heap_mi_start c rel w0) st hst hrel]

theorem mi_run_append (c : Collaborators) (l1 l2 : List MICall) :
    ∀ w, mi_run c w (l1 ++ l2) =
      match mi_run c w l1 with
      | .error e => .error e
      | .ok w1 => mi_run c w1 l2 := by
  induction l1 with
  | nil => intro w; rfl
  | cons call rest ih =>
    intro w
    simp only [List.cons_append, mi_run]
    cases mi_call c w call with
    | error e => rfl
    | ok w1 => exact ih w1

theorem mi_adds_run (c : Collaborators) (rel : SpockRelation) (w0 : World) :
    ∀ (tups : List SpockTupleData) (rows done : List HeapTuple) (w : World),
      AddsInv c rel w0 done w →
      tups.map (br_insert_row c rel) = rows.map some →
      (rel.constr = true → ∀ r ∈ rows, c.ExecConstraints r = true) →
      ∃ w1, mi_run c w (mi_adds rel tups) = .ok w1 ∧ AddsInv c rel w0 (done ++ rows) w1 := by
  intro tups
  induction tups with
  | nil =>
    intro rows done w hinv hrows _
    cases rows with
    | nil => exact ⟨w, rfl, by simpa using hinv⟩
    | cons r rows => simp at hrows
  | cons tup tups ih =>
    intro rows done w hinv hrows hcon
    cases rows with
    | nil => simp at hrows
    | cons r rows =>
      simp only [List.map_cons, List.cons.injEq] at hrows
      obtain ⟨w1, hw1, hinv1⟩ := mi_add_step c rel tup w0 w done r hinv hrows.1
        (fun hc => hcon hc r (List.mem_cons_self _ _))
      obtain ⟨w2, hw2, hinv2⟩ := ih rows (done ++ [r]) w1 hinv1 hrows.2
        (fun hc r1 hr1 => hcon hc r1 (List.mem_cons_of_mem _ hr1))
      refine ⟨w2, ?_, by simpa using hinv2⟩
      simp only [mi_adds, List.map_cons, mi_run, mi_call, hw1]
      exact hw2

theorem mi_finish_after_adds (c : Collaborators) (rel rel1 : SpockRelation) (w0 w : World)
    (rows : List HeapTuple) (hinv : AddsInv c rel w0 rows w) :
    (spock_apply_heap_mi_finish c rel1 w).spkmistate = none ∧
    (spock_apply_heap_mi_finish c rel1 w).heap = w0.heap ++ rows ∧
    ∃ (evs : List Event) (batches : List (List HeapTuple)) (cid : Nat),
      (spock_apply_heap_mi_finish c rel1 w).trace = w0.trace ++ evs ∧
      storage_events evs = batches.flatMap (flush_events c rel cid) ∧
      batches.flatten = rows := by
  refine ⟨mi_finish_spkmistate c rel1 w, ?_⟩
  obtain ⟨st, batches, pending, evs, hst, hrel, hmax, hlen, hn, hle, htake, hrows, hb, hne,
    hheap, htrace, hstor⟩ := hinv
  unfold spock_apply_heap_mi_finish
  simp only [hst]
  by_cases hn0 : st.nbuffered_tuples = 0
  · have hp : pending = [] := by
      cases pending with
      | nil => rfl
      | cons a l => simp [hn0] at hn
    have hflush : spock_apply_heap_mi_flush c w = w := by
      unfold spock_apply_heap_mi_flush
      simp [hst, hn0]
    rw [hflush]
    simp only [hst, finish_apply_exec_state_eq]
    refine ⟨by simp [World.log, World.logs, hheap, hrows, hp], ?_⟩
    refine ⟨evs ++ [Event.FreeBulkInsertState] ++ finish_events st.rel ++
      mi_drop_slots st.buffered_tuples st.maxbuffered_tuples, batches, st.cid, ?_, ?_, ?_⟩
    · simp [World.log, World.logs, htrace, List.append_assoc]
    · simp only [storage_events_append, hstor, storage_events_finish_events,
        storage_events_mi_drop_slots, List.append_nil]
      have : storage_events [Event.FreeBulkInsertState] = [] := rfl
      rw [this, List.append_nil]
    · simp [hrows, hp]
  · rw [mi_flush_eq c w st hst hn0]
    have hslots : (st.buffered_tuples.take st.nbuffered_tuples).reduceOption = pending := by
      rw [htake, reduceOption_map_some]
    simp only [hslots, finish_apply_exec_state_eq]
    refine ⟨by simp [World.log, World.logs, hheap, hrows], ?_⟩
    refine ⟨evs ++ flush_events c st.rel st.cid pending ++ [Event.FreeBulkInsertState] ++
      finish_events st.rel ++ mi_drop_slots st.buffered_tuples st.maxbuffered_tuples,
      batches ++ [pending], st.cid, ?_, ?_, ?_⟩
    · simp [World.log, World.logs, htrace, List.append_assoc]
    · simp only [storage_events_append, hstor, storage_events_finish_events,
        storage_events_mi_drop_slots, storage_events_flush_events, List.append_nil,
        List.flatMap_append, List.flatMap_cons, List.flatMap_nil, hrel]
      have : storage_events [Event.FreeBulkInsertState] = [] := rfl
      rw [this, List.append_nil]
    · simp [hrows]

theorem newEvents_of_trace (w0 w : World) (evs : List Event) (h : w.trace = w0.trace ++ evs) :
    newEvents w0 w = evs := by
  unfold newEvents
  rw [h, List.drop_left]

theorem mi_run_adds_idle (c : Collaborators) (rel : SpockRelation) (w0 : World)
    (tup : SpockTupleData) (calls : List MICall) (hidle : w0.spkmistate = none) :
    mi_run c w0 (MICall.add_tuple rel tup :: calls) =
      mi_run c (spock_apply_heap_mi_start c rel w0) (MICall.add_tuple rel tup :: calls) := by
  simp only [mi_run, mi_call]
  rw [mi_add_tuple_idle c rel tup w0 hidle]

/-! ## Adds followed by finish -/

/-- C2: a run of adds to one relation from a state without multi-insert state,
in which no before-row trigger vetoes (every add has a row to buffer) and no
constraint check fails, followed by finish, returns normally; the bulk writes
put together are exactly the added rows in arrival order, as many as there
were adds, and the table has grown by exactly these rows; index maintenance
(when the relation has indexes) and the after-row insert trigger call (when
the relation has indexes or such a trigger) run over exactly these rows in this
order, each call after the bulk write that placed its row. -/
theorem mi_adds_then_finish (c : Collaborators) (rel : SpockRelation) (w0 : World)
    (tups : List SpockTupleData) (rows : List HeapTuple)
    (hidle : w0.spkmistate = none)
    (hrows : tups.map (br_insert_row c rel) = rows.map some)
    (hcon : rel.constr = true → ∀ r ∈ rows, c.ExecConstraints r = true) :
    ∃ w, mi_run c w0 (mi_adds rel tups ++ [MICall.finish rel]) = .ok w ∧
      w.spkmistate = none ∧
      w.heap = w0.heap ++ rows ∧
      (bulk_writes (newEvents w0 w)).flatten = rows ∧
      (bulk_writes (newEvents w0 w)).flatten.length = tups.length ∧
      (rel.ri_NumIndices > 0 → index_rows (newEvents w0 w) = rows) ∧
      (rel.ri_NumIndices = 0 → index_rows (newEvents w0 w) = []) ∧
      (rel.ri_NumIndices > 0 ∨ has_trig rel (·.trig_insert_after_row) = true →
        ar_insert_rows (newEvents w0 w) = rows) ∧
      after_placement (newEvents w0 w) = true := by
  have hlenrows : rows.length = tups.length := by
    have := congrArg List.length hrows
    simpa using this.symm
  have key : ∃ w, mi_run c w0 (mi_adds rel tups ++ [MICall.finish rel]) = .ok w ∧
      w.spkmistate = none ∧ w.heap = w0.heap ++ rows ∧
      ∃ (evs : List Event) (batches : List (List HeapTuple)) (cid : Nat),
        w.trace = w0.trace ++ evs ∧
        storage_events evs = batches.flatMap (flush_events c rel cid) ∧
        batches.flatten = rows := by
    cases tups with
    | nil =>
      cases rows with
      | cons r rows => simp at hrows
      | nil =>
        refine ⟨w0, ?_, hidle, by simp, [], [], 0, by simp, rfl, rfl⟩
        simp [mi_adds, mi_run, mi_call, spock_apply_heap_mi_finish, hidle]
    | cons tup tups =>
      have hstart := mi_start_idle c rel w0 hidle
      obtain ⟨w1, hw1, hinv1⟩ := mi_adds_run c rel w0 (tup :: tups) rows []
        (spock_apply_heap_mi_start c rel w0) hstart hrows hcon
      have hfin := mi_finish_after_adds c rel rel w0 w1 ([] ++ rows) hinv1
      refine ⟨spock_apply_heap_mi_finish c rel w1, ?_, hfin.1, by simpa using hfin.2.1, ?_⟩
      · have e : mi_adds rel (tup :: tups) ++ [MICall.finish rel] =
            MICall.add_tuple rel tup :: (mi_adds rel tups ++ [MICall.finish rel]) := rfl
        rw [e, mi_run_adds_idle c rel w0 tup _ hidle, ← e, mi_run_append, hw1]
        rfl
      · simpa using hfin.2.2
  obtain ⟨w, hrun, hnone, hheap, evs, batches, cid, htrace, hstor, hflat⟩ := key
  have hnew := newEvents_of_trace w0 w evs htrace
  obtain ⟨f1, f2, f3, f4⟩ := flushes_trace c rel cid batches
  rw [← hstor] at f1 f2 f3 f4
  rw [bulk_writes_storage] at f1
  rw [index_rows_storage] at f2
  rw [ar_insert_rows_storage] at f3
  refine ⟨w, hrun, hnone, hheap, ?_, ?_, ?_, ?_, ?_, ?_⟩
  · rw [hnew, f1, hflat]
  · rw [hnew, f1, hflat, hlenrows]
  · intro hi
    rw [hnew, f2, if_pos hi, hflat]
  · intro hi
    rw [hnew, f2, if_neg (by omega)]
  · intro hi
    rw [hnew, f3, if_pos hi, hflat]
  · unfold after_placement
    rw [hnew, ← placement_scan_storage]
    exact f4 0 0 0 (Nat.le_refl _) (Nat.le_refl _)

/-- Three adds to `R` and a finish put the three rows into the table. -/
theorem mi_adds_then_finish_witness :
    (World.idle.spkmistate = none ∧
      images3.map (br_insert_row quiet relR) = rows3.map some ∧
      (relR.constr = true → ∀ r ∈ rows3, quiet.ExecConstraints r = true)) ∧
    ∃ w, mi_run quiet World.idle (mi_adds relR images3 ++ [MICall.finish relR]) = .ok w ∧
      w.spkmistate = none ∧
      w.heap = World.idle.heap ++ rows3 ∧
      (bulk_writes (newEvents World.idle w)).flatten = rows3 ∧
      (bulk_writes (newEvents World.idle w)).flatten.length = images3.length ∧
      (relR.ri_NumIndices > 0 → index_rows (newEvents World.idle w) = rows3) ∧
      (relR.ri_NumIndices = 0 → index_rows (newEvents World.idle w) = []) ∧
      (relR.ri_NumIndices > 0 ∨ has_trig relR (·.trig_insert_after_row) = true →
        ar_insert_rows (newEvents World.idle w) = rows3) ∧
      after_placement (newEvents World.idle w) = true :=
  ⟨⟨rfl, rfl, fun _ _ _ => rfl⟩,
    mi_adds_then_finish quiet relR World.idle images3 rows3 rfl rfl (fun _ _ _ => rfl)⟩

/-! ## Capacity one -/

theorem singleton_batches (batches : List (List HeapTuple))
    (h : ∀ b ∈ batches, b.length = 1) : batches = batches.flatten.map fun r => [r] := by
  induction batches with
  | nil => rfl
  | cons b bs ih =>
    have hb := h b (List.mem_cons_self _ _)
    have ih1 := ih (fun b1 hb1 => h b1 (List.mem_cons_of_mem _ hb1))
    match b, hb with
    | [x], _ =>
      simp only [List.flatten_cons, List.singleton_append, List.map_cons]
      rw [← ih1]

/-- C10 as stated fails: after three adds to the relation with a before-row
insert trigger only two bulk writes have happened, not three; the third row
is still in the buffer. -/
theorem mi_capacity_one_counterexample :
    ∃ w, mi_run quiet World.idle (mi_adds relR_br images3) = .ok w ∧
      bulk_writes w.trace =
        [[[some (Datum.int 1), some (Datum.text "a")]],
         [[some (Datum.int 2), some (Datum.text "b")]]] ∧
      (bulk_writes w.trace).length ≠ 3 ∧
      w.heap.length = 2 ∧
      w.spkmistate.map (fun st => (st.nbuffered_tuples, st.buffered_tuples)) =
        some (1, [some [some (Datum.int 3), some (Datum.text "c")]]) :=
  ⟨_, rfl, rfl, by decide, rfl, rfl⟩

/-- C10 amended: for a relation of capacity 1, in a run of k > 0 adds from a
state without multi-insert state in which no before-row trigger vetoes and no
constraint check fails, every add after the first begins by flushing the row
of the add before it.  When the k-th add returns, k - 1 bulk writes of one row
each have happened, for the first k - 1 rows in order, and the k-th row is the
single row in the buffer; after any number of these adds the occupancy is at
most 1. -/
theorem mi_capacity_one (c : Collaborators) (rel : SpockRelation) (w0 : World)
    (tups : List SpockTupleData) (rows : List HeapTuple)
    (hcap : mi_maxbuffered_tuples c rel = 1)
    (hidle : w0.spkmistate = none)
    (hk : tups ≠ [])
    (hrows : tups.map (br_insert_row c rel) = rows.map some)
    (hcon : rel.constr = true → ∀ r ∈ rows, c.ExecConstraints r = true) :
    (∃ w st, mi_run c w0 (mi_adds rel tups) = .ok w ∧
      bulk_writes (newEvents w0 w) = rows.dropLast.map (fun r => [r]) ∧
      (bulk_writes (newEvents w0 w)).length = tups.length - 1 ∧
      w.heap = w0.heap ++ rows.dropLast ∧
      w.spkmistate = some st ∧ st.maxbuffered_tuples = 1 ∧ st.nbuffered_tuples = 1 ∧
      st.buffered_tuples = [rows.getLast?]) ∧
    ∀ (j : Nat) (w : World), mi_run c w0 (mi_adds rel (tups.take j)) = .ok w →
      ∀ st, w.spkmistate = some st → st.nbuffered_tuples ≤ 1 := by
  have hlenrows : rows.length = tups.length := by
    have := congrArg List.length hrows
    simpa using this.symm
  have run : ∀ (tups1 : List SpockTupleData) (rows1 : List HeapTuple), tups1 ≠ [] →
      tups1.map (br_insert_row c rel) = rows1.map some →
      (rel.constr = true → ∀ r ∈ rows1, c.ExecConstraints r = true) →
      ∃ w, mi_run c w0 (mi_adds rel tups1) = .ok w ∧ AddsInv c rel w0 rows1 w := by
    intro tups1 rows1 hne h1 h2
    obtain ⟨w1, hw1, hinv1⟩ := mi_adds_run c rel w0 tups1 rows1 []
      (spock_apply_heap_mi_start c rel w0) (mi_start_idle c rel w0 hidle) h1 h2
    refine ⟨w1, ?_, by simpa using hinv1⟩
    cases tups1 with
    | nil => exact absurd rfl hne
    | cons tup tups2 =>
      have e : mi_adds rel (tup :: tups2) = MICall.add_tuple rel tup :: mi_adds rel tups2 := rfl
      rw [e, mi_run_adds_idle c rel w0 tup _ hidle, ← e]
      exact hw1
  constructor
  · obtain ⟨w, hw, st, batches, pending, evs, hst, hrel, hmax, hlen, hn, hle, htake, hrw, hb,
      hne, hheap, htrace, hstor⟩ := run tups rows hk hrows hcon
    rw [hcap] at hmax
    have hrne : rows ≠ [] := by
      intro h
      rw [h] at hlenrows
      cases tups with
      | nil => exact hk rfl
      | cons a l => simp at hlenrows
    have hpne := hne hrne
    rw [hmax] at hle hlen hb
    obtain ⟨x, hx⟩ : ∃ x, pending = [x] := by
      match pending, hpne, hle with
      | [x], _, _ => exact ⟨x, rfl⟩
      | _ :: _ :: _, _, h => simp at h
    subst hx
    have hdl : rows.dropLast = batches.flatten := by
      rw [hrw, List.dropLast_concat]
    have hlast : rows.getLast? = some x := by
      rw [hrw, List.getLast?_concat]
    have hnew := newEvents_of_trace w0 w evs htrace
    have f1 := (flushes_trace c rel st.cid batches).1
    rw [← hstor, bulk_writes_storage] at f1
    have hbw : bulk_writes (newEvents w0 w) = rows.dropLast.map (fun r => [r]) := by
      rw [hnew, f1, hdl]
      exact singleton_batches batches hb
    refine ⟨w, st, hw, hbw, ?_, ?_, hst, hmax, by simpa using hn, ?_⟩
    · rw [hbw]
      simp [hlenrows]
    · rw [hheap, hdl]
    · rw [hlast]
      simp only [List.length_singleton] at hn
      rw [hn] at htake
      match hbuf : st.buffered_tuples, hlen with
      | [y], _ =>
        rw [hbuf] at htake
        simpa using htake
  · intro j w hw st hst
    by_cases hj : tups.take j = []
    · rw [hj] at hw
      simp only [mi_adds, List.map_nil, mi_run, Except.ok.injEq] at hw
      subst hw
      rw [hidle] at hst
      cases hst
    · have h1 : (tups.take j).map (br_insert_row c rel) = (rows.take j).map some := by
        rw [List.map_take, List.map_take, hrows]
      obtain ⟨w1, hw1, st1, batches, pending, evs, hst1, hrel, hmax, hlen, hn, hle, _⟩ :=
        run (tups.take j) (rows.take j) hj h1
          (fun hc r hr => hcon hc r (List.mem_of_mem_take hr))
      rw [hw] at hw1
      cases hw1
      rw [hst] at hst1
      cases hst1
      rw [hcap] at hmax
      omega

/-- Three adds to the relation with a before-row insert trigger: two bulk
writes of one row each have happened and the third row is buffered. -/
theorem mi_capacity_one_witness :
    (mi_maxbuffered_tuples quiet relR_br = 1 ∧ World.idle.spkmistate = none ∧ images3 ≠ [] ∧
      images3.map (br_insert_row quiet relR_br) = rows3.map some ∧
      (relR_br.constr = true → ∀ r ∈ rows3, quiet.ExecConstraints r = true)) ∧
    (∃ w st, mi_run quiet World.idle (mi_adds relR_br images3) = .ok w ∧
      bulk_writes (newEvents World.idle w) = rows3.dropLast.map (fun r => [r]) ∧
      (bulk_writes (newEvents World.idle w)).length = images3.length - 1 ∧
      w.heap = World.idle.heap ++ rows3.dropLast ∧
      w.spkmistate = some st ∧ st.maxbuffered_tuples = 1 ∧ st.nbuffered_tuples = 1 ∧
      st.buffered_tuples = [rows3.getLast?]) ∧
    ∀ (j : Nat) (w : World), mi_run quiet World.idle (mi_adds relR_br (images3.take j)) = .ok w →
      ∀ st, w.spkmistate = some st → st.nbuffered_tuples ≤ 1 :=
  ⟨⟨rfl, rfl, List.cons_ne_nil _ _, rfl, fun _ _ _ => rfl⟩,
    mi_capacity_one quiet relR_br World.idle images3 rows3 rfl rfl (List.cons_ne_nil _ _) rfl
      (fun _ _ _ => rfl)⟩

/-! ## The single-row paths -/

@[simp] theorem logs_nil (w : World) : w.logs [] = w := by
  cases w
  simp [World.logs]

theorem log_eq_logs (w : World) (e : Event) : w.log e = w.logs [e] := rfl

theorem check_constraints_ok (c : Collaborators) (rel : SpockRelation) (slot : HeapTuple)
    (w w1 : World) :
    check_constraints c rel slot w = .ok w1 ↔
      constraints_pass c rel slot ∧ w1 = w.logs (constraint_events rel slot) := by
  unfold check_constraints constraints_pass constraint_events
  cases hc : rel.constr <;> cases he : c.ExecConstraints slot <;>
    simp only [log_eq_logs, logs_nil, if_true, if_false, Bool.false_eq_true, true_implies,
      false_implies, true_and, false_and, Except.ok.injEq, reduceCtorEq] <;>
    exact eq_comm

theorem recheck_index_names_cases (c : Collaborators) (l : List Oid) :
    (∃ idxoid, recheck_index_names c l = .error idxoid) ∨
    (∃ names, recheck_index_names c l = .ok names) := by
  cases recheck_index_names c l with
  | error e => exact Or.inl ⟨e, rfl⟩
  | ok n => exact Or.inr ⟨n, rfl⟩

theorem UserTableUpdateOpenIndexes_ok (c : Collaborators) (rel : SpockRelation)
    (slot : HeapTuple) (update : Bool) (w w1 : World) (r : List Oid) :
    UserTableUpdateOpenIndexes c rel slot update w = .ok (r, w1) ↔
      no_recheck c rel slot update ∧ r = [] ∧ w1 = w.logs (index_events rel slot update) := by
  unfold UserTableUpdateOpenIndexes no_recheck index_events
  by_cases hi : rel.ri_NumIndices > 0
  · by_cases hr : c.ExecInsertIndexTuples slot update = []
    · simp only [hi, hr, if_true, ne_eq, not_true_eq_false, if_false, true_implies, true_and,
        log_eq_logs, Except.ok.injEq, Prod.mk.injEq]
      constructor
      · rintro ⟨h1, h2⟩; exact ⟨h1.symm, h2.symm⟩
      · rintro ⟨h1, h2⟩; exact ⟨h1.symm, h2.symm⟩
    · simp only [hi, hr, if_true, ne_eq, not_false_eq_true, true_implies, false_and, iff_false]
      rcases recheck_index_names_cases c (c.ExecInsertIndexTuples slot update) with
        ⟨e, he⟩ | ⟨n, hn⟩
      · simp [he]
      · simp [hn]
  · simp only [hi, if_false, false_implies, true_and, logs_nil, Except.ok.injEq,
      Prod.mk.injEq]
    constructor
    · rintro ⟨h1, h2⟩; exact ⟨h1.symm, h2.symm⟩
    · rintro ⟨h1, h2⟩; exact ⟨h1.symm, h2.symm⟩

theorem check_constraints_error (c : Collaborators) (rel : SpockRelation) (slot : HeapTuple)
    (w : World) (h : ¬ constraints_pass c rel slot) :
    ∃ e, check_constraints c rel slot w = .error e := by
  cases hc : check_constraints c rel slot w with
  | error e => exact ⟨e, rfl⟩
  | ok w1 => exact absurd ((check_constraints_ok c rel slot w w1).1 hc).1 h

theorem UserTableUpdateOpenIndexes_error (c : Collaborators) (rel : SpockRelation)
    (slot : HeapTuple) (update : Bool) (w : World) (h : ¬ no_recheck c rel slot update) :
    ∃ e, UserTableUpdateOpenIndexes c rel slot update w = .error e := by
  cases hc : UserTableUpdateOpenIndexes c rel slot update w with
  | error e => exact ⟨e, rfl⟩
  | ok p =>
    obtain ⟨r, w1⟩ := p
    exact absurd ((UserTableUpdateOpenIndexes_ok c rel slot update w w1 r).1 hc).1 h

theorem apply_insert_update_ok (c : Collaborators) (rel : SpockRelation) (tid : Nat)
    (slot : HeapTuple) (w w1 : World) :
    apply_insert_update c rel tid slot w = .ok w1 ↔
      constraints_pass c rel slot ∧
      (c.update_indexes tid slot = true → no_recheck c rel slot true) ∧
      w1 = { heap := w.heap.set tid slot
             trace := w.trace ++ (insert_update_events c rel tid slot ++ finish_events rel ++
               [Event.CommandCounterIncrement])
             cid := w.cid + 1
             spkmistate := w.spkmistate } := by
  unfold apply_insert_update insert_update_events
  by_cases hcp : constraints_pass c rel slot
  · rw [(check_constraints_ok c rel slot w _).2 ⟨hcp, rfl⟩]
    simp only [hcp, true_and]
    by_cases hu : c.update_indexes tid slot = true
    · simp only [hu, if_true, true_implies]
      by_cases hr : no_recheck c rel slot true
      · rw [(UserTableUpdateOpenIndexes_ok c rel slot true _ _ []).2 ⟨hr, rfl, rfl⟩]
        simp only [hr, true_and, finish_apply_exec_state_eq, CommandCounterIncrement, World.log,
          World.logs, Except.ok.injEq, List.append_assoc]
        exact eq_comm
      · obtain ⟨e, he⟩ := UserTableUpdateOpenIndexes_error c rel slot true
          ({ w.logs (constraint_events rel slot) with
              heap := (w.logs (constraint_events rel slot)).heap.set tid slot }.log
            (.simple_table_tuple_update tid slot)) hr
        rw [he]
        simp [hr]
    · simp only [hu, Bool.false_eq_true, if_false, false_implies, true_and,
        finish_apply_exec_state_eq, CommandCounterIncrement, World.log, World.logs,
        Except.ok.injEq, List.append_assoc, List.append_nil]
      exact eq_comm
  · obtain ⟨e, he⟩ := check_constraints_error c rel slot w hcp
    rw [he]
    simp [hcp]

theorem apply_insert_slot_plain (c : Collaborators) (rel : SpockRelation) (r : HeapTuple)
    (hbt : Bool) (w w1 : World) :
    apply_insert_slot c rel none r hbt w = .ok w1 ↔
      constraints_pass c rel r ∧ no_recheck c rel r false ∧
      w1 = { heap := w.heap ++ [r]
             trace := w.trace ++ (insert_plain_events rel r ++ finish_events rel ++
               [Event.CommandCounterIncrement])
             cid := w.cid + 1
             spkmistate := w.spkmistate } := by
  unfold apply_insert_slot insert_plain_events
  simp only
  by_cases hcp : constraints_pass c rel r
  · rw [(check_constraints_ok c rel r w _).2 ⟨hcp, rfl⟩]
    simp only [hcp, true_and]
    by_cases hr : no_recheck c rel r false
    · rw [(UserTableUpdateOpenIndexes_ok c rel r false _ _ []).2 ⟨hr, rfl, rfl⟩]
      simp only [hr, true_and, finish_apply_exec_state_eq, CommandCounterIncrement, World.log,
        World.logs, Except.ok.injEq, List.append_assoc]
      exact eq_comm
    · obtain ⟨e, he⟩ := UserTableUpdateOpenIndexes_error c rel r false
        ({ w.logs (constraint_events rel r) with
            heap := (w.logs (constraint_events rel r)).heap ++ [r] }.log
          (.simple_table_tuple_insert r)) hr
      rw [he]
      simp [hr]
  · obtain ⟨e, he⟩ := check_constraints_error c rel r w hcp
    rw [he]
    simp [hcp]

theorem apply_insert_slot_skip (c : Collaborators) (rel : SpockRelation) (idx : Oid) (tid : Nat)
    (r : HeapTuple) (hbt : Bool) (w : World)
    (hres : (c.try_resolve_conflict (w.heap[tid]?.getD []) r).1 = false) :
    apply_insert_slot c rel (some (idx, tid)) r hbt w = .ok
      { heap := w.heap
        trace := w.trace ++
          ([Event.spock_report_conflict .CONFLICT_INSERT_INSERT
              (c.try_resolve_conflict (w.heap[tid]?.getD []) r).2.2 hbt] ++
            finish_events rel ++ [Event.CommandCounterIncrement])
        cid := w.cid + 1
        spkmistate := w.spkmistate } := by
  unfold apply_insert_slot
  simp [hres, finish_apply_exec_state_eq, CommandCounterIncrement, World.log]

theorem apply_insert_slot_veto (c : Collaborators) (rel : SpockRelation) (idx : Oid) (tid : Nat)
    (r : HeapTuple) (hbt : Bool) (w : World)
    (hres : (c.try_resolve_conflict (w.heap[tid]?.getD []) r).1 = true)
    (hveto : br_update_row c rel tid (c.try_resolve_conflict (w.heap[tid]?.getD []) r).2.1 = none) :
    apply_insert_slot c rel (some (idx, tid)) r hbt w = .ok
      { heap := w.heap
        trace := w.trace ++
          ([Event.spock_report_conflict .CONFLICT_INSERT_INSERT
              (c.try_resolve_conflict (w.heap[tid]?.getD []) r).2.2 hbt,
            Event.ExecBRUpdateTriggers tid (c.try_resolve_conflict (w.heap[tid]?.getD []) r).2.1
              none] ++ finish_events rel)
        cid := w.cid
        spkmistate := w.spkmistate } := by
  unfold br_update_row at hveto
  unfold apply_insert_slot
  cases ht : has_trig rel (·.trig_update_before_row)
  · simp [ht] at hveto
  · simp only [ht, if_true] at hveto
    simp [hres, ht, hveto, finish_apply_exec_state_eq, World.log]

theorem apply_insert_slot_apply (c : Collaborators) (rel : SpockRelation) (idx : Oid)
    (tid : Nat) (r slot : HeapTuple) (hbt : Bool) (w : World)
    (hres : (c.try_resolve_conflict (w.heap[tid]?.getD []) r).1 = true)
    (hrow : br_update_row c rel tid (c.try_resolve_conflict (w.heap[tid]?.getD []) r).2.1 =
      some slot) :
    apply_insert_slot c rel (some (idx, tid)) r hbt w =
      apply_insert_update c rel tid slot
        (w.logs ([Event.spock_report_conflict .CONFLICT_INSERT_INSERT
            (c.try_resolve_conflict (w.heap[tid]?.getD []) r).2.2 hbt] ++
          br_update_events c rel tid (c.try_resolve_conflict (w.heap[tid]?.getD []) r).2.1)) := by
  unfold br_update_row at hrow
  unfold apply_insert_slot br_update_events
  cases ht : has_trig rel (·.trig_update_before_row)
  · simp only [ht, Bool.false_eq_true, if_false, Option.some.injEq] at hrow
    subst hrow
    simp [hres, ht, World.log, World.logs]
  · simp only [ht, if_true] at hrow
    simp [hres, ht, hrow, World.log, World.logs]

theorem insert_veto (c : Collaborators) (rel : SpockRelation) (newtup : SpockTupleData)
    (w : World) (hveto : br_insert_row c rel newtup = none) :
    spock_apply_heap_insert c rel newtup w = .ok
      { heap := w.heap
        trace := w.trace ++ (init_events rel ++
          [Event.ExecOpenIndices,
            Event.ExecBRInsertTriggers (insert_tuple c rel newtup) none] ++ finish_events rel)
        cid := w.cid
        spkmistate := w.spkmistate } := by
  unfold br_insert_row at hveto
  unfold spock_apply_heap_insert insert_tuple
  cases ht : has_trig rel (·.trig_insert_before_row)
  · simp [ht] at hveto
  · simp only [ht, if_true] at hveto
    simp [ht, hveto, init_apply_exec_state_eq, finish_apply_exec_state_eq, World.log]

theorem insert_not_veto (c : Collaborators) (rel : SpockRelation) (newtup : SpockTupleData)
    (w : World) (r : HeapTuple) (hrow : br_insert_row c rel newtup = some r) :
    spock_apply_heap_insert c rel newtup w =
      apply_insert_slot c rel (c.spock_tuple_find_conflict rel w.heap newtup) r
        (has_trig rel (·.trig_insert_before_row))
        (w.logs (init_events rel ++ [Event.ExecOpenIndices] ++ br_insert_events c rel newtup)) := by
  unfold br_insert_row at hrow
  unfold spock_apply_heap_insert br_insert_events insert_tuple
  cases ht : has_trig rel (·.trig_insert_before_row)
  · simp only [ht, Bool.false_eq_true, if_false, Option.some.injEq] at hrow
    subst hrow
    simp [ht, init_apply_exec_state_eq, World.log, World.logs]
  · simp only [ht, if_true] at hrow
    simp [ht, hrow, init_apply_exec_state_eq, World.log, World.logs]

theorem constraint_events_inner (rel : SpockRelation) (slot : HeapTuple) :
    (constraint_events rel slot).all is_inner = true := by
  unfold constraint_events
  split <;> rfl

theorem index_events_inner (rel : SpockRelation) (slot : HeapTuple) (update : Bool) :
    (index_events rel slot update).all is_inner = true := by
  unfold index_events
  split <;> rfl

theorem insert_plain_events_inner (rel : SpockRelation) (slot : HeapTuple) :
    (insert_plain_events rel slot).all is_inner = true := by
  unfold insert_plain_events
  simp only [List.all_append, constraint_events_inner, index_events_inner, Bool.true_and]
  rfl

theorem insert_update_events_inner (c : Collaborators) (rel : SpockRelation) (tid : Nat)
    (slot : HeapTuple) : (insert_update_events c rel tid slot).all is_inner = true := by
  unfold insert_update_events
  simp only [List.all_append, constraint_events_inner, Bool.true_and]
  split
  · simp only [index_events_inner, Bool.true_and]
    rfl
  · rfl

theorem br_insert_events_inner (c : Collaborators) (rel : SpockRelation)
    (newtup : SpockTupleData) (r : HeapTuple) (hrow : br_insert_row c rel newtup = some r) :
    (br_insert_events c rel newtup).all is_inner = true := by
  unfold br_insert_row at hrow
  unfold br_insert_events insert_tuple
  split
  · rename_i ht
    simp only [ht, if_true] at hrow
    rw [hrow]
    rfl
  · rfl

theorem br_update_events_inner (c : Collaborators) (rel : SpockRelation) (tid : Nat)
    (slot r : HeapTuple) (hrow : br_update_row c rel tid slot = some r) :
    (br_update_events c rel tid slot).all is_inner = true := by
  unfold br_update_row at hrow
  unfold br_update_events
  split
  · rename_i ht
    simp only [ht, if_true] at hrow
    rw [hrow]
    rfl
  · rfl

theorem inner_any_veto (es : List Event) (h : es.all is_inner = true) :
    es.any is_veto = false := by
  induction es with
  | nil => rfl
  | cons e es ih =>
    simp only [List.all_cons, Bool.and_eq_true] at h
    simp only [List.any_cons, ih h.2, Bool.or_false]
    cases e <;> simp_all [is_inner]

theorem inner_count_cci (es : List Event) (h : es.all is_inner = true) :
    es.count Event.CommandCounterIncrement = 0 ∧ es.count Event.FreeExecutorState = 0 := by
  induction es with
  | nil => exact ⟨rfl, rfl⟩
  | cons e es ih =>
    simp only [List.all_cons, Bool.and_eq_true] at h
    obtain ⟨i1, i2⟩ := ih h.2
    cases e <;> simp_all [is_inner, List.count_cons]

theorem init_events_count (rel : SpockRelation) :
    (init_events rel).any is_veto = false ∧
    (init_events rel).count Event.CommandCounterIncrement = 0 ∧
    (init_events rel).count Event.FreeExecutorState = 0 := by
  unfold init_events
  split <;> simp [is_veto, List.count_cons]

theorem finish_events_count (rel : SpockRelation) :
    (finish_events rel).any is_veto = false ∧
    (finish_events rel).count Event.CommandCounterIncrement = 0 ∧
    (finish_events rel).count Event.FreeExecutorState = 1 ∧
    (finish_events rel).getLast? = some Event.FreeExecutorState := by
  unfold finish_events
  split <;> decide

/-- Shape of the trace of an apply-insert that returns normally: set-up, the
calls `mid` of the path taken, teardown, and the command counter increment
unless a before-row trigger vetoed. -/
theorem insert_shape (c : Collaborators) (rel : SpockRelation) (newtup : SpockTupleData)
    (w w1 : World) (h : spock_apply_heap_insert c rel newtup w = .ok w1) :
    ∃ mid : List Event,
      ((∃ pre last, mid = pre ++ [last] ∧ is_veto last = true ∧ pre.all is_inner = true) ∧
        w1.cid = w.cid ∧
        w1.trace = w.trace ++
          (init_events rel ++ [Event.ExecOpenIndices] ++ mid ++ finish_events rel)) ∨
      (mid.all is_inner = true ∧ w1.cid = w.cid + 1 ∧
        w1.trace = w.trace ++
          (init_events rel ++ [Event.ExecOpenIndices] ++ mid ++ finish_events rel ++
            [Event.CommandCounterIncrement])) := by
  cases hrow : br_insert_row c rel newtup with
  | none =>
    rw [insert_veto c rel newtup w hrow] at h
    cases h
    refine ⟨_, Or.inl ⟨⟨[], Event.ExecBRInsertTriggers (insert_tuple c rel newtup) none,
      rfl, rfl, rfl⟩, rfl, ?_⟩⟩
    simp [List.append_assoc]
  | some r =>
    have hbi := br_insert_events_inner c rel newtup r hrow
    rw [insert_not_veto c rel newtup w r hrow] at h
    cases hcf : c.spock_tuple_find_conflict rel w.heap newtup with
    | none =>
      simp only [logs_heap, hcf] at h
      rw [apply_insert_slot_plain] at h
      obtain ⟨_, _, h⟩ := h
      subst h
      refine ⟨br_insert_events c rel newtup ++ insert_plain_events rel r, Or.inr ⟨?_, rfl, ?_⟩⟩
      · simp only [List.all_append, hbi, insert_plain_events_inner, Bool.and_self]
      · simp [List.append_assoc]
    | some p =>
      obtain ⟨idx, tid⟩ := p
      simp only [logs_heap, hcf] at h
      cases hres : (c.try_resolve_conflict (w.heap[tid]?.getD []) r).1 with
      | false =>
        rw [apply_insert_slot_skip c rel idx tid r _ _ (by simpa using hres)] at h
        cases h
        refine ⟨br_insert_events c rel newtup ++
          [Event.spock_report_conflict .CONFLICT_INSERT_INSERT
            (c.try_resolve_conflict (w.heap[tid]?.getD []) r).2.2
            (has_trig rel (·.trig_insert_before_row))], Or.inr ⟨?_, rfl, ?_⟩⟩
        · simp only [List.all_append, hbi, Bool.true_and]
          rfl
        · simp [List.append_assoc]
      | true =>
        cases hbu : br_update_row c rel tid (c.try_resolve_conflict (w.heap[tid]?.getD []) r).2.1 with
        | none =>
          rw [apply_insert_slot_veto c rel idx tid r _ _ (by simpa using hres)
            (by simpa using hbu)] at h
          cases h
          refine ⟨_, Or.inl ⟨⟨br_insert_events c rel newtup ++
            [Event.spock_report_conflict .CONFLICT_INSERT_INSERT
              (c.try_resolve_conflict (w.heap[tid]?.getD []) r).2.2
              (has_trig rel (·.trig_insert_before_row))],
            Event.ExecBRUpdateTriggers tid (c.try_resolve_conflict (w.heap[tid]?.getD []) r).2.1
              none, rfl, rfl, ?_⟩, rfl, ?_⟩⟩
          · simp only [List.all_append, hbi, Bool.true_and]
            rfl
          · simp [List.append_assoc]
        | some slot =>
          rw [apply_insert_slot_apply c rel idx tid r slot _ _ (by simpa using hres)
            (by simpa using hbu), apply_insert_update_ok] at h
          obtain ⟨_, _, h⟩ := h
          subst h
          refine ⟨br_insert_events c rel newtup ++
            [Event.spock_report_conflict .CONFLICT_INSERT_INSERT
              (c.try_resolve_conflict (w.heap[tid]?.getD []) r).2.2
              (has_trig rel (·.trig_insert_before_row))] ++
            br_update_events c rel tid (c.try_resolve_conflict (w.heap[tid]?.getD []) r).2.1 ++
            insert_update_events c rel tid slot, Or.inr ⟨?_, rfl, ?_⟩⟩
          · simp only [List.all_append, hbi, insert_update_events_inner,
              br_update_events_inner c rel tid _ slot hbu, Bool.true_and, Bool.and_true]
            rfl
          · simp [List.append_assoc]

/-- C7 as stated fails on both veto paths: an apply-insert whose before-row
insert trigger vetoes, and one that collides with a local row and whose
before-row update trigger vetoes, return normally after the teardown without
a command counter increment. -/
theorem insert_visibility_counterexample :
    (∃ w, spock_apply_heap_insert quiet_veto relR_br (image 1 "a") World.idle = .ok w ∧
      w.trace =
        [Event.create_estate_for_relation 2, Event.EvalPlanQualInit,
          Event.AfterTriggerBeginQuery, Event.ExecOpenIndices,
          Event.ExecBRInsertTriggers [some (Datum.int 1), some (Datum.text "a")] none,
          Event.ExecCloseIndices, Event.AfterTriggerEndQuery, Event.EvalPlanQualEnd,
          Event.ExecResetTupleTable, Event.FreeExecutorState] ∧
      w.trace.count Event.CommandCounterIncrement = 0 ∧ w.cid = World.idle.cid) ∧
    (∃ w, spock_apply_heap_insert quiet_veto relR_bru (image 1 "b") World.one_row = .ok w ∧
      w.trace =
        [Event.create_estate_for_relation 4, Event.EvalPlanQualInit,
          Event.AfterTriggerBeginQuery, Event.ExecOpenIndices,
          Event.spock_report_conflict .CONFLICT_INSERT_INSERT .SpockResolution_ApplyRemote false,
          Event.ExecBRUpdateTriggers 0 [some (Datum.int 1), some (Datum.text "b")] none,
          Event.ExecCloseIndices, Event.AfterTriggerEndQuery, Event.EvalPlanQualEnd,
          Event.ExecResetTupleTable, Event.FreeExecutorState] ∧
      w.trace.count Event.CommandCounterIncrement = 0 ∧ w.cid = World.one_row.cid) :=
  ⟨⟨_, rfl, rfl, rfl, rfl⟩, ⟨_, rfl, rfl, rfl, rfl⟩⟩

/-- C7 amended: on every path through apply-insert that returns normally and
on which no before-row trigger vetoes (plain insert, conflict resolved as
apply, conflict resolved as skip), the command counter increment is the last
step before the call returns and is performed exactly once; on the two veto
paths (before-row insert trigger, before-row update trigger on the conflict
path) the call returns right after tearing down the execution state, without
a command counter increment. -/
theorem apply_insert_visibility (c : Collaborators) (rel : SpockRelation)
    (newtup : SpockTupleData) (w w1 : World)
    (h : spock_apply_heap_insert c rel newtup w = .ok w1) :
    ((newEvents w w1).any is_veto = false →
      (newEvents w w1).getLast? = some Event.CommandCounterIncrement ∧
      (newEvents w w1).count Event.CommandCounterIncrement = 1 ∧
      w1.cid = w.cid + 1) ∧
    ((newEvents w w1).any is_veto = true →
      (newEvents w w1).getLast? = some Event.FreeExecutorState ∧
      (newEvents w w1).count Event.CommandCounterIncrement = 0 ∧
      w1.cid = w.cid) := by
  obtain ⟨i1, i2, i3⟩ := init_events_count rel
  obtain ⟨f1, f2, f3, f4⟩ := finish_events_count rel
  have f5 : finish_events rel ≠ [] := by
    intro hf; rw [hf] at f4; cases f4
  obtain ⟨mid, ⟨⟨pre, last, hmid, hlast, hpre⟩, hcid, htrace⟩ | ⟨hmid, hcid, htrace⟩⟩ :=
    insert_shape c rel newtup w w1 h
  · have hnew := newEvents_of_trace w w1 _ htrace
    have hany : (newEvents w w1).any is_veto = true := by
      rw [hnew, hmid]
      simp [hlast]
    have hc : (newEvents w w1).count Event.CommandCounterIncrement = 0 := by
      rw [hnew, hmid]
      simp only [List.count_append, i2, f2, (inner_count_cci pre hpre).1]
      cases last <;> simp_all [is_veto, List.count_cons]
    refine ⟨fun h0 => (by rw [hany] at h0; cases h0), fun _ => ⟨?_, hc, hcid⟩⟩
    rw [hnew, List.getLast?_append_of_ne_nil _ f5]
    exact f4
  · have hnew := newEvents_of_trace w w1 _ htrace
    have hany : (newEvents w w1).any is_veto = false := by
      rw [hnew]
      simp only [List.any_append, i1, f1, inner_any_veto mid hmid, Bool.or_false]
      rfl
    have hc : (newEvents w w1).count Event.CommandCounterIncrement = 1 := by
      rw [hnew]
      simp only [List.count_append, i2, f2, (inner_count_cci mid hmid).1]
      rfl
    refine ⟨fun _ => ⟨?_, hc, hcid⟩, fun h0 => (by rw [hany] at h0; cases h0)⟩
    rw [hnew, List.getLast?_concat]

/-- A plain apply-insert of `(1, "a")` into the empty table `R` returns
normally. -/
theorem apply_insert_visibility_witness :
    ∃ w1, spock_apply_heap_insert quiet relR (image 1 "a") World.idle = .ok w1 ∧
      ((newEvents World.idle w1).any is_veto = false →
        (newEvents World.idle w1).getLast? = some Event.CommandCounterIncrement ∧
        (newEvents World.idle w1).count Event.CommandCounterIncrement = 1 ∧
        w1.cid = World.idle.cid + 1) ∧
      ((newEvents World.idle w1).any is_veto = true →
        (newEvents World.idle w1).getLast? = some Event.FreeExecutorState ∧
        (newEvents World.idle w1).count Event.CommandCounterIncrement = 0 ∧
        w1.cid = World.idle.cid) :=
  ⟨_, rfl, apply_insert_visibility quiet relR (image 1 "a") World.idle _ rfl⟩

/-! ## Update and delete of a row that is not there; trigger vetoes -/

theorem init_events_plain (rel : SpockRelation) :
    (init_events rel).filter is_mutation = [] ∧ (init_events rel).filter is_trigger = [] ∧
    (init_events rel).filter is_after_trigger = [] ∧ conflict_reports (init_events rel) = [] := by
  unfold init_events
  split <;> exact ⟨rfl, rfl, rfl, rfl⟩

theorem finish_events_plain (rel : SpockRelation) :
    (finish_events rel).filter is_mutation = [] ∧ (finish_events rel).filter is_trigger = [] ∧
    (finish_events rel).filter is_after_trigger = [] ∧
    conflict_reports (finish_events rel) = [] := by
  unfold finish_events
  split <;> exact ⟨rfl, rfl, rfl, rfl⟩

theorem conflict_reports_append (es1 es2 : List Event) :
    conflict_reports (es1 ++ es2) = conflict_reports es1 ++ conflict_reports es2 := by
  simp [conflict_reports]

theorem update_not_found (c : Collaborators) (rel : SpockRelation)
    (oldtup newtup : SpockTupleData) (w : World)
    (h : c.spock_tuple_find_replidx rel w.heap oldtup = none) :
    spock_apply_heap_update c rel oldtup newtup w = .ok
      { heap := w.heap
        trace := w.trace ++ (init_events rel ++
          [Event.spock_report_conflict .CONFLICT_UPDATE_DELETE .SpockResolution_Skip false] ++
          finish_events rel ++ [Event.CommandCounterIncrement])
        cid := w.cid + 1
        spkmistate := w.spkmistate } := by
  unfold spock_apply_heap_update
  simp [init_apply_exec_state_eq, finish_apply_exec_state_eq, h, CommandCounterIncrement,
    World.log]

theorem update_veto (c : Collaborators) (rel : SpockRelation)
    (oldtup newtup : SpockTupleData) (w : World) (tid : Nat)
    (h : c.spock_tuple_find_replidx rel w.heap oldtup = some tid)
    (ht : has_trig rel (·.trig_update_before_row) = true)
    (hveto : c.ExecBRUpdateTriggers tid (update_tuple c rel newtup w.heap tid) = none) :
    spock_apply_heap_update c rel oldtup newtup w = .ok
      { heap := w.heap
        trace := w.trace ++ (init_events rel ++
          [Event.ExecBRUpdateTriggers tid (update_tuple c rel newtup w.heap tid) none] ++
          finish_events rel)
        cid := w.cid
        spkmistate := w.spkmistate } := by
  unfold update_tuple at hveto
  unfold spock_apply_heap_update update_tuple
  simp [init_apply_exec_state_eq, finish_apply_exec_state_eq, h, ht, hveto, World.log]

theorem delete_not_found (c : Collaborators) (rel : SpockRelation) (oldtup : SpockTupleData)
    (w : World) (h : c.spock_tuple_find_replidx rel w.heap oldtup = none) :
    spock_apply_heap_delete c rel oldtup w = .ok
      { heap := w.heap
        trace := w.trace ++ (init_events rel ++
          [Event.spock_report_conflict .CONFLICT_DELETE_DELETE .SpockResolution_Skip false] ++
          finish_events rel ++ [Event.CommandCounterIncrement])
        cid := w.cid + 1
        spkmistate := w.spkmistate } := by
  unfold spock_apply_heap_delete
  simp [init_apply_exec_state_eq, finish_apply_exec_state_eq, h, CommandCounterIncrement,
    World.log]

theorem delete_veto (c : Collaborators) (rel : SpockRelation) (oldtup : SpockTupleData)
    (w : World) (tid : Nat)
    (h : c.spock_tuple_find_replidx rel w.heap oldtup = some tid)
    (ht : has_trig rel (·.trig_delete_before_row) = true)
    (hveto : c.ExecBRDeleteTriggers tid = false) :
    spock_apply_heap_delete c rel oldtup w = .ok
      { heap := w.heap
        trace := w.trace ++ (init_events rel ++ [Event.ExecBRDeleteTriggers tid false] ++
          finish_events rel)
        cid := w.cid
        spkmistate := w.spkmistate } := by
  unfold spock_apply_heap_delete
  simp [init_apply_exec_state_eq, finish_apply_exec_state_eq, h, ht, hveto, World.log]

theorem delete_found (c : Collaborators) (rel : SpockRelation) (oldtup : SpockTupleData)
    (w : World) (tid : Nat)
    (h : c.spock_tuple_find_replidx rel w.heap oldtup = some tid)
    (hgo : has_trig rel (·.trig_delete_before_row) = true → c.ExecBRDeleteTriggers tid = true) :
    spock_apply_heap_delete c rel oldtup w = .ok
      { heap := w.heap.eraseIdx tid
        trace := w.trace ++ (init_events rel ++
          (if has_trig rel (·.trig_delete_before_row) then
            [Event.ExecBRDeleteTriggers tid true] else []) ++
          [Event.simple_heap_delete tid, Event.ExecARDeleteTriggers tid] ++
          finish_events rel ++ [Event.CommandCounterIncrement])
        cid := w.cid + 1
        spkmistate := w.spkmistate } := by
  unfold spock_apply_heap_delete apply_delete_found
  cases ht : has_trig rel (·.trig_delete_before_row)
  · simp [init_apply_exec_state_eq, finish_apply_exec_state_eq, h, ht, CommandCounterIncrement,
      World.log]
  · simp [init_apply_exec_state_eq, finish_apply_exec_state_eq, h, ht, hgo ht,
      CommandCounterIncrement, World.log]

/-- C5: an apply-update whose old-row key is not found locally returns
normally; the table is unchanged and no call that changes the table or its
indexes and no trigger call is made; the conflict reporter is called exactly
once, with kind update-delete and resolution skip. -/
theorem apply_update_not_found (c : Collaborators) (rel : SpockRelation)
    (oldtup newtup : SpockTupleData) (w : World)
    (h : c.spock_tuple_find_replidx rel w.heap oldtup = none) :
    ∃ w1, spock_apply_heap_update c rel oldtup newtup w = .ok w1 ∧
      w1.heap = w.heap ∧
      (newEvents w w1).filter is_mutation = [] ∧
      (newEvents w w1).filter is_trigger = [] ∧
      conflict_reports (newEvents w w1) =
        [(SpockConflictType.CONFLICT_UPDATE_DELETE, SpockConflictResolution.SpockResolution_Skip)] := by
  obtain ⟨i1, i2, _, i4⟩ := init_events_plain rel
  obtain ⟨f1, f2, _, f4⟩ := finish_events_plain rel
  refine ⟨_, update_not_found c rel oldtup newtup w h, rfl, ?_, ?_, ?_⟩
  · rw [newEvents_of_trace w _ _ rfl]
    simp only [List.filter_append, i1, f1]
    rfl
  · rw [newEvents_of_trace w _ _ rfl]
    simp only [List.filter_append, i2, f2]
    rfl
  · rw [newEvents_of_trace w _ _ rfl]
    simp only [conflict_reports_append, i4, f4]
    rfl

/-- An update of key 1 against the empty table `R`. -/
theorem apply_update_not_found_witness :
    quiet.spock_tuple_find_replidx relR World.idle.heap (image 1 "a") = none ∧
    ∃ w1, spock_apply_heap_update quiet relR (image 1 "a") (image 1 "b") World.idle = .ok w1 ∧
      w1.heap = World.idle.heap ∧
      (newEvents World.idle w1).filter is_mutation = [] ∧
      (newEvents World.idle w1).filter is_trigger = [] ∧
      conflict_reports (newEvents World.idle w1) =
        [(SpockConflictType.CONFLICT_UPDATE_DELETE, SpockConflictResolution.SpockResolution_Skip)] :=
  ⟨rfl, apply_update_not_found quiet relR (image 1 "a") (image 1 "b") World.idle rfl⟩

/-- C6: an apply-delete whose old-row key is not found locally returns
normally; the table is unchanged and no call that changes the table and no
trigger call is made; the conflict reporter is called exactly once, with kind
delete-delete and resolution skip.  In particular, when the table holds the
one row with the key, the lookup finds it and no before-row delete trigger
vetoes, deleting the key twice leaves the table empty after the first and
after the second delete, and the two deletes together report exactly one
conflict, a delete-delete one. -/
theorem apply_delete_not_found (c : Collaborators) (rel : SpockRelation)
    (oldtup : SpockTupleData) (w : World) :
    (c.spock_tuple_find_replidx rel w.heap oldtup = none →
      ∃ w1, spock_apply_heap_delete c rel oldtup w = .ok w1 ∧
        w1.heap = w.heap ∧
        (newEvents w w1).filter is_mutation = [] ∧
        (newEvents w w1).filter is_trigger = [] ∧
        conflict_reports (newEvents w w1) =
          [(SpockConflictType.CONFLICT_DELETE_DELETE,
            SpockConflictResolution.SpockResolution_Skip)]) ∧
    (∀ row, w.heap = [row] →
      c.spock_tuple_find_replidx rel [row] oldtup = some 0 →
      c.spock_tuple_find_replidx rel [] oldtup = none →
      (has_trig rel (·.trig_delete_before_row) = true → c.ExecBRDeleteTriggers 0 = true) →
      ∃ w1 w2, spock_apply_heap_delete c rel oldtup w = .ok w1 ∧
        spock_apply_heap_delete c rel oldtup w1 = .ok w2 ∧
        w1.heap = [] ∧ w2.heap = [] ∧
        conflict_reports (newEvents w w1) = [] ∧
        conflict_reports (newEvents w w2) =
          [(SpockConflictType.CONFLICT_DELETE_DELETE,
            SpockConflictResolution.SpockResolution_Skip)]) := by
  obtain ⟨i1, i2, _, i4⟩ := init_events_plain rel
  obtain ⟨f1, f2, _, f4⟩ := finish_events_plain rel
  constructor
  · intro h
    refine ⟨_, delete_not_found c rel oldtup w h, rfl, ?_, ?_, ?_⟩
    · rw [newEvents_of_trace w _ _ rfl]
      simp only [List.filter_append, i1, f1]
      rfl
    · rw [newEvents_of_trace w _ _ rfl]
      simp only [List.filter_append, i2, f2]
      rfl
    · rw [newEvents_of_trace w _ _ rfl]
      simp only [conflict_reports_append, i4, f4]
      rfl
  · intro row hrow hfind hgone hgo
    have h1 := delete_found c rel oldtup w 0 (by rw [hrow]; exact hfind) hgo
    have hbr : conflict_reports (if has_trig rel (·.trig_delete_before_row) = true then
        [Event.ExecBRDeleteTriggers 0 true] else []) = [] := by
      split <;> rfl
    refine ⟨_, _, h1, delete_not_found c rel oldtup _ (by simp only [hrow]; exact hgone),
      by simp [hrow], by simp [hrow], ?_, ?_⟩
    · rw [newEvents_of_trace w _ _ rfl]
      simp only [conflict_reports_append, i4, f4, hbr]
      rfl
    · unfold newEvents
      simp only [List.append_assoc, List.drop_left, conflict_reports_append, i4, f4, hbr]
      rfl

/-- Deleting key 1 from the empty table `R`, and deleting it twice from the
table holding `(1, "a")`. -/
theorem apply_delete_not_found_witness :
    (quiet.spock_tuple_find_replidx relR World.idle.heap (image 1 "a") = none ∧
      ∃ w1, spock_apply_heap_delete quiet relR (image 1 "a") World.idle = .ok w1 ∧
        w1.heap = World.idle.heap ∧
        (newEvents World.idle w1).filter is_mutation = [] ∧
        (newEvents World.idle w1).filter is_trigger = [] ∧
        conflict_reports (newEvents World.idle w1) =
          [(SpockConflictType.CONFLICT_DELETE_DELETE,
            SpockConflictResolution.SpockResolution_Skip)]) ∧
    (World.one_row.heap = [[some (Datum.int 1), some (Datum.text "a")]] ∧
      quiet.spock_tuple_find_replidx relR [[some (Datum.int 1), some (Datum.text "a")]]
        (image 1 "a") = some 0 ∧
      ∃ w1 w2, spock_apply_heap_delete quiet relR (image 1 "a") World.one_row = .ok w1 ∧
        spock_apply_heap_delete quiet relR (image 1 "a") w1 = .ok w2 ∧
        w1.heap = [] ∧ w2.heap = [] ∧
        conflict_reports (newEvents World.one_row w1) = [] ∧
        conflict_reports (newEvents World.one_row w2) =
          [(SpockConflictType.CONFLICT_DELETE_DELETE,
            SpockConflictResolution.SpockResolution_Skip)]) :=
  ⟨⟨rfl, (apply_delete_not_found quiet relR (image 1 "a") World.idle).1 rfl⟩,
    ⟨rfl, rfl, (apply_delete_not_found quiet relR (image 1 "a") World.one_row).2 _ rfl rfl rfl
      (fun _ => rfl)⟩⟩

/-- C8: a veto of the before-row trigger of the operation makes apply-insert,
apply-update and apply-delete return normally with the table unchanged, no
call that changes the table or its indexes, no after-row trigger call, and
the execution state released exactly once. -/
theorem trigger_veto_noop (c : Collaborators) (rel : SpockRelation) (w : World) :
    (∀ newtup, has_trig rel (·.trig_insert_before_row) = true →
      c.ExecBRInsertTriggers (insert_tuple c rel newtup) = none →
      ∃ w1, spock_apply_heap_insert c rel newtup w = .ok w1 ∧ w1.heap = w.heap ∧
        (newEvents w w1).filter is_mutation = [] ∧
        (newEvents w w1).filter is_after_trigger = [] ∧
        (newEvents w w1).count Event.FreeExecutorState = 1) ∧
    (∀ oldtup newtup tid, c.spock_tuple_find_replidx rel w.heap oldtup = some tid →
      has_trig rel (·.trig_update_before_row) = true →
      c.ExecBRUpdateTriggers tid (update_tuple c rel newtup w.heap tid) = none →
      ∃ w1, spock_apply_heap_update c rel oldtup newtup w = .ok w1 ∧ w1.heap = w.heap ∧
        (newEvents w w1).filter is_mutation = [] ∧
        (newEvents w w1).filter is_after_trigger = [] ∧
        (newEvents w w1).count Event.FreeExecutorState = 1) ∧
    (∀ oldtup tid, c.spock_tuple_find_replidx rel w.heap oldtup = some tid →
      has_trig rel (·.trig_delete_before_row) = true →
      c.ExecBRDeleteTriggers tid = false →
      ∃ w1, spock_apply_heap_delete c rel oldtup w = .ok w1 ∧ w1.heap = w.heap ∧
        (newEvents w w1).filter is_mutation = [] ∧
        (newEvents w w1).filter is_after_trigger = [] ∧
        (newEvents w w1).count Event.FreeExecutorState = 1) := by
  obtain ⟨i1, _, i3, _⟩ := init_events_plain rel
  obtain ⟨f1, _, f3, _⟩ := finish_events_plain rel
  obtain ⟨_, _, ic⟩ := init_events_count rel
  obtain ⟨_, _, fc, _⟩ := finish_events_count rel
  refine ⟨?_, ?_, ?_⟩
  · intro newtup ht hveto
    have hrow : br_insert_row c rel newtup = none := by
      unfold br_insert_row
      unfold insert_tuple at hveto
      simp [ht, hveto]
    refine ⟨_, insert_veto c rel newtup w hrow, rfl, ?_, ?_, ?_⟩
    · rw [newEvents_of_trace w _ _ rfl]
      simp only [List.filter_append, i1, f1]
      rfl
    · rw [newEvents_of_trace w _ _ rfl]
      simp only [List.filter_append, i3, f3]
      rfl
    · rw [newEvents_of_trace w _ _ rfl]
      simp only [List.count_append, ic, fc]
      rfl
  · intro oldtup newtup tid hfind ht hveto
    refine ⟨_, update_veto c rel oldtup newtup w tid hfind ht hveto, rfl, ?_, ?_, ?_⟩
    · rw [newEvents_of_trace w _ _ rfl]
      simp only [List.filter_append, i1, f1]
      rfl
    · rw [newEvents_of_trace w _ _ rfl]
      simp only [List.filter_append, i3, f3]
      rfl
    · rw [newEvents_of_trace w _ _ rfl]
      simp only [List.count_append, ic, fc]
      rfl
  · intro oldtup tid hfind ht hveto
    refine ⟨_, delete_veto c rel oldtup w tid hfind ht hveto, rfl, ?_, ?_, ?_⟩
    · rw [newEvents_of_trace w _ _ rfl]
      simp only [List.filter_append, i1, f1]
      rfl
    · rw [newEvents_of_trace w _ _ rfl]
      simp only [List.filter_append, i3, f3]
      rfl
    · rw [newEvents_of_trace w _ _ rfl]
      simp only [List.count_append, ic, fc]
      rfl

/-- Vetoed insert into `R` with a before-row insert trigger, vetoed update and
vetoed delete of the row `(1, "a")` of `R` with the respective trigger. -/
theorem trigger_veto_noop_witness :
    (has_trig relR_br (·.trig_insert_before_row) = true ∧
      quiet_veto.ExecBRInsertTriggers (insert_tuple quiet_veto relR_br (image 1 "a")) = none ∧
      ∃ w1, spock_apply_heap_insert quiet_veto relR_br (image 1 "a") World.one_row = .ok w1 ∧
        w1.heap = World.one_row.heap ∧
        (newEvents World.one_row w1).filter is_mutation = [] ∧
        (newEvents World.one_row w1).filter is_after_trigger = [] ∧
        (newEvents World.one_row w1).count Event.FreeExecutorState = 1) ∧
    (quiet_veto.spock_tuple_find_replidx relR_bru World.one_row.heap (image 1 "a") = some 0 ∧
      has_trig relR_bru (·.trig_update_before_row) = true ∧
      ∃ w1, spock_apply_heap_update quiet_veto relR_bru (image 1 "a") (image 1 "b")
          World.one_row = .ok w1 ∧
        w1.heap = World.one_row.heap ∧
        (newEvents World.one_row w1).filter is_mutation = [] ∧
        (newEvents World.one_row w1).filter is_after_trigger = [] ∧
        (newEvents World.one_row w1).count Event.FreeExecutorState = 1) ∧
    (quiet_veto.spock_tuple_find_replidx relR_brd World.one_row.heap (image 1 "a") = some 0 ∧
      has_trig relR_brd (·.trig_delete_before_row) = true ∧
      ∃ w1, spock_apply_heap_delete quiet_veto relR_brd (image 1 "a") World.one_row = .ok w1 ∧
        w1.heap = World.one_row.heap ∧
        (newEvents World.one_row w1).filter is_mutation = [] ∧
        (newEvents World.one_row w1).filter is_after_trigger = [] ∧
        (newEvents World.one_row w1).count Event.FreeExecutorState = 1) :=
  ⟨⟨rfl, rfl, (trigger_veto_noop quiet_veto relR_br World.one_row).1 (image 1 "a") rfl rfl⟩,
    ⟨rfl, rfl, (trigger_veto_noop quiet_veto relR_bru World.one_row).2.1
      (image 1 "a") (image 1 "b") 0 rfl rfl rfl⟩,
    ⟨rfl, rfl, (trigger_veto_noop quiet_veto relR_brd World.one_row).2.2
      (image 1 "a") 0 rfl rfl rfl⟩⟩

/-! ## Insert colliding with a local row -/

theorem insert_update_events_plain (c : Collaborators) (rel : SpockRelation) (tid : Nat)
    (slot : HeapTuple) :
    (insert_update_events c rel tid slot).filter is_row_insert = [] ∧
    conflict_reports (insert_update_events c rel tid slot) = [] := by
  unfold insert_update_events constraint_events index_events
  split <;> split <;> (try split) <;> exact ⟨rfl, rfl⟩

theorem br_insert_events_plain (c : Collaborators) (rel : SpockRelation)
    (newtup : SpockTupleData) :
    (br_insert_events c rel newtup).filter is_row_insert = [] ∧
    conflict_reports (br_insert_events c rel newtup) = [] := by
  unfold br_insert_events
  split <;> exact ⟨rfl, rfl⟩

theorem br_update_events_plain (c : Collaborators) (rel : SpockRelation) (tid : Nat)
    (slot : HeapTuple) :
    (br_update_events c rel tid slot).filter is_row_insert = [] ∧
    conflict_reports (br_update_events c rel tid slot) = [] := by
  unfold br_update_events
  split <;> exact ⟨rfl, rfl⟩

theorem init_finish_no_row_insert (rel : SpockRelation) :
    (init_events rel).filter is_row_insert = [] ∧
    (finish_events rel).filter is_row_insert = [] := by
  unfold init_events finish_events
  split <;> exact ⟨rfl, rfl⟩

/-- An apply-insert that found a conflicting row and was not vetoed by the
before-row insert trigger keeps the number of rows, inserts no row and reports
the conflict once, whenever it returns normally. -/
theorem insert_conflict_reported (c : Collaborators) (rel : SpockRelation)
    (newtup : SpockTupleData) (w w1 : World) (idx : Oid) (tid : Nat) (r : HeapTuple)
    (hfind : c.spock_tuple_find_conflict rel w.heap newtup = some (idx, tid))
    (hrow : br_insert_row c rel newtup = some r)
    (h : spock_apply_heap_insert c rel newtup w = .ok w1) :
    w1.heap.length = w.heap.length ∧
    (newEvents w w1).filter is_row_insert = [] ∧
    conflict_reports (newEvents w w1) =
      [(SpockConflictType.CONFLICT_INSERT_INSERT,
        (c.try_resolve_conflict (w.heap[tid]?.getD []) r).2.2)] := by
  obtain ⟨i1, i2⟩ := init_finish_no_row_insert rel
  obtain ⟨_, _, _, i4⟩ := init_events_plain rel
  obtain ⟨_, _, _, f4⟩ := finish_events_plain rel
  obtain ⟨b1, b2⟩ := br_insert_events_plain c rel newtup
  rw [insert_not_veto c rel newtup w r hrow] at h
  simp only [logs_heap, hfind] at h
  cases hres : (c.try_resolve_conflict (w.heap[tid]?.getD []) r).1 with
  | false =>
    rw [apply_insert_slot_skip c rel idx tid r _ _ (by simpa using hres)] at h
    cases h
    refine ⟨rfl, ?_, ?_⟩
    · unfold newEvents
      simp only [logs_trace, logs_heap, List.append_assoc, List.drop_left, List.filter_append,
        i1, i2, b1]
      rfl
    · unfold newEvents
      simp only [logs_trace, logs_heap, List.append_assoc, List.drop_left,
        conflict_reports_append, i4, f4, b2]
      rfl
  | true =>
    cases hbu : br_update_row c rel tid (c.try_resolve_conflict (w.heap[tid]?.getD []) r).2.1 with
    | none =>
      rw [apply_insert_slot_veto c rel idx tid r _ _ (by simpa using hres)
        (by simpa using hbu)] at h
      cases h
      refine ⟨rfl, ?_, ?_⟩
      · unfold newEvents
        simp only [logs_trace, logs_heap, List.append_assoc, List.drop_left, List.filter_append,
          i1, i2, b1]
        rfl
      · unfold newEvents
        simp only [logs_trace, logs_heap, List.append_assoc, List.drop_left,
          conflict_reports_append, i4, f4, b2]
        rfl
    | some slot =>
      obtain ⟨u1, u2⟩ := insert_update_events_plain c rel tid slot
      obtain ⟨v1, v2⟩ := br_update_events_plain c rel tid
        (c.try_resolve_conflict (w.heap[tid]?.getD []) r).2.1
      rw [apply_insert_slot_apply c rel idx tid r slot _ _ (by simpa using hres)
        (by simpa using hbu), apply_insert_update_ok] at h
      obtain ⟨_, _, h⟩ := h
      subst h
      refine ⟨by simp, ?_, ?_⟩
      · unfold newEvents
        simp only [logs_trace, logs_heap, List.append_assoc, List.drop_left, List.filter_append,
          i1, i2, b1, u1, v1]
        rfl
      · unfold newEvents
        simp only [logs_trace, logs_heap, List.append_assoc, List.drop_left,
          conflict_reports_append, i4, f4, b2, u2, v2]
        rfl

/-- C4 as stated fails in three ways.  With the resolver applying the remote
row, an insert of `(1, "b")` colliding with the local row `(1, "a", 5)` of a
table with a third, not replicated column leaves `(1, "b", NULL)`, the whole
remote tuple, where the merge of the changed columns over the local content is
`(1, "b", 5)`.  When the before-row insert trigger vetoes, a colliding insert
reports no conflict at all.  When the before-row update trigger vetoes, the
local row stays as it was although the resolver decided to apply. -/
theorem insert_conflict_counterexample :
    (∃ w1, spock_apply_heap_insert quiet relX (imageX 1 "b") World.one_rowX = .ok w1 ∧
      quiet.spock_tuple_find_conflict relX World.one_rowX.heap (imageX 1 "b") = some (1, 0) ∧
      w1.heap = [[some (Datum.int 1), some (Datum.text "b"), none]] ∧
      spec_merge_changed [some (Datum.int 1), some (Datum.text "a"), some (Datum.int 5)]
          (imageX 1 "b") =
        [some (Datum.int 1), some (Datum.text "b"), some (Datum.int 5)]) ∧
    (∃ w1, spock_apply_heap_insert quiet_veto relR_br (image 1 "b") World.one_row = .ok w1 ∧
      quiet_veto.spock_tuple_find_conflict relR_br World.one_row.heap (image 1 "b") =
        some (1, 0) ∧
      conflict_reports w1.trace = []) ∧
    (∃ w1, spock_apply_heap_insert quiet_veto relR_bru (image 1 "b") World.one_row = .ok w1 ∧
      quiet_veto.try_resolve_conflict [some (Datum.int 1), some (Datum.text "a")]
          [some (Datum.int 1), some (Datum.text "b")] =
        (true, [some (Datum.int 1), some (Datum.text "b")],
          SpockConflictResolution.SpockResolution_ApplyRemote) ∧
      w1.heap = [[some (Datum.int 1), some (Datum.text "a")]]) :=
  ⟨⟨_, rfl, rfl, rfl, rfl⟩, ⟨_, rfl, rfl, rfl⟩, ⟨_, rfl, rfl, rfl⟩⟩

/-- C4 amended: for an apply-insert whose conflict lookup finds a local row
and whose before-row insert trigger does not veto (`r` is the remote row as
the trigger leaves it): whenever the call returns normally the table has as
many rows as before, no row was inserted and the insert-insert conflict was
reported exactly once.  If the resolver decides to apply, the before-row
update trigger does not veto, the constraints hold and no index is to be
rechecked, the call returns normally and the found local row is replaced by
the resolver's tuple as the update trigger leaves it; for a relation without
triggers and a resolver that applies the remote row this is the whole tuple
formed from the remote image with its defaults, not a merge by changed
columns.  If the resolver decides to keep the local row, the call returns
normally and the table is unchanged.  Applying an insert to the empty table
gives one row, and applying it again, when the lookup now finds that row,
reports the conflict and leaves one row. -/
theorem apply_insert_conflict (c : Collaborators) (rel : SpockRelation)
    (newtup : SpockTupleData) (w : World) :
    (∀ idx tid r, c.spock_tuple_find_conflict rel w.heap newtup = some (idx, tid) →
      br_insert_row c rel newtup = some r →
      (∀ w1, spock_apply_heap_insert c rel newtup w = .ok w1 →
        w1.heap.length = w.heap.length ∧
        (newEvents w w1).filter is_row_insert = [] ∧
        conflict_reports (newEvents w w1) =
          [(SpockConflictType.CONFLICT_INSERT_INSERT,
            (c.try_resolve_conflict (w.heap[tid]?.getD []) r).2.2)]) ∧
      ((c.try_resolve_conflict (w.heap[tid]?.getD []) r).1 = true →
        ∀ slot,
          br_update_row c rel tid (c.try_resolve_conflict (w.heap[tid]?.getD []) r).2.1 =
            some slot →
          constraints_pass c rel slot →
          (c.update_indexes tid slot = true → no_recheck c rel slot true) →
          ∃ w1, spock_apply_heap_insert c rel newtup w = .ok w1 ∧
            w1.heap = w.heap.set tid slot) ∧
      ((c.try_resolve_conflict (w.heap[tid]?.getD []) r).1 = true →
        (c.try_resolve_conflict (w.heap[tid]?.getD []) r).2.1 = r →
        rel.trigdesc = none →
        constraints_pass c rel r →
        (c.update_indexes tid r = true → no_recheck c rel r true) →
        ∃ w1, spock_apply_heap_insert c rel newtup w = .ok w1 ∧
          w1.heap = w.heap.set tid (insert_tuple c rel newtup)) ∧
      ((c.try_resolve_conflict (w.heap[tid]?.getD []) r).1 = false →
        ∃ w1, spock_apply_heap_insert c rel newtup w = .ok w1 ∧ w1.heap = w.heap)) ∧
    (∀ idx r, w.heap = [] →
      c.spock_tuple_find_conflict rel [] newtup = none →
      br_insert_row c rel newtup = some r →
      constraints_pass c rel r → no_recheck c rel r false →
      c.spock_tuple_find_conflict rel [r] newtup = some (idx, 0) →
      ∃ w1, spock_apply_heap_insert c rel newtup w = .ok w1 ∧ w1.heap = [r] ∧
        ∀ w2, spock_apply_heap_insert c rel newtup w1 = .ok w2 →
          w2.heap.length = 1 ∧
          conflict_reports (newEvents w1 w2) =
            [(SpockConflictType.CONFLICT_INSERT_INSERT,
              (c.try_resolve_conflict r r).2.2)]) := by
  have apply_case : ∀ idx tid r slot,
      c.spock_tuple_find_conflict rel w.heap newtup = some (idx, tid) →
      br_insert_row c rel newtup = some r →
      (c.try_resolve_conflict (w.heap[tid]?.getD []) r).1 = true →
      br_update_row c rel tid (c.try_resolve_conflict (w.heap[tid]?.getD []) r).2.1 =
        some slot →
      constraints_pass c rel slot →
      (c.update_indexes tid slot = true → no_recheck c rel slot true) →
      ∃ w1, spock_apply_heap_insert c rel newtup w = .ok w1 ∧
        w1.heap = w.heap.set tid slot := by
    intro idx tid r slot hfind hrow hres hbu hcp hnr
    rw [insert_not_veto c rel newtup w r hrow]
    simp only [logs_heap, hfind]
    rw [apply_insert_slot_apply c rel idx tid r slot _ _ (by simpa using hres)
      (by simpa using hbu)]
    exact ⟨_, (apply_insert_update_ok c rel tid slot _ _).2 ⟨hcp, hnr, rfl⟩, by simp⟩
  constructor
  · intro idx tid r hfind hrow
    refine ⟨fun w1 h => insert_conflict_reported c rel newtup w w1 idx tid r hfind hrow h,
      fun hres slot hbu hcp hnr => apply_case idx tid r slot hfind hrow hres hbu hcp hnr,
      ?_, ?_⟩
    · intro hres hremote hnotrig hcp hnr
      have hr : r = insert_tuple c rel newtup := by
        unfold br_insert_row has_trig at hrow
        simp only [hnotrig, Bool.false_eq_true, if_false, Option.some.injEq] at hrow
        exact hrow.symm
      have hbu : br_update_row c rel tid
          (c.try_resolve_conflict (w.heap[tid]?.getD []) r).2.1 = some r := by
        unfold br_update_row has_trig
        simp [hnotrig, hremote]
      rw [← hr]
      exact apply_case idx tid r r hfind hrow hres hbu hcp hnr
    · intro hres
      rw [insert_not_veto c rel newtup w r hrow]
      simp only [logs_heap, hfind]
      rw [apply_insert_slot_skip c rel idx tid r _ _ (by simpa using hres)]
      exact ⟨_, rfl, rfl⟩
  · intro idx r hempty hnone hrow hcp hnr hfound
    have h1 : ∃ w1, spock_apply_heap_insert c rel newtup w = .ok w1 ∧ w1.heap = [r] := by
      rw [insert_not_veto c rel newtup w r hrow]
      simp only [logs_heap, hempty, hnone]
      exact ⟨_, (apply_insert_slot_plain c rel r _ _ _).2 ⟨hcp, hnr, rfl⟩, by simp [hempty]⟩
    obtain ⟨w1, hw1, hheap⟩ := h1
    refine ⟨w1, hw1, hheap, ?_⟩
    intro w2 hw2
    have := insert_conflict_reported c rel newtup w1 w2 idx 0 r (by rw [hheap]; exact hfound)
      hrow hw2
    rw [hheap] at this
    exact ⟨by simpa using this.1, by simpa using this.2.2⟩

/-- The insert of `(1, "b")` colliding with `(1, "a")` in `R`, resolved as
apply-remote, and the insert of `(1, "a")` applied to the empty `R`. -/
theorem apply_insert_conflict_witness :
    (quiet.spock_tuple_find_conflict relR World.one_row.heap (image 1 "b") = some (1, 0) ∧
      br_insert_row quiet relR (image 1 "b") =
        some [some (Datum.int 1), some (Datum.text "b")] ∧
      ∃ w1, spock_apply_heap_insert quiet relR (image 1 "b") World.one_row = .ok w1 ∧
        w1.heap = World.one_row.heap.set 0 [some (Datum.int 1), some (Datum.text "b")]) ∧
    (World.idle.heap = [] ∧
      ∃ w1, spock_apply_heap_insert quiet relR (image 1 "a") World.idle = .ok w1 ∧
        w1.heap = [[some (Datum.int 1), some (Datum.text "a")]] ∧
        ∀ w2, spock_apply_heap_insert quiet relR (image 1 "a") w1 = .ok w2 →
          w2.heap.length = 1 ∧
          conflict_reports (newEvents w1 w2) =
            [(SpockConflictType.CONFLICT_INSERT_INSERT,
              (quiet.try_resolve_conflict [some (Datum.int 1), some (Datum.text "a")]
                [some (Datum.int 1), some (Datum.text "a")]).2.2)]) :=
  ⟨⟨rfl, rfl,
      ((apply_insert_conflict quiet relR (image 1 "b") World.one_row).1 1 0 _ rfl rfl).2.1 rfl
        _ rfl (fun h => absurd h (by decide)) (fun _ _ => rfl)⟩,
    ⟨rfl, (apply_insert_conflict quiet relR (image 1 "a") World.idle).2 1 _ rfl rfl rfl
      (fun h => absurd h (by decide)) (fun _ => rfl) rfl⟩⟩

/-! ## Deferrable indexes -/

/-- Index maintenance of the single-row paths raises an error whenever the
relation has indexes and a recheck is asked for: the deferrable index report
when every index name is found. -/
theorem UserTableUpdateOpenIndexes_deferrable (c : Collaborators) (rel : SpockRelation)
    (slot : HeapTuple) (update : Bool) (w : World)
    (hi : rel.ri_NumIndices > 0) (hr : c.ExecInsertIndexTuples slot update ≠ []) :
    (∃ e, UserTableUpdateOpenIndexes c rel slot update w = .error e) ∧
    ∀ names, recheck_index_names c (c.ExecInsertIndexTuples slot update) = .ok names →
      UserTableUpdateOpenIndexes c rel slot update w = .error (.deferrable_indexes names) := by
  constructor
  · exact UserTableUpdateOpenIndexes_error c rel slot update w (fun h => hr (h hi))
  · intro names hn
    unfold UserTableUpdateOpenIndexes
    simp [hi, hr, hn]

/-- C9 fails on the multi-insert flush.  With index maintenance reporting an
index for a deferred recheck, the single-row insert of `(1, "a")` raises the
deferrable index error, while the multi-insert add of the same row followed by
finish returns normally: the flush hands the recheck list to the after-row
insert triggers and the row is in the table. -/
theorem mi_flush_deferrable_no_error :
    spock_apply_heap_insert quiet_deferrable relR_br (image 1 "a") World.idle =
      .error (.deferrable_indexes ["idx"]) ∧
    ∃ w, mi_run quiet_deferrable World.idle
        [MICall.add_tuple relR_br (image 1 "a"), MICall.finish relR_br] = .ok w ∧
      w.heap = [[some (Datum.int 1), some (Datum.text "a")]] ∧
      w.trace.filter is_storage =
        [Event.heap_multi_insert [[some (Datum.int 1), some (Datum.text "a")]] 0,
         Event.ExecInsertIndexTuples [some (Datum.int 1), some (Datum.text "a")] false,
         Event.ExecARInsertTriggers [some (Datum.int 1), some (Datum.text "a")] [42]] :=
  ⟨rfl, _, rfl, rfl, rfl⟩

/-! ## Update of a row that is there -/

theorem apply_update_update_ok (c : Collaborators) (rel : SpockRelation) (tid : Nat)
    (slot : HeapTuple) (w w1 : World) :
    apply_update_update c rel tid slot w = .ok w1 ↔
      constraints_pass c rel slot ∧
      (c.update_indexes tid slot = true → no_recheck c rel slot true) ∧
      w1 = { heap := w.heap.set tid slot
             trace := w.trace ++ (update_update_events c rel tid slot ++ finish_events rel ++
               [Event.CommandCounterIncrement])
             cid := w.cid + 1
             spkmistate := w.spkmistate } := by
  unfold apply_update_update update_update_events
  by_cases hcp : constraints_pass c rel slot
  · rw [(check_constraints_ok c rel slot w _).2 ⟨hcp, rfl⟩]
    simp only [hcp, true_and]
    by_cases hu : c.update_indexes tid slot = true
    · simp only [hu, if_true, true_implies]
      by_cases hr : no_recheck c rel slot true
      · rw [(UserTableUpdateOpenIndexes_ok c rel slot true _ _ []).2 ⟨hr, rfl, rfl⟩]
        simp only [hr, true_and, finish_apply_exec_state_eq, CommandCounterIncrement, World.log,
          World.logs, Except.ok.injEq, List.append_assoc, List.cons_append, List.nil_append,
          List.singleton_append]
        exact eq_comm
      · obtain ⟨e, he⟩ := UserTableUpdateOpenIndexes_error c rel slot true
          (({ w.logs (constraint_events rel slot) with
              heap := (w.logs (constraint_events rel slot)).heap.set tid slot }.log
            (.simple_table_tuple_update tid slot)).log .ExecOpenIndices) hr
        rw [he]
        simp [hr]
    · simp only [hu, Bool.false_eq_true, if_false, false_implies, true_and,
        finish_apply_exec_state_eq, CommandCounterIncrement, World.log, World.logs,
        Except.ok.injEq, List.append_assoc, List.append_nil]
      exact eq_comm
  · obtain ⟨e, he⟩ := check_constraints_error c rel slot w hcp
    rw [he]
    simp [hcp]

theorem update_found_not_veto (c : Collaborators) (rel : SpockRelation)
    (oldtup newtup : SpockTupleData) (w : World) (tid : Nat) (r : HeapTuple)
    (hfind : c.spock_tuple_find_replidx rel w.heap oldtup = some tid)
    (hrow : br_update_row c rel tid (update_tuple c rel newtup w.heap tid) = some r) :
    spock_apply_heap_update c rel oldtup newtup w =
      apply_update_slot c rel tid (w.heap[tid]?.getD []) r
        (has_trig rel (·.trig_update_before_row))
        (w.logs (init_events rel ++
          br_update_events c rel tid (update_tuple c rel newtup w.heap tid))) := by
  unfold br_update_row at hrow
  unfold spock_apply_heap_update br_update_events
  unfold update_tuple at hrow ⊢
  cases ht : has_trig rel (·.trig_update_before_row)
  · simp only [ht, Bool.false_eq_true, if_false, Option.some.injEq] at hrow
    subst hrow
    simp [ht, hfind, init_apply_exec_state_eq, World.log, World.logs]
  · simp only [ht, if_true] at hrow
    simp [ht, hfind, hrow, init_apply_exec_state_eq, World.log, World.logs]

theorem apply_update_slot_conflict (c : Collaborators) (rel : SpockRelation) (tid : Nat)
    (localtuple r : HeapTuple) (hbt : Bool) (w : World)
    (hconf : update_conflict c tid localtuple = true) :
    apply_update_slot c rel tid localtuple r hbt w =
      if (c.try_resolve_conflict localtuple r).1 then
        apply_update_update c rel tid (c.try_resolve_conflict localtuple r).2.1
          (w.logs [Event.spock_report_conflict .CONFLICT_UPDATE_UPDATE
            (c.try_resolve_conflict localtuple r).2.2 hbt])
      else .ok
        { heap := w.heap
          trace := w.trace ++
            ([Event.spock_report_conflict .CONFLICT_UPDATE_UPDATE
                (c.try_resolve_conflict localtuple r).2.2 hbt] ++
              finish_events rel ++ [Event.CommandCounterIncrement])
          cid := w.cid + 1
          spkmistate := w.spkmistate } := by
  unfold update_conflict at hconf
  unfold apply_update_slot
  simp only [hconf, if_true]
  split
  · rfl
  · simp [finish_apply_exec_state_eq, CommandCounterIncrement, World.log]

theorem apply_update_slot_no_conflict (c : Collaborators) (rel : SpockRelation) (tid : Nat)
    (localtuple r : HeapTuple) (hbt : Bool) (w : World)
    (hconf : update_conflict c tid localtuple = false) :
    apply_update_slot c rel tid localtuple r hbt w = apply_update_update c rel tid r w := by
  unfold update_conflict at hconf
  unfold apply_update_slot
  simp only [hconf, Bool.false_eq_true, if_false]

theorem update_conflict_iff (c : Collaborators) (tid : Nat) (localtuple : HeapTuple) :
    update_conflict c tid localtuple = true ↔
      ((c.get_tuple_origin tid localtuple).found = true ∧
        (c.get_tuple_origin tid localtuple).xmin ≠ c.GetTopTransactionId ∧
        (c.get_tuple_origin tid localtuple).local_origin ≠ c.replorigin_session_origin) := by
  unfold update_conflict
  simp [and_assoc]

theorem updated_rows_append (es1 es2 : List Event) :
    updated_rows (es1 ++ es2) = updated_rows es1 ++ updated_rows es2 := by
  simp [updated_rows]

theorem init_finish_no_update (rel : SpockRelation) :
    updated_rows (init_events rel) = [] ∧ updated_rows (finish_events rel) = [] := by
  unfold init_events finish_events
  split <;> exact ⟨rfl, rfl⟩

theorem br_update_events_no_update (c : Collaborators) (rel : SpockRelation) (tid : Nat)
    (slot : HeapTuple) : updated_rows (br_update_events c rel tid slot) = [] := by
  unfold br_update_events
  split <;> rfl

theorem update_update_events_plain (c : Collaborators) (rel : SpockRelation) (tid : Nat)
    (slot : HeapTuple) :
    updated_rows (update_update_events c rel tid slot) = [(tid, slot)] ∧
    conflict_reports (update_update_events c rel tid slot) = [] := by
  unfold update_update_events constraint_events index_events
  split <;> split <;> (try split) <;> exact ⟨rfl, rfl⟩

/-- What an apply-update does with a found row that no before-row trigger
vetoed, by the outcome of the conflict test. -/
theorem update_found_outcome (c : Collaborators) (rel : SpockRelation)
    (oldtup newtup : SpockTupleData) (w w1 : World) (tid : Nat) (r : HeapTuple)
    (hfind : c.spock_tuple_find_replidx rel w.heap oldtup = some tid)
    (hrow : br_update_row c rel tid (update_tuple c rel newtup w.heap tid) = some r)
    (h : spock_apply_heap_update c rel oldtup newtup w = .ok w1) :
    (update_conflict c tid (w.heap[tid]?.getD []) = true →
      conflict_reports (newEvents w w1) =
        [(SpockConflictType.CONFLICT_UPDATE_UPDATE,
          (c.try_resolve_conflict (w.heap[tid]?.getD []) r).2.2)] ∧
      ((c.try_resolve_conflict (w.heap[tid]?.getD []) r).1 = true →
        w1.heap = w.heap.set tid (c.try_resolve_conflict (w.heap[tid]?.getD []) r).2.1 ∧
        updated_rows (newEvents w w1) =
          [(tid, (c.try_resolve_conflict (w.heap[tid]?.getD []) r).2.1)]) ∧
      ((c.try_resolve_conflict (w.heap[tid]?.getD []) r).1 = false →
        w1.heap = w.heap ∧ updated_rows (newEvents w w1) = [])) ∧
    (update_conflict c tid (w.heap[tid]?.getD []) = false →
      conflict_reports (newEvents w w1) = [] ∧
      w1.heap = w.heap.set tid r ∧
      updated_rows (newEvents w w1) = [(tid, r)]) := by
  obtain ⟨_, _, _, i4⟩ := init_events_plain rel
  obtain ⟨_, _, _, f4⟩ := finish_events_plain rel
  obtain ⟨i5, f5⟩ := init_finish_no_update rel
  obtain ⟨_, b2⟩ := br_update_events_plain c rel tid (update_tuple c rel newtup w.heap tid)
  have b3 := br_update_events_no_update c rel tid (update_tuple c rel newtup w.heap tid)
  rw [update_found_not_veto c rel oldtup newtup w tid r hfind hrow] at h
  constructor
  · intro hconf
    rw [apply_update_slot_conflict c rel tid _ r _ _ hconf] at h
    cases hres : (c.try_resolve_conflict (w.heap[tid]?.getD []) r).1 with
    | false =>
      simp only [hres, Bool.false_eq_true, if_false, Except.ok.injEq] at h
      subst h
      refine ⟨?_, fun hc => (by cases hc), fun _ => ⟨rfl, ?_⟩⟩
      · unfold newEvents
        simp only [logs_trace, List.append_assoc, List.drop_left, conflict_reports_append, i4, f4,
          b2]
        rfl
      · unfold newEvents
        simp only [logs_trace, List.append_assoc, List.drop_left, updated_rows_append, i5, f5,
          b3]
        rfl
    | true =>
      simp only [hres, if_true] at h
      rw [apply_update_update_ok] at h
      obtain ⟨_, _, h⟩ := h
      subst h
      obtain ⟨u1, u2⟩ := update_update_events_plain c rel tid
        (c.try_resolve_conflict (w.heap[tid]?.getD []) r).2.1
      refine ⟨?_, fun _ => ⟨(by simp), ?_⟩, fun hc => (by cases hc)⟩
      · unfold newEvents
        simp only [logs_trace, List.append_assoc, List.drop_left, conflict_reports_append, i4, f4,
          b2, u2]
        rfl
      · unfold newEvents
        simp only [logs_trace, List.append_assoc, List.drop_left, updated_rows_append, i5, f5,
          b3, u1]
        rfl
  · intro hconf
    rw [apply_update_slot_no_conflict c rel tid _ r _ _ hconf, apply_update_update_ok] at h
    obtain ⟨_, _, h⟩ := h
    subst h
    obtain ⟨u1, u2⟩ := update_update_events_plain c rel tid r
    refine ⟨?_, (by simp), ?_⟩
    · unfold newEvents
      simp only [logs_trace, List.append_assoc, List.drop_left, conflict_reports_append, i4, f4,
        b2, u2]
      rfl
    · unfold newEvents
      simp only [logs_trace, List.append_assoc, List.drop_left, updated_rows_append, i5, f5,
        b3, u1]
      rfl

/-- An apply-update of a found row that no before-row trigger vetoed returns
normally whenever the row it is to write passes the constraints and asks for
no index recheck, and whenever the resolver decides to skip. -/
theorem update_found_returns (c : Collaborators) (rel : SpockRelation)
    (oldtup newtup : SpockTupleData) (w : World) (tid : Nat) (r : HeapTuple)
    (hfind : c.spock_tuple_find_replidx rel w.heap oldtup = some tid)
    (hrow : br_update_row c rel tid (update_tuple c rel newtup w.heap tid) = some r) :
    (update_conflict c tid (w.heap[tid]?.getD []) = true →
      ((c.try_resolve_conflict (w.heap[tid]?.getD []) r).1 = false →
        ∃ w1, spock_apply_heap_update c rel oldtup newtup w = .ok w1) ∧
      ((c.try_resolve_conflict (w.heap[tid]?.getD []) r).1 = true →
        constraints_pass c rel (c.try_resolve_conflict (w.heap[tid]?.getD []) r).2.1 →
        (c.update_indexes tid (c.try_resolve_conflict (w.heap[tid]?.getD []) r).2.1 = true →
          no_recheck c rel (c.try_resolve_conflict (w.heap[tid]?.getD []) r).2.1 true) →
        ∃ w1, spock_apply_heap_update c rel oldtup newtup w = .ok w1)) ∧
    (update_conflict c tid (w.heap[tid]?.getD []) = false →
      constraints_pass c rel r →
      (c.update_indexes tid r = true → no_recheck c rel r true) →
      ∃ w1, spock_apply_heap_update c rel oldtup newtup w = .ok w1) := by
  rw [update_found_not_veto c rel oldtup newtup w tid r hfind hrow]
  constructor
  · intro hconf
    rw [apply_update_slot_conflict c rel tid _ r _ _ hconf]
    constructor
    · intro hres
      simp only [hres, Bool.false_eq_true, if_false]
      exact ⟨_, rfl⟩
    · intro hres hcp hnr
      simp only [hres, if_true]
      exact ⟨_, (apply_update_update_ok c rel tid _ _ _).2 ⟨hcp, hnr, rfl⟩⟩
  · intro hconf hcp hnr
    rw [apply_update_slot_no_conflict c rel tid _ r _ _ hconf]
    exact ⟨_, (apply_update_update_ok c rel tid _ _ _).2 ⟨hcp, hnr, rfl⟩⟩

/-! ## Update conflict detection -/

/-- C11 as stated fails: for a local row with a frozen `xmin` the origin is
not found; its last writer (transaction 2) differs from the apply transaction
(1) and its origin (0) differs from the origin of the applying stream (1), yet
the update is applied without any conflict report. -/
theorem update_conflict_counterexample :
    ∃ w1, spock_apply_heap_update quiet_frozen relR (image 1 "a") (image 1 "b")
        World.one_row = .ok w1 ∧
      quiet_frozen.spock_tuple_find_replidx relR World.one_row.heap (image 1 "a") = some 0 ∧
      (quiet_frozen.get_tuple_origin 0 [some (Datum.int 1), some (Datum.text "a")]).xmin ≠
        quiet_frozen.GetTopTransactionId ∧
      (quiet_frozen.get_tuple_origin 0 [some (Datum.int 1), some (Datum.text "a")]).local_origin ≠
        quiet_frozen.replorigin_session_origin ∧
      (quiet_frozen.get_tuple_origin 0 [some (Datum.int 1), some (Datum.text "a")]).found =
        false ∧
      conflict_reports w1.trace = [] ∧
      w1.heap = [[some (Datum.int 1), some (Datum.text "b")]] :=
  ⟨_, rfl, rfl, by decide, by decide, rfl, rfl, rfl⟩

/-- C11 amended: for an apply-update whose key is found at `tid` and whose
before-row trigger does not veto (`r` is the merged row as the trigger leaves
it), an update-update conflict is reported, with the resolution the resolver
gave for the local row and `r`, exactly when the origin of the local row was
found, its last-writer transaction differs from the current apply transaction
and its origin differs from the origin of the applying stream; the resolver
then decides whether its tuple replaces the local row or nothing is written.
In every other case, also when the origin of the local row was not found,
`r` replaces the local row with no conflict report.  The call returns
normally when the row to write passes the constraints and asks for no index
recheck, and when the resolver decides to skip. -/
theorem apply_update_conflict_detection (c : Collaborators) (rel : SpockRelation)
    (oldtup newtup : SpockTupleData) (w : World) (tid : Nat) (r : HeapTuple)
    (hfind : c.spock_tuple_find_replidx rel w.heap oldtup = some tid)
    (hrow : br_update_row c rel tid (update_tuple c rel newtup w.heap tid) = some r) :
    (((c.get_tuple_origin tid (w.heap[tid]?.getD [])).found = true ∧
        (c.get_tuple_origin tid (w.heap[tid]?.getD [])).xmin ≠ c.GetTopTransactionId ∧
        (c.get_tuple_origin tid (w.heap[tid]?.getD [])).local_origin ≠
          c.replorigin_session_origin) →
      (∀ w1, spock_apply_heap_update c rel oldtup newtup w = .ok w1 →
        conflict_reports (newEvents w w1) =
          [(SpockConflictType.CONFLICT_UPDATE_UPDATE,
            (c.try_resolve_conflict (w.heap[tid]?.getD []) r).2.2)] ∧
        ((c.try_resolve_conflict (w.heap[tid]?.getD []) r).1 = true →
          w1.heap = w.heap.set tid (c.try_resolve_conflict (w.heap[tid]?.getD []) r).2.1 ∧
          updated_rows (newEvents w w1) =
            [(tid, (c.try_resolve_conflict (w.heap[tid]?.getD []) r).2.1)]) ∧
        ((c.try_resolve_conflict (w.heap[tid]?.getD []) r).1 = false →
          w1.heap = w.heap ∧ updated_rows (newEvents w w1) = [])) ∧
      ((c.try_resolve_conflict (w.heap[tid]?.getD []) r).1 = false →
        ∃ w1, spock_apply_heap_update c rel oldtup newtup w = .ok w1) ∧
      ((c.try_resolve_conflict (w.heap[tid]?.getD []) r).1 = true →
        constraints_pass c rel (c.try_resolve_conflict (w.heap[tid]?.getD []) r).2.1 →
        (c.update_indexes tid (c.try_resolve_conflict (w.heap[tid]?.getD []) r).2.1 = true →
          no_recheck c rel (c.try_resolve_conflict (w.heap[tid]?.getD []) r).2.1 true) →
        ∃ w1, spock_apply_heap_update c rel oldtup newtup w = .ok w1)) ∧
    (¬ ((c.get_tuple_origin tid (w.heap[tid]?.getD [])).found = true ∧
        (c.get_tuple_origin tid (w.heap[tid]?.getD [])).xmin ≠ c.GetTopTransactionId ∧
        (c.get_tuple_origin tid (w.heap[tid]?.getD [])).local_origin ≠
          c.replorigin_session_origin) →
      (∀ w1, spock_apply_heap_update c rel oldtup newtup w = .ok w1 →
        conflict_reports (newEvents w w1) = [] ∧
        w1.heap = w.heap.set tid r ∧
        updated_rows (newEvents w w1) = [(tid, r)]) ∧
      (constraints_pass c rel r →
        (c.update_indexes tid r = true → no_recheck c rel r true) →
        ∃ w1, spock_apply_heap_update c rel oldtup newtup w = .ok w1)) := by
  have hret := update_found_returns c rel oldtup newtup w tid r hfind hrow
  constructor
  · intro hcond
    have hconf := (update_conflict_iff c tid (w.heap[tid]?.getD [])).2 hcond
    exact ⟨fun w1 h => (update_found_outcome c rel oldtup newtup w w1 tid r hfind hrow h).1 hconf,
      (hret.1 hconf).1, (hret.1 hconf).2⟩
  · intro hcond
    have hconf : update_conflict c tid (w.heap[tid]?.getD []) = false := by
      cases hb : update_conflict c tid (w.heap[tid]?.getD []) with
      | false => rfl
      | true => exact absurd ((update_conflict_iff c tid _).1 hb) hcond
    exact ⟨fun w1 h => (update_found_outcome c rel oldtup newtup w w1 tid r hfind hrow h).2 hconf,
      hret.2 hconf⟩

/-- The update of `(1, "a")` to `(1, "b")` in `R`: reported as update-update
conflict when the row was written by transaction 7 of origin 9, applied
without report when the origin of the row is not found. -/
theorem apply_update_conflict_detection_witness :
    (quiet_foreign.spock_tuple_find_replidx relR World.one_row.heap (image 1 "a") = some 0 ∧
      br_update_row quiet_foreign relR 0
          (update_tuple quiet_foreign relR (image 1 "b") World.one_row.heap 0) =
        some [some (Datum.int 1), some (Datum.text "b")] ∧
      ∃ w1, spock_apply_heap_update quiet_foreign relR (image 1 "a") (image 1 "b")
          World.one_row = .ok w1 ∧
        conflict_reports (newEvents World.one_row w1) =
          [(SpockConflictType.CONFLICT_UPDATE_UPDATE,
            SpockConflictResolution.SpockResolution_ApplyRemote)] ∧
        w1.heap = [[some (Datum.int 1), some (Datum.text "b")]]) ∧
    (quiet_frozen.spock_tuple_find_replidx relR World.one_row.heap (image 1 "a") = some 0 ∧
      ∃ w1, spock_apply_heap_update quiet_frozen relR (image 1 "a") (image 1 "b")
          World.one_row = .ok w1 ∧
        conflict_reports (newEvents World.one_row w1) = [] ∧
        w1.heap = [[some (Datum.int 1), some (Datum.text "b")]]) := by
  refine ⟨⟨rfl, rfl, ?_⟩, ⟨rfl, ?_⟩⟩
  · obtain ⟨hall, _, hex⟩ :=
      (apply_update_conflict_detection quiet_foreign relR (image 1 "a") (image 1 "b")
        World.one_row 0 [some (Datum.int 1), some (Datum.text "b")] rfl rfl).1
        ⟨rfl, by decide, by decide⟩
    obtain ⟨w1, h1⟩ := hex rfl (fun h => absurd h (by decide)) (fun _ _ => rfl)
    exact ⟨w1, h1, (hall w1 h1).1, ((hall w1 h1).2.1 rfl).1⟩
  · obtain ⟨hall, hex⟩ :=
      (apply_update_conflict_detection quiet_frozen relR (image 1 "a") (image 1 "b")
        World.one_row 0 [some (Datum.int 1), some (Datum.text "b")] rfl rfl).2
        (fun h => absurd h.1 (by decide))
    obtain ⟨w1, h1⟩ := hex (fun h => absurd h (by decide)) (fun _ _ => rfl)
    exact ⟨w1, h1, (hall w1 h1).1, (hall w1 h1).2.1⟩

/-! ## Update is a partial merge -/

theorem fill_defaults_foldl (c : Collaborators) (l : List (Nat × Expr)) :
    ∀ t : SpockTupleData,
      (l.foldl (fun t (de : Nat × Expr) =>
          { t with
            values := Function.update t.values de.1 (c.ExecEvalExpr de.2).1
            nulls := Function.update t.nulls de.1 (c.ExecEvalExpr de.2).2 }) t).changed =
        t.changed ∧
      ∀ i, (∀ e, (i, e) ∉ l) →
        (l.foldl (fun t (de : Nat × Expr) =>
            { t with
              values := Function.update t.values de.1 (c.ExecEvalExpr de.2).1
              nulls := Function.update t.nulls de.1 (c.ExecEvalExpr de.2).2 }) t).values i =
          t.values i ∧
        (l.foldl (fun t (de : Nat × Expr) =>
            { t with
              values := Function.update t.values de.1 (c.ExecEvalExpr de.2).1
              nulls := Function.update t.nulls de.1 (c.ExecEvalExpr de.2).2 }) t).nulls i =
          t.nulls i := by
  induction l with
  | nil => intro t; exact ⟨rfl, fun i _ => ⟨rfl, rfl⟩⟩
  | cons de l ih =>
    intro t
    simp only [List.foldl_cons]
    obtain ⟨h1, h2⟩ := ih
      { t with
        values := Function.update t.values de.1 (c.ExecEvalExpr de.2).1
        nulls := Function.update t.nulls de.1 (c.ExecEvalExpr de.2).2 }
    refine ⟨h1, ?_⟩
    intro i hi
    have hne : i ≠ de.1 := by
      intro he
      exact hi de.2 (by rw [he]; exact List.mem_cons_self _ _)
    obtain ⟨h3, h4⟩ := h2 i (fun e he => hi e (List.mem_cons_of_mem _ he))
    rw [h3, h4]
    exact ⟨Function.update_noteq hne _ _, Function.update_noteq hne _ _⟩

/-- The default filler leaves the `changed` flags alone. -/
theorem fill_missing_defaults_changed (c : Collaborators) (rel : SpockRelation)
    (t : SpockTupleData) : (fill_missing_defaults c rel t).changed = t.changed := by
  unfold fill_missing_defaults
  split
  · rfl
  · exact (fill_defaults_foldl c _ t).1

/-- The default filler leaves every column alone that is not one of the
columns it computes a default for. -/
theorem fill_missing_defaults_untouched (c : Collaborators) (rel : SpockRelation)
    (t : SpockTupleData) (i : Nat)
    (h : rel.atts.length = rel.natts ∨ physatt_in_attmap rel i = true ∨
      ∀ e, (i, e) ∉ fill_missing_defaults_defmap rel) :
    (fill_missing_defaults c rel t).values i = t.values i ∧
    (fill_missing_defaults c rel t).nulls i = t.nulls i := by
  unfold fill_missing_defaults
  split
  · exact ⟨rfl, rfl⟩
  · rename_i hne
    have hnot : ∀ e, (i, e) ∉ fill_missing_defaults_defmap rel := by
      rcases h with h | h | h
      · exact absurd h hne
      · intro e he
        unfold fill_missing_defaults_defmap at he
        simp only [List.mem_filterMap] at he
        obtain ⟨attnum, _, hat⟩ := he
        split at hat
        · cases hat
        · split at hat
          · cases hat
          · split at hat
            · cases hat
            · rename_i hphys
              simp only [Option.map_eq_some'] at hat
              obtain ⟨e1, _, he1⟩ := hat
              cases he1
              exact hphys h
      · exact h
    exact (fill_defaults_foldl c _ t).2 i hnot

theorem heap_modify_tuple_column (tuple : HeapTuple) (natts : Nat) (values : Nat → Datum)
    (nulls changed : Nat → Bool) (i : Nat) (hi : i < natts) :
    (heap_modify_tuple tuple natts values nulls changed)[i]? =
      some (if changed i then (if nulls i then none else some (values i))
        else tuple.getD i none) := by
  unfold heap_modify_tuple
  simp [List.getElem?_map, List.getElem?_range hi]

theorem heap_modify_tuple_length (tuple : HeapTuple) (natts : Nat) (values : Nat → Datum)
    (nulls changed : Nat → Bool) :
    (heap_modify_tuple tuple natts values nulls changed).length = natts := by
  unfold heap_modify_tuple
  simp

/-- C12: for an apply-update whose key is found at `tid`, whose before-row
trigger (if any) leaves the merged row as it is and for which no conflict is
detected, every normal return has written exactly the merged row over the
local row, and the call returns normally when that row passes the constraints
and asks for no index recheck.  The merged row has one entry per physical
column; at a column whose changed flag is not set it has the value of the
local row, whatever the default filler placed into the image there; at a
column whose changed flag is set it has the value the image holds when the
merge is made, which is the value of the new image as received for every
column the default filler does not write (every column when all columns are
replicated, otherwise every column in the attribute map). -/
theorem apply_update_partial_merge (c : Collaborators) (rel : SpockRelation)
    (oldtup newtup : SpockTupleData) (w : World) (tid : Nat)
    (hfind : c.spock_tuple_find_replidx rel w.heap oldtup = some tid)
    (hrow : br_update_row c rel tid (update_tuple c rel newtup w.heap tid) =
      some (update_tuple c rel newtup w.heap tid))
    (hnoconf : update_conflict c tid (w.heap[tid]?.getD []) = false) :
    (∀ w1, spock_apply_heap_update c rel oldtup newtup w = .ok w1 →
      w1.heap = w.heap.set tid (update_tuple c rel newtup w.heap tid) ∧
      updated_rows (newEvents w w1) = [(tid, update_tuple c rel newtup w.heap tid)] ∧
      conflict_reports (newEvents w w1) = []) ∧
    (constraints_pass c rel (update_tuple c rel newtup w.heap tid) →
      (c.update_indexes tid (update_tuple c rel newtup w.heap tid) = true →
        no_recheck c rel (update_tuple c rel newtup w.heap tid) true) →
      ∃ w1, spock_apply_heap_update c rel oldtup newtup w = .ok w1) ∧
    (update_tuple c rel newtup w.heap tid).length = rel.atts.length ∧
    ∀ i, i < rel.atts.length →
      (newtup.changed i = false →
        (update_tuple c rel newtup w.heap tid)[i]? =
          some ((w.heap[tid]?.getD []).getD i none)) ∧
      (newtup.changed i = true →
        (update_tuple c rel newtup w.heap tid)[i]? =
          some (if (fill_missing_defaults c rel newtup).nulls i then none
            else some ((fill_missing_defaults c rel newtup).values i))) ∧
      (newtup.changed i = true →
        (rel.atts.length = rel.natts ∨ physatt_in_attmap rel i = true ∨
          ∀ e, (i, e) ∉ fill_missing_defaults_defmap rel) →
        (update_tuple c rel newtup w.heap tid)[i]? =
          some (if newtup.nulls i then none else some (newtup.values i))) := by
  refine ⟨?_, (update_found_returns c rel oldtup newtup w tid _ hfind hrow).2 hnoconf, ?_, ?_⟩
  · intro w1 h
    obtain ⟨h1, h2, h3⟩ :=
      (update_found_outcome c rel oldtup newtup w w1 tid _ hfind hrow h).2 hnoconf
    exact ⟨h2, h3, h1⟩
  · unfold update_tuple
    exact heap_modify_tuple_length _ _ _ _ _
  · intro i hi
    have hcol : (update_tuple c rel newtup w.heap tid)[i]? =
        some (if newtup.changed i then
            (if (fill_missing_defaults c rel newtup).nulls i then none
              else some ((fill_missing_defaults c rel newtup).values i))
          else (w.heap[tid]?.getD []).getD i none) := by
      unfold update_tuple
      rw [heap_modify_tuple_column _ _ _ _ _ i hi, fill_missing_defaults_changed]
    refine ⟨?_, ?_, ?_⟩
    · intro hc
      rw [hcol, hc]
      rfl
    · intro hc
      rw [hcol, hc]
      rfl
    · intro hc hun
      obtain ⟨hv, hn⟩ := fill_missing_defaults_untouched c rel newtup i hun
      rw [hcol, hc, hv, hn]
      rfl

/-- The update of `R = {(1, "a")}` with old key `id = 1` and new image
`(1, "b")`, `changed = [false, true]`, leaves `R = {(1, "b")}`; the same update
of `X = {(1, "a", 5)}`, whose third column is not replicated and has a
default, leaves `X = {(1, "b", 5)}`. -/
theorem apply_update_partial_merge_witness :
    (quiet.spock_tuple_find_replidx relR World.one_row.heap (image 1 "a") = some 0 ∧
      br_update_row quiet relR 0 (update_tuple quiet relR (image_v 1 "b") World.one_row.heap 0) =
        some (update_tuple quiet relR (image_v 1 "b") World.one_row.heap 0) ∧
      update_conflict quiet 0 (World.one_row.heap[0]?.getD []) = false ∧
      ∃ w1, spock_apply_heap_update quiet relR (image 1 "a") (image_v 1 "b") World.one_row =
          .ok w1 ∧
        w1.heap = [[some (Datum.int 1), some (Datum.text "b")]]) ∧
    (quiet.spock_tuple_find_replidx relXd World.one_rowX.heap (image 1 "a") = some 0 ∧
      (fill_missing_defaults quiet relXd (image_v 1 "b")).values 2 = Datum.int 0 ∧
      (fill_missing_defaults quiet relXd (image_v 1 "b")).nulls 2 = false ∧
      ∃ w1, spock_apply_heap_update quiet relXd (image 1 "a") (image_v 1 "b") World.one_rowX =
          .ok w1 ∧
        w1.heap = [[some (Datum.int 1), some (Datum.text "b"), some (Datum.int 5)]]) := by
  refine ⟨⟨rfl, rfl, rfl, ?_⟩, ⟨rfl, rfl, rfl, ?_⟩⟩
  · obtain ⟨hall, hex, _⟩ :=
      apply_update_partial_merge quiet relR (image 1 "a") (image_v 1 "b") World.one_row 0
        rfl rfl rfl
    obtain ⟨w1, h1⟩ := hex (fun h => absurd h (by decide)) (fun _ _ => rfl)
    exact ⟨w1, h1, (hall w1 h1).1⟩
  · obtain ⟨hall, hex, _⟩ :=
      apply_update_partial_merge quiet relXd (image 1 "a") (image_v 1 "b") World.one_rowX 0
        rfl rfl rfl
    obtain ⟨w1, h1⟩ := hex (fun h => absurd h (by decide)) (fun _ _ => rfl)
    exact ⟨w1, h1, (hall w1 h1).1⟩

/-! ## Switching the relation of the multi-insert -/

theorem mi_finish_eq (c : Collaborators) (rel1 : SpockRelation) (w : World)
    (st : ApplyMIState) (rows : List HeapTuple)
    (hst : w.spkmistate = some st)
    (hn : st.nbuffered_tuples = rows.length)
    (hbuf : st.buffered_tuples.take st.nbuffered_tuples = rows.map some) :
    spock_apply_heap_mi_finish c rel1 w =
      { heap := w.heap ++ rows
        trace := w.trace ++ mi_close_events c st rows
        cid := w.cid
        spkmistate := none } := by
  have hslots : (st.buffered_tuples.take st.nbuffered_tuples).reduceOption = rows := by
    rw [hbuf, reduceOption_map_some]
  unfold spock_apply_heap_mi_finish mi_close_events
  simp only [hst]
  by_cases hn0 : st.nbuffered_tuples = 0
  · have hr : rows = [] := by
      cases rows with
      | nil => rfl
      | cons a l => simp [hn0] at hn
    have hflush : spock_apply_heap_mi_flush c w = w := by
      unfold spock_apply_heap_mi_flush
      simp [hst, hn0]
    rw [hflush]
    simp [hst, hn0, hr, finish_apply_exec_state_eq, World.log, World.logs, List.append_assoc]
  · rw [mi_flush_eq c w st hst hn0, hslots]
    simp [hn0, finish_apply_exec_state_eq, World.log, World.logs, List.append_assoc]

theorem mi_start_switch (c : Collaborators) (rel : SpockRelation) (w : World)
    (st : ApplyMIState) (rows : List HeapTuple)
    (hst : w.spkmistate = some st)
    (hn : st.nbuffered_tuples = rows.length)
    (hbuf : st.buffered_tuples.take st.nbuffered_tuples = rows.map some)
    (hdiff : st.rel.relid ≠ rel.relid) :
    spock_apply_heap_mi_start c rel w =
      { heap := w.heap ++ rows
        trace := w.trace ++ (mi_close_events c st rows ++
          (init_events rel ++ [Event.ExecOpenIndices, Event.GetBulkInsertState]))
        cid := w.cid
        spkmistate := some
          { rel := rel
            cid := w.cid
            buffered_tuples := List.replicate (mi_maxbuffered_tuples c rel) none
            maxbuffered_tuples := mi_maxbuffered_tuples c rel
            nbuffered_tuples := 0 } } := by
  unfold spock_apply_heap_mi_start
  simp only [hst, beq_iff_eq, hdiff, if_false]
  rw [mi_finish_eq c st.rel w st rows hst hn hbuf]
  simp [init_apply_exec_state_eq, World.log, List.append_assoc]

theorem bulk_writes_mi_close_events (c : Collaborators) (st : ApplyMIState)
    (rows : List HeapTuple) :
    bulk_writes (mi_close_events c st rows) =
      if st.nbuffered_tuples = 0 then [] else [rows] := by
  have h1 : bulk_writes (mi_close_events c st rows) =
      bulk_writes (storage_events (mi_close_events c st rows)) :=
    (bulk_writes_storage _).symm
  rw [h1]
  unfold mi_close_events
  simp only [storage_events_append, storage_events_finish_events, storage_events_mi_drop_slots,
    List.append_nil]
  have h2 : storage_events [Event.FreeBulkInsertState] = [] := rfl
  rw [h2, List.append_nil]
  split
  · rfl
  · rw [storage_events_flush_events, bulk_writes_flush_events]

/-- C13: when the multi-insert state is bound to a relation with the rows
`rows` buffered and start is called for a different relation, the buffered
rows are written in one bulk write of the bound relation's episode and that
episode is closed (bulk insert state released, execution state torn down,
slots released) before the execution state of the new relation is created;
afterwards the state is bound to the new relation with the capacity computed
for it and nothing buffered, and after the add that called start has buffered
its row the occupancy is 1 and the only bulk write is the one of the old
relation's rows.  When start is called for the relation the state is already
bound to, it changes nothing. -/
theorem mi_switch_relation (c : Collaborators) (rel : SpockRelation) (w : World)
    (st : ApplyMIState) (rows : List HeapTuple)
    (hst : w.spkmistate = some st)
    (hn : st.nbuffered_tuples = rows.length)
    (hbuf : st.buffered_tuples.take st.nbuffered_tuples = rows.map some) :
    (st.rel.relid ≠ rel.relid →
      (spock_apply_heap_mi_start c rel w).heap = w.heap ++ rows ∧
      newEvents w (spock_apply_heap_mi_start c rel w) =
        (if st.nbuffered_tuples = 0 then [] else flush_events c st.rel st.cid rows) ++
          [Event.FreeBulkInsertState] ++ finish_events st.rel ++
          mi_drop_slots st.buffered_tuples st.maxbuffered_tuples ++
          (init_events rel ++ [Event.ExecOpenIndices, Event.GetBulkInsertState]) ∧
      bulk_writes (newEvents w (spock_apply_heap_mi_start c rel w)) =
        (if st.nbuffered_tuples = 0 then [] else [rows]) ∧
      (spock_apply_heap_mi_start c rel w).spkmistate = some
        { rel := rel
          cid := w.cid
          buffered_tuples := List.replicate (mi_maxbuffered_tuples c rel) none
          maxbuffered_tuples := mi_maxbuffered_tuples c rel
          nbuffered_tuples := 0 } ∧
      ∀ tup r, br_insert_row c rel tup = some r → constraints_pass c rel r →
        ∃ w1 st1, spock_apply_heap_mi_add_tuple c rel tup w = .ok w1 ∧
          w1.spkmistate = some st1 ∧ st1.rel = rel ∧
          st1.maxbuffered_tuples = mi_maxbuffered_tuples c rel ∧
          st1.nbuffered_tuples = 1 ∧
          st1.buffered_tuples.take st1.nbuffered_tuples = [some r] ∧
          w1.heap = w.heap ++ rows ∧
          bulk_writes (newEvents w w1) =
            (if st.nbuffered_tuples = 0 then [] else [rows])) ∧
    (st.rel.relid = rel.relid → spock_apply_heap_mi_start c rel w = w) := by
  constructor
  · intro hdiff
    have hstart := mi_start_switch c rel w st rows hst hn hbuf hdiff
    have hpos := mi_maxbuffered_tuples_pos c rel
    have hinit : bulk_writes (init_events rel ++
        [Event.ExecOpenIndices, Event.GetBulkInsertState]) = [] := by
      rw [← bulk_writes_storage, storage_events_append, storage_events_init_events]
      rfl
    refine ⟨by rw [hstart], ?_, ?_, by rw [hstart], ?_⟩
    · rw [hstart, newEvents_of_trace w _ _ rfl]
      rfl
    · rw [hstart, newEvents_of_trace w _ _ rfl, bulk_writes_append,
        bulk_writes_mi_close_events, hinit, List.append_nil]
    · intro tup r hrow hcon
      have hprep : mi_add_prepare c rel w = spock_apply_heap_mi_start c rel w := by
        unfold mi_add_prepare
        rw [hstart]
        simp only [ge_iff_le, Nat.le_zero_eq]
        rw [if_neg (by omega)]
      have heq := mi_add_tuple_eq c rel tup w
        { rel := rel
          cid := w.cid
          buffered_tuples := List.replicate (mi_maxbuffered_tuples c rel) none
          maxbuffered_tuples := mi_maxbuffered_tuples c rel
          nbuffered_tuples := 0 } r
        (by rw [hprep, hstart]) rfl (by simpa using hpos) hrow hcon
      rw [hprep, hstart] at heq
      refine ⟨_, _, heq, rfl, rfl, rfl, rfl, ?_, rfl, ?_⟩
      · simp only
        cases hcap : mi_maxbuffered_tuples c rel with
        | zero => omega
        | succ k => simp [List.replicate_succ]
      · have hadd : ∀ st2, bulk_writes (mi_add_events c rel st2 tup r) = [] := by
          intro st2
          rw [← bulk_writes_storage, storage_events_mi_add_events]
          rfl
        have hi1 : bulk_writes (init_events rel) = [] := by
          rw [← bulk_writes_storage, storage_events_init_events]
          rfl
        have hi2 : bulk_writes [Event.ExecOpenIndices, Event.GetBulkInsertState] = [] := rfl
        unfold newEvents
        simp only [List.append_assoc, List.drop_left, bulk_writes_append,
          bulk_writes_mi_close_events, hadd, hi1, hi2, List.append_nil]
  · intro hsame
    unfold spock_apply_heap_mi_start
    simp [hst, hsame]

/-- The state bound to the relation with a before-row insert trigger, one row
buffered, receives an add for `R`: the row is written and the state is bound
to `R` with capacity 1000 and one row; an add for the bound relation leaves
start without effect. -/
theorem mi_switch_relation_witness :
    (World.bound_one.spkmistate = some state_bound_one ∧
      state_bound_one.nbuffered_tuples =
        [[some (Datum.int 1), some (Datum.text "a")]].length ∧
      state_bound_one.buffered_tuples.take state_bound_one.nbuffered_tuples =
        [[some (Datum.int 1), some (Datum.text "a")]].map some ∧
      state_bound_one.rel.relid ≠ relR.relid ∧
      mi_maxbuffered_tuples quiet relR = 1000) ∧
    (∃ w1 st1, spock_apply_heap_mi_add_tuple quiet relR (image 2 "b") World.bound_one = .ok w1 ∧
      w1.spkmistate = some st1 ∧ st1.rel = relR ∧
      st1.maxbuffered_tuples = mi_maxbuffered_tuples quiet relR ∧
      st1.nbuffered_tuples = 1 ∧
      st1.buffered_tuples.take st1.nbuffered_tuples =
        [some [some (Datum.int 2), some (Datum.text "b")]] ∧
      w1.heap = World.bound_one.heap ++ [[some (Datum.int 1), some (Datum.text "a")]] ∧
      bulk_writes (newEvents World.bound_one w1) =
        (if state_bound_one.nbuffered_tuples = 0 then []
          else [[[some (Datum.int 1), some (Datum.text "a")]]])) ∧
    spock_apply_heap_mi_start quiet relR_br World.bound_one = World.bound_one :=
  ⟨⟨rfl, rfl, rfl, by decide, rfl⟩,
    ((mi_switch_relation quiet relR World.bound_one state_bound_one
        [[some (Datum.int 1), some (Datum.text "a")]] rfl rfl rfl).1 (by decide)).2.2.2.2
      (image 2 "b") [some (Datum.int 2), some (Datum.text "b")] rfl (fun _ => rfl),
    (mi_switch_relation quiet relR_br World.bound_one state_bound_one
        [[some (Datum.int 1), some (Datum.text "a")]] rfl rfl rfl).2 rfl⟩

end Spock
